import Mathlib

/-!
# Verification of the recommender-system engine

A shallow embedding of `recommender_system/recommendation_engine.py` (plus the
relevant relational models from `recommender_system/models.py`), together with
proofs about the embedded operations.

Conventions of the embedding:

* External stable ids (`user_id`, `video_id`, `category_id`,
  `parent_category_id`) are modelled as natural numbers; the only operations
  the code performs on them are equality tests and the total order used by
  `compute_video_similarities` (`v1.video_id < v2.video_id`).
* Timestamps are integers (seconds); `timedelta(days = 7)` is `7 * 86400`.
* Python floats are modelled as rationals (`ℚ`); the literal `1.2` in
  `check_model_needs_training` is the rational `6/5`, and the Cypher literal
  `0.3` in `compute_video_similarities` is `3/10`.
* The Neo4j graph store is a `GraphState`: one list per node label and per
  relationship type, in creation order.  Cypher `MERGE ... SET` /
  `MERGE ... ON CREATE SET ... ON MATCH SET` is the keyed upsert `upsertK`
  below: it updates the first (in states reachable from the empty graph, the
  unique) element matching the merge key, and appends a fresh element when the
  key is absent.  `MATCH` that fails to bind makes the statement a no-op.
* The relational store (Django ORM) is a `RelationalDB` record of lists; the
  well-formedness facts used as hypotheses (`DBWf`) are exactly the schema
  constraints declared in `models.py` (primary keys, `unique_together`,
  foreign keys, many-to-many targets).
-/

namespace RecSys

/-- External stable user id (`User.id`, a UUID in the source). -/
abbrev UserId := Nat

/-- External stable video id (`Video.video_id`). -/
abbrev VideoId := Nat

/-- External stable category id (`Category.category_id`). -/
abbrev CatId := Nat

/-- External stable parent-category id (`ParentCategory.parent_category_id`). -/
abbrev PCatId := Nat

/-- Timestamps, in seconds. -/
abbrev Time := Int

/-! ## Keyed upsert: the semantics of Cypher `MERGE` on keyed patterns

Every `MERGE` in the engine matches a pattern determined by a key (a node-id
property, or a relationship between two keyed endpoints).  `upsertK key k upd
mk l` updates the first element of `l` whose key is `k` with `upd` (the
`SET` / `ON MATCH SET` clause) and appends `mk` (the created element, with `ON
CREATE SET` applied) when no element has key `k`. -/

/-- Cypher `MERGE` on a keyed pattern: update the first element with key `k`,
or append `mk` when the key is absent. -/
def upsertK {α κ : Type} [DecidableEq κ] (key : α → κ) (k : κ) (upd : α → α)
    (mk : α) : List α → List α
  | [] => [mk]
  | x :: xs => if key x = k then upd x :: xs else x :: upsertK key k upd mk xs

/-- Cypher `MATCH` on a keyed pattern: the first element with key `k`. -/
def lookupK {α κ : Type} [DecidableEq κ] (key : α → κ) (k : κ) (l : List α) :
    Option α :=
  l.find? (fun x => key x = k)

/-! ## The Neo4j graph store

One structure per node label and relationship type, mirroring the properties
the engine reads or writes.  A node created by a bare `MERGE` (only the id in
the pattern, no `SET`) has all optional properties `none`. -/

/-- A stored embedding property, as `get_recommendations` and
`_build_faiss_index` see it after `json.loads`:
`missing` (property absent, or a falsy value such as an empty string),
`malformed` (present but `json.loads` raises), or a parsed float vector. -/
inductive EmbVal where
  | missing : EmbVal
  | malformed : Nat → EmbVal
  | ok : List ℚ → EmbVal
deriving DecidableEq, Repr

/-- A `(:User)` node: `user_id`, `username`, `embedding`, `updated_at`. -/
structure UserNode where
  userId : UserId
  username : Option String := none
  embedding : EmbVal := .missing
  updatedAt : Option Time := none
deriving DecidableEq, Repr

/-- A `(:Video)` node: `video_id`, `title`, `categories`,
`parent_categories`, `embedding`, `updated_at`. -/
structure VideoNode where
  videoId : VideoId
  title : Option String := none
  categories : Option (List CatId) := none
  parentCategories : Option (List PCatId) := none
  embedding : EmbVal := .missing
  updatedAt : Option Time := none
deriving DecidableEq, Repr

/-- A `(:Category)` node. -/
structure CatNode where
  categoryId : CatId
  name : Option String := none
  parentCategory : Option PCatId := none
  embedding : EmbVal := .missing
  updatedAt : Option Time := none
deriving DecidableEq, Repr

/-- A `(:ParentCategory)` node. -/
structure PCatNode where
  parentCategoryId : PCatId
  name : Option String := none
  embedding : EmbVal := .missing
  updatedAt : Option Time := none
deriving DecidableEq, Repr

/-- A `[:WATCHES]` relationship with `watch_time` and `timestamp`. -/
structure WatchesRel where
  user : UserId
  video : VideoId
  watchTime : ℚ
  timestamp : Time
deriving DecidableEq, Repr

/-- A `[:LIKES]` relationship with `timestamp`. -/
structure LikesRel where
  user : UserId
  video : VideoId
  timestamp : Time
deriving DecidableEq, Repr

/-- A `[:FOLLOWS]` relationship with `timestamp`. -/
structure FollowsRel where
  follower : UserId
  followee : UserId
  timestamp : Time
deriving DecidableEq, Repr

/-- An `[:INTERESTED_IN]` relationship with `score` and `count`. -/
structure InterestedInRel where
  user : UserId
  category : CatId
  score : ℚ
  count : Nat
deriving DecidableEq, Repr

/-- A `[:CREATED_BY]` relationship (no properties). -/
structure CreatedByRel where
  video : VideoId
  creator : UserId
deriving DecidableEq, Repr

/-- A `[:BELONGS_TO]` relationship (no properties). -/
structure BelongsToRel where
  video : VideoId
  category : CatId
deriving DecidableEq, Repr

/-- A `[:PARENT_OF]` relationship (no properties). -/
structure ParentOfRel where
  category : CatId
  parent : PCatId
deriving DecidableEq, Repr

/-- A `[:SIMILAR_TO]` relationship with `similarity` and `updated_at`.
It is undirected: `MERGE (v1)-[s:SIMILAR_TO]-(v2)` matches it in either
orientation, so its merge key is the unordered pair of endpoints. -/
structure SimilarToRel where
  a : VideoId
  b : VideoId
  similarity : ℚ
  updatedAt : Option Time := none
deriving DecidableEq, Repr

/-- The merge key of an undirected `[:SIMILAR_TO]` edge: the unordered
pair of its endpoints, normalized to (min, max). -/
def SimilarToRel.skey (e : SimilarToRel) : VideoId × VideoId :=
  (min e.a e.b, max e.a e.b)

/-- The unordered-pair key for two video ids. -/
def spair (x y : VideoId) : VideoId × VideoId := (min x y, max x y)

/-- The merge key of a `[:WATCHES]` edge. -/
def WatchesRel.key (e : WatchesRel) : UserId × VideoId := (e.user, e.video)

/-- The merge key of a `[:LIKES]` edge. -/
def LikesRel.key (e : LikesRel) : UserId × VideoId := (e.user, e.video)

/-- The merge key of a `[:FOLLOWS]` edge. -/
def FollowsRel.key (e : FollowsRel) : UserId × UserId :=
  (e.follower, e.followee)

/-- The merge key of an `[:INTERESTED_IN]` edge. -/
def InterestedInRel.key (e : InterestedInRel) : UserId × CatId :=
  (e.user, e.category)

/-- The merge key of a `[:CREATED_BY]` edge. -/
def CreatedByRel.key (e : CreatedByRel) : VideoId × UserId :=
  (e.video, e.creator)

/-- The merge key of a `[:BELONGS_TO]` edge. -/
def BelongsToRel.key (e : BelongsToRel) : VideoId × CatId :=
  (e.video, e.category)

/-- The merge key of a `[:PARENT_OF]` edge. -/
def ParentOfRel.key (e : ParentOfRel) : CatId × PCatId :=
  (e.category, e.parent)

/-- The whole Neo4j graph state, one list per node label and per
relationship type, in creation order. -/
structure GraphState where
  users : List UserNode := []
  videos : List VideoNode := []
  cats : List CatNode := []
  pcats : List PCatNode := []
  watches : List WatchesRel := []
  likes : List LikesRel := []
  follows : List FollowsRel := []
  interests : List InterestedInRel := []
  createdBy : List CreatedByRel := []
  belongsTo : List BelongsToRel := []
  parentOf : List ParentOfRel := []
  similar : List SimilarToRel := []
deriving DecidableEq, Repr

/-- The empty graph store. -/
def GraphState.empty : GraphState := {}

/-- `MATCH (u:User \x7buser_id: $id\x7d)` — the first user node with that id. -/
def GraphState.findUser (s : GraphState) (uid : UserId) : Option UserNode :=
  lookupK UserNode.userId uid s.users

/-- `MATCH (v:Video \x7bvideo_id: $id\x7d)`. -/
def GraphState.findVideo (s : GraphState) (vid : VideoId) : Option VideoNode :=
  lookupK VideoNode.videoId vid s.videos

/-- `MATCH (c:Category \x7bcategory_id: $id\x7d)`. -/
def GraphState.findCat (s : GraphState) (cid : CatId) : Option CatNode :=
  lookupK CatNode.categoryId cid s.cats

/-! ## Graph Sync (`sync_*_to_neo4j`, `bulk_sync_all_data_to_neo4j`)

The relational source records mirror `models.py`; sync functions are
translated statement by statement from the Cypher in
`recommendation_engine.py`. -/

/-- A relational `User` row (`models.User`): primary key `id`, `username`. -/
structure RUser where
  id : UserId
  username : String
deriving DecidableEq, Repr

/-- A relational `ParentCategory` row. -/
structure RParentCategory where
  parentCategoryId : PCatId
  name : String
deriving DecidableEq, Repr

/-- A relational `Category` row, with its `parent_category` foreign key. -/
structure RCategory where
  categoryId : CatId
  name : String
  parentCategoryId : PCatId
deriving DecidableEq, Repr

/-- A relational `Video` row with its creator foreign key and the id lists
of its `categories` / `parent_categories` many-to-many sets. -/
structure RVideo where
  videoId : VideoId
  title : String
  creatorId : UserId
  categoryIds : List CatId
  parentCategoryIds : List PCatId
deriving DecidableEq, Repr

/-- A relational `Watch` row (`unique_together (user, video)`). -/
structure RWatch where
  userId : UserId
  videoId : VideoId
  watchTime : ℚ
  timestamp : Time
deriving DecidableEq, Repr

/-- A relational `Like` row (`unique_together (user, video)`). -/
structure RLike where
  userId : UserId
  videoId : VideoId
  timestamp : Time
deriving DecidableEq, Repr

/-- A relational `Follow` row (`unique_together (follower, followee)`). -/
structure RFollow where
  followerId : UserId
  followeeId : UserId
  timestamp : Time
deriving DecidableEq, Repr

/-- The relational system of record consumed by the bulk sync. -/
structure RelationalDB where
  users : List RUser := []
  parentCategories : List RParentCategory := []
  categories : List RCategory := []
  videos : List RVideo := []
  watches : List RWatch := []
  likes : List RLike := []
  follows : List RFollow := []
deriving DecidableEq, Repr

/-- `sync_user_to_neo4j`: `MERGE (u:User \x7buser_id\x7d) SET u.username,
u.updated_at = datetime()`. -/
def syncUser (now : Time) (u : RUser) (s : GraphState) : GraphState :=
  let users := upsertK UserNode.userId u.id
    (fun n => { n with username := some u.username, updatedAt := some now })
    { userId := u.id, username := some u.username, updatedAt := some now }
    s.users
  { s with users := users }

/-- `sync_categories_to_neo4j`, parent-category half: `MERGE (pc:ParentCategory)
SET pc.name, pc.updated_at = datetime()`. -/
def syncParentCategory (now : Time) (pc : RParentCategory) (s : GraphState) :
    GraphState :=
  let pcats := upsertK PCatNode.parentCategoryId pc.parentCategoryId
    (fun n => { n with name := some pc.name, updatedAt := some now })
    { parentCategoryId := pc.parentCategoryId, name := some pc.name,
      updatedAt := some now }
    s.pcats
  { s with pcats := pcats }

/-- `sync_categories_to_neo4j`, category half: `MERGE (c:Category) SET c.name,
c.parent_category, c.updated_at = datetime(); MERGE (pc:ParentCategory);
MERGE (c)-[:PARENT_OF]->(pc)`. -/
def syncCategory (now : Time) (c : RCategory) (s : GraphState) : GraphState :=
  let cats := upsertK CatNode.categoryId c.categoryId
    (fun n => { n with name := some c.name,
                       parentCategory := some c.parentCategoryId,
                       updatedAt := some now })
    { categoryId := c.categoryId, name := some c.name,
      parentCategory := some c.parentCategoryId, updatedAt := some now }
    s.cats
  let s := { s with cats := cats }
  let pcats := upsertK PCatNode.parentCategoryId c.parentCategoryId
    (fun n => n) { parentCategoryId := c.parentCategoryId } s.pcats
  let s := { s with pcats := pcats }
  let po := upsertK ParentOfRel.key
    (c.categoryId, c.parentCategoryId) (fun e => e)
    { category := c.categoryId, parent := c.parentCategoryId } s.parentOf
  { s with parentOf := po }

/-- `sync_categories_to_neo4j`: all parent categories, then all categories. -/
def syncCategoriesAll (now : Time) (db : RelationalDB) (s : GraphState) :
    GraphState :=
  let s := db.parentCategories.foldl (fun s pc => syncParentCategory now pc s) s
  db.categories.foldl (fun s c => syncCategory now c s) s

/-- `sync_video_to_neo4j`: `MERGE (v:Video) SET title/categories/
parent_categories/updated_at; MERGE (creator:User); MERGE
(v)-[:CREATED_BY]->(creator); UNWIND $categories MERGE (c:Category);
MERGE (v)-[:BELONGS_TO]->(c)`. -/
def syncVideo (now : Time) (v : RVideo) (s : GraphState) : GraphState :=
  let videos := upsertK VideoNode.videoId v.videoId
    (fun n => { n with title := some v.title,
                       categories := some v.categoryIds,
                       parentCategories := some v.parentCategoryIds,
                       updatedAt := some now })
    { videoId := v.videoId, title := some v.title,
      categories := some v.categoryIds,
      parentCategories := some v.parentCategoryIds, updatedAt := some now }
    s.videos
  let s := { s with videos := videos }
  let users := upsertK UserNode.userId v.creatorId
    (fun n => n) { userId := v.creatorId } s.users
  let s := { s with users := users }
  let cb := upsertK CreatedByRel.key
    (v.videoId, v.creatorId) (fun e => e)
    { video := v.videoId, creator := v.creatorId } s.createdBy
  let s := { s with createdBy := cb }
  v.categoryIds.foldl (fun s cid =>
    let cats := upsertK CatNode.categoryId cid
      (fun n => n) { categoryId := cid } s.cats
    let s := { s with cats := cats }
    let bt := upsertK BelongsToRel.key
      (v.videoId, cid) (fun e => e)
      { video := v.videoId, category := cid } s.belongsTo
    { s with belongsTo := bt }) s

/-- One `MERGE (u)-[i:INTERESTED_IN]->(c) ON CREATE SET i.score = $d,
i.count = 1 ON MATCH SET i.score = i.score + $d, i.count = i.count + 1`,
guarded by `MATCH (c:Category \x7bcategory_id: cat_id\x7d)` (a no-op when the
category node is absent). -/
def mergeInterest (uid : UserId) (cid : CatId) (d : ℚ) (s : GraphState) :
    GraphState :=
  match s.findCat cid with
  | none => s
  | some _ =>
      let ints := upsertK InterestedInRel.key (uid, cid)
        (fun e => { e with score := e.score + d, count := e.count + 1 })
        { user := uid, category := cid, score := d, count := 1 }
        s.interests
      { s with interests := ints }

/-- `sync_watch_to_neo4j` (the Cypher statement; the dual write to the
relational `UserCategoryInterest` aggregate does not touch the graph store):
`MATCH (u:User) MATCH (v:Video)` — a no-op unless both exist — then
`MERGE (u)-[w:WATCHES]->(v) SET w.watch_time, w.timestamp`, then
`UNWIND v.categories` driving `mergeInterest` with `$watch_time`. -/
def syncWatch (w : RWatch) (s : GraphState) : GraphState :=
  match s.findUser w.userId, s.findVideo w.videoId with
  | some _, some v =>
      let ws := upsertK WatchesRel.key
        (w.userId, w.videoId)
        (fun e => { e with watchTime := w.watchTime, timestamp := w.timestamp })
        { user := w.userId, video := w.videoId, watchTime := w.watchTime,
          timestamp := w.timestamp }
        s.watches
      let s := { s with watches := ws }
      (v.categories.getD []).foldl
        (fun s cid => mergeInterest w.userId cid w.watchTime s) s
  | _, _ => s

/-- `sync_like_to_neo4j` (graph half): `MATCH u, v; MERGE (u)-[l:LIKES]->(v)
SET l.timestamp`, then `UNWIND v.categories` driving `mergeInterest`
with the constant `2.0`. -/
def syncLike (l : RLike) (s : GraphState) : GraphState :=
  match s.findUser l.userId, s.findVideo l.videoId with
  | some _, some v =>
      let ls := upsertK LikesRel.key
        (l.userId, l.videoId)
        (fun e => { e with timestamp := l.timestamp })
        { user := l.userId, video := l.videoId, timestamp := l.timestamp }
        s.likes
      let s := { s with likes := ls }
      (v.categories.getD []).foldl
        (fun s cid => mergeInterest l.userId cid 2 s) s
  | _, _ => s

/-- `sync_follow_to_neo4j`: `MATCH (u1:User) MATCH (u2:User);
MERGE (u1)-[f:FOLLOWS]->(u2) SET f.timestamp`. -/
def syncFollow (f : RFollow) (s : GraphState) : GraphState :=
  match s.findUser f.followerId, s.findUser f.followeeId with
  | some _, some _ =>
      let fs := upsertK FollowsRel.key
        (f.followerId, f.followeeId)
        (fun e => { e with timestamp := f.timestamp })
        { follower := f.followerId, followee := f.followeeId,
          timestamp := f.timestamp }
        s.follows
      { s with follows := fs }
  | _, _ => s

/-! ## `compute_video_similarities` -/

/-- The category-overlap score from `compute_video_similarities`:
`toFloat(size([c IN c1 WHERE c IN c2])) / size(c1 + [c IN c2 WHERE NOT c IN
c1])`.  When both lists are empty the Cypher division `0.0 / 0` yields `NaN`,
which fails the `>= 0.3` comparison exactly as the Lean convention
`0 / 0 = 0` does, so no explicit guard is needed. -/
def catSim (c1 c2 : List CatId) : ℚ :=
  ((c1.filter (fun c => c2.contains c)).length : ℚ) /
    ((c1 ++ c2.filter (fun c => ! c1.contains c)).length : ℚ)

/-- The ordered video pairs enumerated by
`MATCH (v1:Video), (v2:Video) WHERE v1.video_id < v2.video_id`. -/
def videoPairs (vs : List VideoNode) : List (VideoNode × VideoNode) :=
  (vs.map (fun v1 => vs.filterMap
    (fun v2 => if v1.videoId < v2.videoId then some (v1, v2) else none))).flatten

/-- One row of `compute_video_similarities` (it only ever touches
`SIMILAR_TO` edges): when both category properties are non-null and the
score reaches `0.3`, `MERGE (v1)-[s:SIMILAR_TO]-(v2) SET s.similarity =
cat_sim, s.updated_at = datetime()`. -/
def simUpd (now : Time) (sl : List SimilarToRel) (p : VideoNode × VideoNode) :
    List SimilarToRel :=
  match p.1.categories, p.2.categories with
  | some c1, some c2 =>
      let sim := catSim c1 c2
      if (3 : ℚ)/10 ≤ sim then
        upsertK SimilarToRel.skey (spair p.1.videoId p.2.videoId)
          (fun e => { e with similarity := sim, updatedAt := some now })
          { a := p.1.videoId, b := p.2.videoId, similarity := sim,
            updatedAt := some now }
          sl
      else sl
  | _, _ => sl

/-- `compute_video_similarities`: the pairwise scan over all video pairs. -/
def computeVideoSimilarities (now : Time) (s : GraphState) : GraphState :=
  { s with similar := (videoPairs s.videos).foldl (simUpd now) s.similar }

/-- `bulk_sync_all_data_to_neo4j`: categories, users, videos, the first
10000 watch rows, likes, follows, then the similarity computation. -/
def bulkSyncAllData (now : Time) (db : RelationalDB) (s : GraphState) :
    GraphState :=
  let s := syncCategoriesAll now db s
  let s := db.users.foldl (fun s u => syncUser now u s) s
  let s := db.videos.foldl (fun s v => syncVideo now v s) s
  let s := (db.watches.take 10000).foldl (fun s w => syncWatch w s) s
  let s := db.likes.foldl (fun s l => syncLike l s) s
  let s := db.follows.foldl (fun s f => syncFollow f s) s
  computeVideoSimilarities now s

/-! ## Query-time graph reads -/

/-- The number of `[:WATCHES]` relationships into a video
(`OPTIONAL MATCH (v)<-[w:WATCHES]-() ... count(w)`). -/
def GraphState.watchCount (s : GraphState) (vid : VideoId) : Nat :=
  (s.watches.filter (fun w => w.video = vid)).length

/-- Stable insertion of a scored video into a descending-ordered list;
ties keep store order (the Cypher `ORDER BY watch_count DESC` leaves tie
order to the store; the embedding fixes it to creation order). -/
def insertByCountDesc (x : VideoId × Nat) :
    List (VideoId × Nat) → List (VideoId × Nat)
  | [] => [x]
  | y :: ys => if y.2 < x.2 then x :: y :: ys else y :: insertByCountDesc x ys

/-- Stable descending sort by watch count. -/
def sortByCountDesc (l : List (VideoId × Nat)) : List (VideoId × Nat) :=
  l.foldr insertByCountDesc []

/-- `_get_popular_videos`: `MATCH (v:Video)<-[w:WATCHES]-() WITH v, count(w)
as watch_count ORDER BY watch_count DESC LIMIT $limit RETURN v.video_id`.
Only videos with at least one watch match the pattern.  Note: the requesting
user's watched videos are NOT filtered out here. -/
def getPopularVideos (s : GraphState) (limit : Nat) : List VideoId :=
  let scored := (s.videos.filterMap (fun v =>
    let c := s.watchCount v.videoId
    if c ≠ 0 then some (v.videoId, c) else none))
  ((sortByCountDesc scored).take limit).map Prod.fst

/-- `MATCH (u:User \x7buser_id\x7d)-[:WATCHES]->(v:Video) RETURN v.video_id`:
the requesting user's watched video ids. -/
def GraphState.watchedBy (s : GraphState) (uid : UserId) : List VideoId :=
  (s.watches.filter (fun w => w.user = uid)).map WatchesRel.video

/-! ## The engine process state and persisted artifacts -/

/-- The four node types of the heterogeneous graph. -/
inductive NodeType where
  | user : NodeType
  | video : NodeType
  | category : NodeType
  | parentCategory : NodeType
deriving DecidableEq, Repr

/-- `self.node_mappings` / `self.reverse_mappings`: one id↔dense-index
association list per node type (a Python dict in insertion order). -/
structure Mappings where
  user : List (Nat × Nat) := []
  video : List (Nat × Nat) := []
  category : List (Nat × Nat) := []
  parentCategory : List (Nat × Nat) := []
deriving DecidableEq, Repr

/-- Python `dict.get`: the value at the first occurrence of the key. -/
def dictGet (l : List (Nat × Nat)) (k : Nat) : Option Nat :=
  (l.find? (fun pr => pr.1 = k)).map Prod.snd

/-- The `torch.save`d model state dict: it determines the layer shapes
(hence the hidden dimension); the numeric weights are an opaque blob. -/
structure StateDict where
  hiddenDim : Nat
  blob : Nat
deriving DecidableEq, Repr

/-- The in-process `HeteroGNNModel` instance: hidden dimension, opaque
weights, and the train/eval mode flag (`model.train()` / `model.eval()`). -/
structure GNNModelSt where
  hiddenDim : Nat
  weights : Nat
  training : Bool
deriving DecidableEq, Repr

/-- `self.model_metadata`: a dict that may lack keys, hence one `Option`
per key (`.get` with a default at each use site). -/
structure MetaDict where
  hiddenDim : Option Nat := none
  nodeMappings : Option Mappings := none
  reverseMappings : Option Mappings := none
  lastTrained : Option Time := none
  totalEpochs : Option Nat := none
deriving DecidableEq, Repr

/-- The FAISS inner-product index: the stored (L2-normalized) vectors in
insertion order. -/
structure FaissIndexSt where
  vecs : List (List ℚ)
deriving DecidableEq, Repr

/-- The durable artifact store (`ml_models/`): `gnn_model.pt`,
`model_metadata.pkl`, `faiss_index.bin`, `video_ids.pkl`. -/
structure FileSystem where
  modelFile : Option StateDict := none
  metadataFile : Option MetaDict := none
  faissFile : Option FaissIndexSt := none
  videoIdsFile : Option (List VideoId) := none
deriving DecidableEq, Repr

/-- The process-wide engine state (`RecommendationEngine` attributes). -/
structure Engine where
  model : Option GNNModelSt := none
  nodeMappings : Mappings := {}
  reverseMappings : Mappings := {}
  dataLoaded : Bool := false
  modelMetadata : MetaDict := {}
  faissIndex : Option FaissIndexSt := none
  videoIds : List VideoId := []
deriving DecidableEq, Repr

/-- The numeric kernels that cannot live in `ℚ`: the evaluation-mode forward
pass output per node type and dense index (`emb`), FAISS L2 normalization
(`normalize`, a square root), and the per-epoch effect of the Adam steps on
the weight blob (`trainStep`). -/
structure EngineParams where
  emb : NodeType → Nat → List ℚ
  normalize : List ℚ → List ℚ
  trainStep : Nat → Nat

/-- `_load_model_if_exists`: requires BOTH `gnn_model.pt` and
`model_metadata.pkl`; loads the metadata, builds a model of the recorded
hidden dimension, loads the state dict (which raises — caught, model set to
`None` — when the saved shapes do not match), and restores the mappings. -/
def loadModelIfExists (fs : FileSystem) (e : Engine) : Engine :=
  match fs.modelFile, fs.metadataFile with
  | some w, some md =>
      let hd := md.hiddenDim.getD 128
      if w.hiddenDim = hd then
        { e with modelMetadata := md,
                 model := some { hiddenDim := hd, weights := w.blob,
                                 training := false },
                 nodeMappings := md.nodeMappings.getD {},
                 reverseMappings := md.reverseMappings.getD {} }
      else
        { e with modelMetadata := md, model := none }
  | _, _ => e

/-- `_load_faiss_index_if_exists`: requires both `faiss_index.bin` and
`video_ids.pkl`. -/
def loadFaissIfExists (fs : FileSystem) (e : Engine) : Engine :=
  match fs.faissFile, fs.videoIdsFile with
  | some idx, some vids => { e with faissIndex := some idx, videoIds := vids }
  | _, _ => e

/-- `RecommendationEngine.__init__` in a fresh process: empty attributes,
then `_load_model_if_exists` and `_load_faiss_index_if_exists`. -/
def Engine.startProcess (fs : FileSystem) : Engine :=
  loadFaissIfExists fs (loadModelIfExists fs {})

/-- `_save_model`: `torch.save(self.model.state_dict(), MODEL_PATH)` and the
reassignment of the in-memory `self.model_metadata` dict.  Note two facts
read off the source: the epoch counter is `total_epochs + 30` regardless of
how many epochs were run, and `model_metadata.pkl` (`METADATA_PATH`) is
never written — the metadata update stays in memory only.  (The `none`
branch is unreachable from the call site in `train_gnn_and_update_embeddings`,
where `self.model` is always set.) -/
def saveModel (now : Time) (e : Engine) (fs : FileSystem) :
    Engine × FileSystem :=
  match e.model with
  | none => (e, fs)
  | some m =>
      let md : MetaDict :=
        { hiddenDim := some m.hiddenDim,
          nodeMappings := some e.nodeMappings,
          reverseMappings := some e.reverseMappings,
          lastTrained := some now,
          totalEpochs := some (e.modelMetadata.totalEpochs.getD 0 + 30) }
      ({ e with modelMetadata := md },
       { fs with modelFile := some { hiddenDim := m.hiddenDim,
                                     blob := m.weights } })

/-- `_save_faiss_index`: writes `faiss_index.bin` and `video_ids.pkl` when an
index exists. -/
def saveFaissIndex (e : Engine) (fs : FileSystem) : FileSystem :=
  match e.faissIndex with
  | some idx => { fs with faissFile := some idx,
                          videoIdsFile := some e.videoIds }
  | none => fs

/-- `check_model_needs_training`: no model, or `last_trained` more than 7
days ago, or the live user/video count exceeds `1.2 ×` the mapped count. -/
def checkModelNeedsTraining (e : Engine) (now : Time) (g : GraphState) :
    Bool :=
  match e.model with
  | none => true
  | some _ =>
      let stale := match e.modelMetadata.lastTrained with
        | some t => decide (((7 : Int) * 86400) < now - t)
        | none => false
      if stale then true
      else
        let currentUsers := g.users.length
        let currentVideos := g.videos.length
        let trainedUsers := e.nodeMappings.user.length
        let trainedVideos := e.nodeMappings.video.length
        decide ((trainedUsers : ℚ) * (6/5) < (currentUsers : ℚ) ∨
          (trainedVideos : ℚ) * (6/5) < (currentVideos : ℚ))

/-- `load_graph_from_neo4j`, mapping half: dense 0-based indices in read
order, per node type.  (The tensor payload — random 64-dim features and the
edge-index tensors — is not needed by any engine decision and is abstracted
away; `self.data` is tracked as the `dataLoaded` flag.) -/
def mkMappings (g : GraphState) : Mappings :=
  { user := (g.users.map (fun n => n.userId)).enum.map (fun p => (p.2, p.1)),
    video := (g.videos.map (fun n => n.videoId)).enum.map (fun p => (p.2, p.1)),
    category := (g.cats.map (fun n => n.categoryId)).enum.map
      (fun p => (p.2, p.1)),
    parentCategory := (g.pcats.map (fun n => n.parentCategoryId)).enum.map
      (fun p => (p.2, p.1)) }

/-- `load_graph_from_neo4j`, reverse-mapping half: index → id. -/
def mkRevMappings (g : GraphState) : Mappings :=
  { user := (g.users.map (fun n => n.userId)).enum,
    video := (g.videos.map (fun n => n.videoId)).enum,
    category := (g.cats.map (fun n => n.categoryId)).enum,
    parentCategory := (g.pcats.map (fun n => n.parentCategoryId)).enum }

/-- `load_graph_from_neo4j`: rebuild both mapping directions and mark the
snapshot as loaded. -/
def loadGraphFromNeo4j (g : GraphState) (e : Engine) : Engine :=
  { e with nodeMappings := mkMappings g, reverseMappings := mkRevMappings g,
           dataLoaded := true }

/-- `_build_faiss_index`, read half: every video whose `embedding IS NOT
NULL`, through `json.loads` (which raises on a malformed stored string). -/
def collectVideoEmbeddings : List VideoNode →
    Except String (List (VideoId × List ℚ))
  | [] => .ok []
  | v :: vs =>
      match v.embedding with
      | .missing => collectVideoEmbeddings vs
      | .malformed _ => .error "json.loads: stored embedding is malformed"
      | .ok emb => (collectVideoEmbeddings vs).map
          (fun r => (v.videoId, emb) :: r)

/-- `_build_faiss_index`: reset `video_ids`, collect embedded videos, return
early (leaving the old index) when none, else L2-normalize and build a fresh
exact inner-product index aligned with `video_ids`. -/
def buildFaissIndex (p : EngineParams) (g : GraphState) (e : Engine) :
    Except String Engine :=
  match collectVideoEmbeddings g.videos with
  | .error msg => .error msg
  | .ok pairs =>
      let e := { e with videoIds := pairs.map Prod.fst }
      if pairs.isEmpty then .ok e
      else .ok { e with
        faissIndex := some { vecs := pairs.map (fun q => p.normalize q.2) } }

/-- Inner product of two stored vectors. -/
def innerProd (a b : List ℚ) : ℚ := (List.zipWith (fun x y => x * y) a b).sum

/-- Insert an index into a list of indices ordered by strictly descending
score; equal scores keep the earlier (smaller) index first, the
deterministic tie order of a flat FAISS index. -/
def insertIdxByScore (scores : List ℚ) (i : Nat) : List Nat → List Nat
  | [] => [i]
  | j :: js =>
      if scores.getD j 0 < scores.getD i 0 then i :: j :: js
      else j :: insertIdxByScore scores i js

/-- `faiss_index.search(q, k)` on an `IndexFlatIP`: the indices of the `k`
largest inner products, in descending order; when `k` exceeds the number of
stored vectors the result is padded with `-1`. -/
def FaissIndexSt.search (idx : FaissIndexSt) (q : List ℚ) (k : Nat) :
    List Int :=
  let scores := idx.vecs.map (fun v => innerProd q v)
  let order := (List.range idx.vecs.length).foldr (insertIdxByScore scores) []
  ((order.take k).map (fun n => (n : Int))) ++
    List.replicate (k - idx.vecs.length) (-1)

/-- Python list indexing `l[i]`: negative indices count from the end;
out of range raises (here: `none`). -/
def pyGet {α : Type} (l : List α) (i : Int) : Option α :=
  if 0 ≤ i then l[i.toNat]?
  else if (-i).toNat ≤ l.length then l[l.length - (-i).toNat]? else none

/-- The result-assembly loop of `get_recommendations`: walk the returned
indices; skip an index `≥ len(video_ids)`; Python-index into `video_ids`
(note `-1 < len` is true, so a `-1` pad reads `video_ids[-1]`, the last
entry); drop videos the user has watched; stop as soon as `limit` survivors
are collected. -/
def pickRecs (videoIds : List VideoId) (watched : List VideoId) (limit : Nat) :
    List Int → List VideoId → Except String (List VideoId)
  | [], acc => .ok acc.reverse
  | i :: is, acc =>
      if i < (videoIds.length : Int) then
        match pyGet videoIds i with
        | none => .error "IndexError: list index out of range"
        | some vid =>
            if watched.contains vid then pickRecs videoIds watched limit is acc
            else if limit ≤ acc.length + 1 then .ok ((vid :: acc).reverse)
            else pickRecs videoIds watched limit is (vid :: acc)
      else pickRecs videoIds watched limit is acc

/-! ## Training pipeline (`train_gnn_and_update_embeddings`) -/

/-- `_store_embeddings_in_neo4j` for users: `MATCH (n:User \x7buser_id\x7d)
SET n.embedding = $e, n.embedding_updated = datetime()` (update-only; a
missing node is silently skipped). -/
def setUserEmbedding (uid : UserId) (emb : List ℚ) (us : List UserNode) :
    List UserNode :=
  us.map (fun n => if n.userId = uid then { n with embedding := .ok emb } else n)

/-- `_store_embeddings_in_neo4j` for videos. -/
def setVideoEmbedding (vid : VideoId) (emb : List ℚ) (vs : List VideoNode) :
    List VideoNode :=
  vs.map (fun n => if n.videoId = vid then { n with embedding := .ok emb } else n)

/-- `_store_embeddings_in_neo4j` for categories. -/
def setCatEmbedding (cid : CatId) (emb : List ℚ) (cs : List CatNode) :
    List CatNode :=
  cs.map (fun n => if n.categoryId = cid then { n with embedding := .ok emb } else n)

/-- `_store_embeddings_in_neo4j` for parent categories. -/
def setPCatEmbedding (pid : PCatId) (emb : List ℚ) (ps : List PCatNode) :
    List PCatNode :=
  ps.map (fun n =>
    if n.parentCategoryId = pid then { n with embedding := .ok emb } else n)

/-- `_extract_and_store_embeddings`: `model.eval()`, one `torch.no_grad()`
forward pass (its numeric output is the abstract `p.emb`), write every mapped
node's embedding back into the graph store for all four node types, then
`_build_faiss_index` from the freshly written video embeddings. -/
def extractAndStoreEmbeddings (p : EngineParams) (e : Engine)
    (g : GraphState) : Except String (Engine × GraphState) :=
  let e := { e with model := e.model.map (fun m => { m with training := false }) }
  let users := e.nodeMappings.user.foldl
    (fun us pr => setUserEmbedding pr.1 (p.emb .user pr.2) us) g.users
  let videos := e.nodeMappings.video.foldl
    (fun vs pr => setVideoEmbedding pr.1 (p.emb .video pr.2) vs) g.videos
  let cats := e.nodeMappings.category.foldl
    (fun cs pr => setCatEmbedding pr.1 (p.emb .category pr.2) cs) g.cats
  let pcats := e.nodeMappings.parentCategory.foldl
    (fun ps pr => setPCatEmbedding pr.1 (p.emb .parentCategory pr.2) ps) g.pcats
  let g := { g with users := users, videos := videos, cats := cats,
                    pcats := pcats }
  (buildFaissIndex p g e).map (fun e => (e, g))

/-- `train_gnn_and_update_embeddings`: load the snapshot if absent, create a
model if absent, `model.train()`, run `num_epochs` epochs (their numeric
effect on the weight blob is the abstract `p.trainStep` iterated), then
extract-and-store, `_save_model`, `_save_faiss_index`. -/
def trainGNNAndUpdateEmbeddings (p : EngineParams) (numEpochs hiddenDim : Nat)
    (now : Time) (e : Engine) (g : GraphState) (fs : FileSystem) :
    Except String (Engine × GraphState × FileSystem) :=
  let e := if e.dataLoaded then e else loadGraphFromNeo4j g e
  let e := match e.model with
    | none => { e with model := some { hiddenDim := hiddenDim, weights := 0,
                                       training := true } }
    | some _ => e
  let e := { e with model := e.model.map (fun m =>
    { m with training := true, weights := p.trainStep^[numEpochs] m.weights }) }
  match extractAndStoreEmbeddings p e g with
  | .error msg => .error msg
  | .ok (e, g) =>
      let pr := saveModel now e fs
      let fs := saveFaissIndex pr.1 pr.2
      .ok (pr.1, g, fs)

/-- `ensure_model_trained`: full retrain (30 epochs, hidden dim 128) when
forced or stale; otherwise rebuild the index only when it is absent. -/
def ensureModelTrained (p : EngineParams) (now : Time) (force : Bool)
    (e : Engine) (g : GraphState) (fs : FileSystem) :
    Except String (Engine × GraphState × FileSystem) :=
  if force || checkModelNeedsTraining e now g then
    trainGNNAndUpdateEmbeddings p 30 128 now e g fs
  else
    match e.faissIndex with
    | none => (buildFaissIndex p g e).map (fun e2 => (e2, g, fs))
    | some _ => .ok (e, g, fs)

/-! ## `_train_epoch` (C10): the loss-averaging control flow

The sampled interaction pool comes from the `MATCH ... LIMIT 5000` query;
each interaction whose user or video id is absent from the node mappings is
skipped; every processed interaction takes one optimizer step.  The numeric
loss of the `n`-th processed interaction is abstract (`lossAt n`); the
function returns the epoch's mean loss together with the number of optimizer
steps taken. -/
def trainEpochLoss (interactions : List (UserId × VideoId))
    (userMap videoMap : List (Nat × Nat)) (lossAt : Nat → ℚ) : ℚ × Nat :=
  if interactions.isEmpty then (0, 0)
  else
    let r := interactions.foldl (fun acc pr =>
      match dictGet userMap pr.1, dictGet videoMap pr.2 with
      | some _, some _ => (acc.1 + lossAt acc.2, acc.2 + 1)
      | _, _ => acc) ((0 : ℚ), (0 : Nat))
    (r.1 / ((max r.2 1 : Nat) : ℚ), r.2)

/-! ## `get_recommendations` -/

/-- `get_recommendations(user_id, limit)`, the full control flow: lazy
training when no index is loaded; the user's stored embedding drives either
the popularity fallback (absent user or missing/falsy embedding), an
exception (malformed embedding), or the vector-index branch: normalize,
search `2 × limit`, filter the user's watched videos preserving rank order,
return the first `limit` survivors. -/
def getRecommendations (p : EngineParams) (now : Time) (e : Engine)
    (g : GraphState) (fs : FileSystem) (uid : UserId) (limit : Nat) :
    Except String (List VideoId × Engine × GraphState × FileSystem) :=
  let start : Except String (Engine × GraphState × FileSystem) :=
    match e.faissIndex with
    | none => ensureModelTrained p now false e g fs
    | some _ => .ok (e, g, fs)
  match start with
  | .error msg => .error msg
  | .ok (e, g, fs) =>
      match g.findUser uid with
      | none => .ok (getPopularVideos g limit, e, g, fs)
      | some un =>
          match un.embedding with
          | .missing => .ok (getPopularVideos g limit, e, g, fs)
          | .malformed _ => .error "json.loads: user embedding is malformed"
          | .ok q =>
              let qn := p.normalize q
              let built : Except String Engine :=
                match e.faissIndex with
                | none => buildFaissIndex p g e
                | some _ => .ok e
              match built with
              | .error msg => .error msg
              | .ok e =>
                  match e.faissIndex with
                  | none => .error "AttributeError: NoneType has no search"
                  | some idx =>
                      let indices := idx.search qn (limit * 2)
                      let watched := g.watchedBy uid
                      match pickRecs e.videoIds watched limit indices [] with
                      | .error msg => .error msg
                      | .ok recs => .ok (recs, e, g, fs)

/-! ## `HeteroGNNModel.forward` (C8)

The forward pass is embedded over an abstract feature-matrix type `V` and
edge-index type `E`; the torch operations (per-type input projection, the
shared `GCNConv` / `LayerNorm` per layer, `ReLU`, `Dropout(0.3)`) are the
fields of `GNNOps`.  `x_dict` is a total function on the four node types
(`load_graph_from_neo4j` always populates all four); `edge_index_dict` is an
association list in dict insertion order. -/

/-- Construction constants of `HeteroGNNModel.__init__`. -/
structure HGNNConfig where
  hiddenDim : Nat := 128
  numLayers : Nat := 3
  inputDim : Nat := 64
  dropoutP : ℚ := 3/10
deriving DecidableEq, Repr

/-- The default-constructed `HeteroGNNModel()`. -/
def heteroGNNDefault : HGNNConfig := {}

/-- An edge-type key `(src_type, rel_type, dst_type)`. -/
structure EdgeTriple where
  src : NodeType
  rel : String
  dst : NodeType
deriving DecidableEq, Repr

/-- The abstract tensor operations used by `HeteroGNNModel.forward`:
`proj nt` is `input_projs[nt]`, `conv i` / `norm i` are `convs[i]` /
`norms[i]`, `relu` and `dropout` are `F.relu` and the shared
`nn.Dropout(0.3)` module, and `add` is tensor addition (`+=` and the
residual `+`). -/
structure GNNOps (V E : Type) where
  proj : NodeType → V → V
  conv : Nat → V → E → V
  norm : Nat → V → V
  relu : V → V
  dropout : V → V
  add : V → V → V

/-- The per-edge computation of one layer:
`dropout(relu(norms[i](convs[i](x[src], edge_index))))`. -/
def convChain {V E : Type} (ops : GNNOps V E) (i : Nat) (x : V) (ei : E) : V :=
  ops.dropout (ops.relu (ops.norm i (ops.conv i x ei)))

/-- The loop `for edge_type in edge_index_dict` of layer `i`, building the
`x_dict_new` dict: only edge types with `src_type == dst_type` contribute;
contributions to the same destination type are summed with `+=` in
iteration order. -/
def layerNewGo {V E : Type} (ops : GNNOps V E) (i : Nat) (x : NodeType → V) :
    List (EdgeTriple × E) → (NodeType → Option V) → (NodeType → Option V)
  | [], acc => acc
  | pr :: rest, acc =>
      if pr.1.src = pr.1.dst then
        let v := convChain ops i (x pr.1.src) pr.2
        layerNewGo ops i x rest (fun nt =>
          if nt = pr.1.dst then
            match acc pr.1.dst with
            | none => some v
            | some w => some (ops.add w v)
          else acc nt)
      else layerNewGo ops i x rest acc

/-- The `x_dict_new` dict of layer `i` (starting empty). -/
def layerNew {V E : Type} (ops : GNNOps V E) (i : Nat) (x : NodeType → V)
    (edges : List (EdgeTriple × E)) : NodeType → Option V :=
  layerNewGo ops i x edges (fun _ => none)

/-- One layer: `x_dict[nt] = x_dict[nt] + x_dict_new[nt]` for the types
present in `x_dict_new`, the rest unchanged. -/
def layerStep {V E : Type} (ops : GNNOps V E) (i : Nat) (x : NodeType → V)
    (edges : List (EdgeTriple × E)) : NodeType → V :=
  fun nt =>
    match layerNew ops i x edges nt with
    | none => x nt
    | some d => ops.add (x nt) d

/-- `HeteroGNNModel.forward`: project every node type, then apply the
`numLayers` convolution layers. -/
def hforward {V E : Type} (ops : GNNOps V E) (numLayers : Nat)
    (x0 : NodeType → V) (edges : List (EdgeTriple × E)) : NodeType → V :=
  (List.range numLayers).foldl (fun x i => layerStep ops i x edges)
    (fun nt => ops.proj nt (x0 nt))

/-- The same-type edge relations feeding destination type `nt`
(in dict order). -/
def sameTypeInto {E : Type} (nt : NodeType) (edges : List (EdgeTriple × E)) :
    List (EdgeTriple × E) :=
  edges.filter (fun pr => decide (pr.1.src = pr.1.dst ∧ pr.1.dst = nt))

/-- One layer as §4.3 of the spec words it: for each destination type, sum
`dropout(relu(norm(conv(...))))` over all same-type edge relations feeding
it, and add the sum residually; a type fed by no same-type relation passes
through unchanged. -/
def layerSpec {V E : Type} (ops : GNNOps V E) (i : Nat) (x : NodeType → V)
    (edges : List (EdgeTriple × E)) : NodeType → V :=
  fun nt =>
    match sameTypeInto nt edges with
    | [] => x nt
    | pr :: rest => ops.add (x nt)
        (rest.foldl (fun acc q => ops.add acc (convChain ops i (x q.1.src) q.2))
          (convChain ops i (x pr.1.src) pr.2))

/-- The forward pass as the spec words it: per-type input projection, then
`numLayers` spec-layers. -/
def hforwardSpec {V E : Type} (ops : GNNOps V E) (numLayers : Nat)
    (x0 : NodeType → V) (edges : List (EdgeTriple × E)) : NodeType → V :=
  (List.range numLayers).foldl (fun x i => layerSpec ops i x edges)
    (fun nt => ops.proj nt (x0 nt))

/-- The same-type edge relations, in order (what remains after removing the
cross-type ones). -/
def sameTypeOnly {E : Type} (edges : List (EdgeTriple × E)) :
    List (EdgeTriple × E) :=
  edges.filter (fun pr => decide (pr.1.src = pr.1.dst))

/-! ### C1: persistence round-trip -/

/-- A post-training engine state: a trained model, a built index over one
video embedding, and the aligned video-id list. -/
def c1Engine : Engine :=
  { model := some { hiddenDim := 128, weights := 7, training := false },
    modelMetadata := { totalEpochs := some 30 },
    nodeMappings := { user := [(1, 0)], video := [(10, 0)] },
    reverseMappings := { user := [(0, 1)], video := [(0, 10)] },
    faissIndex := some { vecs := [[1, 0]] },
    videoIds := [10] }

/-- The state after `_save_model` at time 1000. -/
def c1Saved : Engine × FileSystem := saveModel 1000 c1Engine {}

/-- The durable store after `_save_model` followed by `_save_faiss_index`
(the save sequence of `train_gnn_and_update_embeddings`). -/
def c1Fs : FileSystem := saveFaissIndex c1Saved.1 c1Saved.2

/-- The graph state both processes query: user 1 carries a stored embedding,
video 10 exists and is watched by user 2. -/
def c1Graph : GraphState :=
  { users := [{ userId := 1, embedding := .ok [1, 0] }],
    videos := [{ videoId := 10, embedding := .ok [1, 0] }],
    watches := [{ user := 2, video := 10, watchTime := 1, timestamp := 0 }] }

/-- Numeric parameters for the C1 evaluation (never reached: no retraining
happens because the persisted index loads). -/
def c1Params : EngineParams :=
  { emb := fun _ _ => [1, 0], normalize := fun v => v, trainStep := fun w => w }

/-- The recommendation list component of a `get_recommendations` outcome. -/
def recsOf (r : Except String (List VideoId × Engine × GraphState × FileSystem)) :
    Option (List VideoId) :=
  match r with
  | .ok (l, _, _, _) => some l
  | .error _ => none

/-! ### C7: the post-training persistence step -/

/-- Numeric parameters for the C7 run: the evaluation-mode forward pass
yields `[1, 0]` for every node, normalization and the optimizer steps are
identities on the abstract payloads. -/
def c7Params : EngineParams :=
  { emb := fun _ _ => [1, 0], normalize := fun v => v, trainStep := fun w => w + 1 }

/-- The graph snapshot for the C7 run: one user, one video, one category. -/
def c7Graph : GraphState :=
  { users := [{ userId := 1 }],
    videos := [{ videoId := 10 }],
    cats := [{ categoryId := 5 }] }

/-- A training run of FIVE epochs from a fresh engine over `c7Graph` against
an empty durable store. -/
def c7Res : Except String (Engine × GraphState × FileSystem) :=
  trainGNNAndUpdateEmbeddings c7Params 5 128 2000 {} c7Graph {}

/-- The cumulative epoch counter recorded by the run. -/
def c7TotalEpochs : Option Nat :=
  match c7Res with
  | .ok (e, _, _) => e.modelMetadata.totalEpochs
  | .error _ => none

/-- The metadata file after the run (`some none` = run succeeded but wrote no
metadata file). -/
def c7MetaFile : Option (Option MetaDict) :=
  match c7Res with
  | .ok (_, _, fs) => some fs.metadataFile
  | .error _ => none

/-- The weights file after the run. -/
def c7ModelFile : Option (Option StateDict) :=
  match c7Res with
  | .ok (_, _, fs) => some fs.modelFile
  | .error _ => none

/-- The persisted index and id list after the run. -/
def c7IndexFiles : Option (Option FaissIndexSt × Option (List VideoId)) :=
  match c7Res with
  | .ok (_, _, fs) => some (fs.faissFile, fs.videoIdsFile)
  | .error _ => none

/-- The video embedding stored in the graph after the run, and the model's
train/eval mode after the final evaluation-mode pass. -/
def c7StoredState : Option (EmbVal × Option Bool) :=
  match c7Res with
  | .ok (e, g, _) =>
      some ((g.findVideo 10).elim .missing VideoNode.embedding,
        e.model.map GNNModelSt.training)
  | .error _ => none

/-- The C2 counterexample state: user 1 has NO stored embedding but HAS
watched video 10, which is also the most-watched video overall. -/
def c2Graph : GraphState :=
  { users := [{ userId := 1 }],
    videos := [{ videoId := 10 }, { videoId := 20 }],
    watches := [{ user := 1, video := 10, watchTime := 1, timestamp := 0 },
                { user := 2, video := 10, watchTime := 1, timestamp := 0 },
                { user := 3, video := 20, watchTime := 1, timestamp := 0 }] }

/-- A warm engine (index loaded) for the C2/C4 fallback evaluations. -/
def c2Engine : Engine :=
  { faissIndex := some { vecs := [[1, 0], [0, 1]] }, videoIds := [10, 20] }

/-- The C4 counterexample state: user 1 carries a stored embedding string
that `json.loads` rejects. -/
def c4Graph : GraphState :=
  { users := [{ userId := 1, embedding := .malformed 0 }],
    videos := [{ videoId := 10 }],
    watches := [{ user := 2, video := 10, watchTime := 1, timestamp := 0 }] }

/-! ### C6: `compute_video_similarities` -/

/-- The merge key of the pair `(v1, v2)`. -/
def pairKey (p : VideoNode × VideoNode) : VideoId × VideoId :=
  spair p.1.videoId p.2.videoId

/-- The `SIMILAR_TO` record a processed pair leaves behind: `none` when a
category list is null or the score is below `0.3`. -/
def simRec (now : Time) (p : VideoNode × VideoNode) : Option SimilarToRel :=
  match p.1.categories, p.2.categories with
  | some c1, some c2 =>
      if (3 : ℚ)/10 ≤ catSim c1 c2 then
        some { a := p.1.videoId, b := p.2.videoId, similarity := catSim c1 c2,
               updatedAt := some now }
      else none
  | _, _ => none

/-- The set-level Jaccard overlap: intersection size over union size. -/
def jaccardOverlap (c1 c2 : List CatId) : ℚ :=
  ((c1.toFinset ∩ c2.toFinset).card : ℚ) /
    ((c1.toFinset ∪ c2.toFinset).card : ℚ)

/-- The C6 scenario graph: A\x7bx, y\x7d, B\x7by, z\x7d, C\x7bp, q\x7d. -/
def c6Scenario : GraphState :=
  { videos := [{ videoId := 1, categories := some [100, 101] },
               { videoId := 2, categories := some [101, 102] },
               { videoId := 3, categories := some [103, 104] }] }

/-! ### C9: `INTERESTED_IN` score/count across sync sequences -/

/-- One interaction event routed to `sync_watch_to_neo4j` or
`sync_like_to_neo4j`. -/
inductive InteractionOp where
  | watch : RWatch → InteractionOp
  | like : RLike → InteractionOp
deriving DecidableEq, Repr

/-- Apply one interaction sync to the graph store. -/
def applyInteraction (s : GraphState) : InteractionOp → GraphState
  | .watch w => syncWatch w s
  | .like l => syncLike l s

/-- The stored `score` of the `(u, c)` interest edge (`0` when absent). -/
def interestScoreOf (s : GraphState) (u : UserId) (c : CatId) : ℚ :=
  (lookupK InterestedInRel.key (u, c) s.interests).elim 0 InterestedInRel.score

/-- The stored `count` of the `(u, c)` interest edge (`0` when absent). -/
def interestCountOf (s : GraphState) (u : UserId) (c : CatId) : Nat :=
  (lookupK InterestedInRel.key (u, c) s.interests).elim 0 InterestedInRel.count

/-- The well-formedness the claim needs of an event: a watch carries a
non-negative `watch_time` (a like always adds the constant `2.0`). -/
def InteractionOp.wf : InteractionOp → Prop
  | .watch w => 0 ≤ w.watchTime
  | .like _ => True

/-- The video id an interaction refers to. -/
def InteractionOp.videoId : InteractionOp → VideoId
  | .watch w => w.videoId
  | .like l => l.videoId

/-- The acting user of an interaction. -/
def InteractionOp.userId : InteractionOp → UserId
  | .watch w => w.userId
  | .like l => l.userId

/-- "The interaction qualifies for `(u, c)`": it is performed by `u`, both
endpoint nodes exist (the `MATCH` clauses bind), the graph-stored category
list of the video carries `c`, and the category node `c` exists (the inner
`MATCH (c:Category)` binds). -/
def qualifiesFor (s : GraphState) (u : UserId) (c : CatId)
    (op : InteractionOp) : Bool :=
  decide (op.userId = u) && (s.findUser op.userId).isSome &&
    (match s.findVideo op.videoId with
     | some v => (v.categories.getD []).contains c
     | none => false) &&
    (s.findCat c).isSome

/-- The duplicate-freeness hypothesis for the count conjunct: the
graph-stored category list of the interaction's video has no duplicates
(true of every video written by `sync_video_to_neo4j` from the relational
many-to-many set). -/
def opVideoCatsNodup (s : GraphState) (op : InteractionOp) : Prop :=
  match s.findVideo op.videoId with
  | some v => (v.categories.getD []).Nodup
  | none => True

/-- The C9 witness graph: user 1, video 10 tagged with category 5, and the
category node 5, all present. -/
def c9Graph : GraphState :=
  { users := [{ userId := 1 }],
    videos := [{ videoId := 10, categories := some [5] }],
    cats := [{ categoryId := 5 }] }

/-- A watch of video 10 by user 1 with weight 2. -/
def c9PosWatch : InteractionOp :=
  .watch { userId := 1, videoId := 10, watchTime := 2, timestamp := 50 }

/-- A watch of video 10 by user 1 with weight `-1`: `Watch.watch_time` is a
`FloatField` with no validator and the `watch` endpoint passes the
client-supplied float straight through
(`float(request.data.get('watch_time', 1.0))`), so a negative weight is a
reachable input of `sync_watch_to_neo4j`. -/
def c9NegWatch : InteractionOp :=
  .watch { userId := 1, videoId := 10, watchTime := -1, timestamp := 60 }

/-- A user node with its sync-time timestamp erased. -/
def scrubUser (n : UserNode) : UserNode := { n with updatedAt := none }

/-- A video node with its sync-time timestamp erased. -/
def scrubVideo (n : VideoNode) : VideoNode := { n with updatedAt := none }

/-- A category node with its sync-time timestamp erased. -/
def scrubCat (n : CatNode) : CatNode := { n with updatedAt := none }

/-- A parent-category node with its sync-time timestamp erased. -/
def scrubPCat (n : PCatNode) : PCatNode := { n with updatedAt := none }

/-- A `SIMILAR_TO` edge with its sync-time timestamp erased. -/
def scrubSimilar (e : SimilarToRel) : SimilarToRel := { e with updatedAt := none }

/-- The timestamp-and-interest-payload-free view of the graph store.  The
`WATCHES` / `LIKES` / `FOLLOWS` timestamps are relational row data, not
`datetime()` write times, so they are kept. -/
structure ScrubbedGraph where
  users : List UserNode
  videos : List VideoNode
  cats : List CatNode
  pcats : List PCatNode
  watches : List WatchesRel
  likes : List LikesRel
  follows : List FollowsRel
  interestKeys : List (UserId × CatId)
  createdBy : List CreatedByRel
  belongsTo : List BelongsToRel
  parentOf : List ParentOfRel
  similar : List SimilarToRel
deriving DecidableEq, Repr

/-- Erase the `updated_at`-style timestamps and the `INTERESTED_IN`
score/count payloads. -/
def GraphState.scrub (s : GraphState) : ScrubbedGraph :=
  { users := s.users.map scrubUser,
    videos := s.videos.map scrubVideo,
    cats := s.cats.map scrubCat,
    pcats := s.pcats.map scrubPCat,
    watches := s.watches,
    likes := s.likes,
    follows := s.follows,
    interestKeys := s.interests.map InterestedInRel.key,
    createdBy := s.createdBy,
    belongsTo := s.belongsTo,
    parentOf := s.parentOf,
    similar := s.similar.map scrubSimilar }

/-- The schema constraints of `models.py` used as hypotheses: primary keys
and `unique_together` pairs are duplicate-free. -/
structure DBWf (db : RelationalDB) : Prop where
  usersNodup : (db.users.map RUser.id).Nodup
  videosNodup : (db.videos.map RVideo.videoId).Nodup
  catsNodup : (db.categories.map RCategory.categoryId).Nodup
  pcatsNodup : (db.parentCategories.map RParentCategory.parentCategoryId).Nodup
  watchKeysNodup : (db.watches.map (fun w => (w.userId, w.videoId))).Nodup
  likeKeysNodup : (db.likes.map (fun l => (l.userId, l.videoId))).Nodup
  followKeysNodup :
    (db.follows.map (fun f => (f.followerId, f.followeeId))).Nodup

/-- The `INTERESTED_IN` merge of `mergeInterest`, at the level of the
interest list (guarded by the category-node lookup). -/
def mergeInterestL (catsL : List CatNode) (uid : UserId) (cid : CatId)
    (d : ℚ) (il : List InterestedInRel) : List InterestedInRel :=
  match lookupK CatNode.categoryId cid catsL with
  | none => il
  | some _ =>
      upsertK InterestedInRel.key (uid, cid)
        (fun e => { e with score := e.score + d, count := e.count + 1 })
        { user := uid, category := cid, score := d, count := 1 } il

/-- The `WATCHES` upsert of `sync_watch_to_neo4j`, at list level. -/
def watchUpsert (w : RWatch) (wl : List WatchesRel) : List WatchesRel :=
  upsertK WatchesRel.key (w.userId, w.videoId)
    (fun e => { e with watchTime := w.watchTime, timestamp := w.timestamp })
    { user := w.userId, video := w.videoId, watchTime := w.watchTime,
      timestamp := w.timestamp } wl

/-- The `LIKES` upsert of `sync_like_to_neo4j`, at list level. -/
def likeUpsert (l : RLike) (ll : List LikesRel) : List LikesRel :=
  upsertK LikesRel.key (l.userId, l.videoId)
    (fun e => { e with timestamp := l.timestamp })
    { user := l.userId, video := l.videoId, timestamp := l.timestamp } ll

/-- The `FOLLOWS` upsert of `sync_follow_to_neo4j`, at list level. -/
def followUpsert (f : RFollow) (fl : List FollowsRel) : List FollowsRel :=
  upsertK FollowsRel.key (f.followerId, f.followeeId)
    (fun e => { e with timestamp := f.timestamp })
    { follower := f.followerId, followee := f.followeeId,
      timestamp := f.timestamp } fl

/-- The category-and-`BELONGS_TO` merges of `sync_video_to_neo4j`, as a
pair fold at list level. -/
def catsBelongsFold (vid : VideoId) (cids : List CatId)
    (pr : List CatNode × List BelongsToRel) :
    List CatNode × List BelongsToRel :=
  cids.foldl (fun pr cid =>
    (upsertK CatNode.categoryId cid (fun n => n) { categoryId := cid } pr.1,
     upsertK BelongsToRel.key (vid, cid) (fun e => e)
       { video := vid, category := cid } pr.2)) pr

/-- The `Video` node upsert of `sync_video_to_neo4j`, at list level. -/
def videoUpsert (now : Time) (v : RVideo) (vl : List VideoNode) :
    List VideoNode :=
  upsertK VideoNode.videoId v.videoId
    (fun n => { n with title := some v.title,
                       categories := some v.categoryIds,
                       parentCategories := some v.parentCategoryIds,
                       updatedAt := some now })
    { videoId := v.videoId, title := some v.title,
      categories := some v.categoryIds,
      parentCategories := some v.parentCategoryIds, updatedAt := some now }
    vl

/-- All facts about an already-synced scrubbed graph that make a re-run of
every bulk-sync statement invisible through `scrub`. -/
structure SyncFacts (db : RelationalDB) (σ : ScrubbedGraph) : Prop where
  userF : ∀ u ∈ db.users, ∃ n,
    lookupK UserNode.userId u.id σ.users = some n ∧
    n.username = some u.username
  pcatF : ∀ pc ∈ db.parentCategories, ∃ n,
    lookupK PCatNode.parentCategoryId pc.parentCategoryId σ.pcats = some n ∧
    n.name = some pc.name
  catF : ∀ c ∈ db.categories, ∃ n,
    lookupK CatNode.categoryId c.categoryId σ.cats = some n ∧
    n.name = some c.name ∧ n.parentCategory = some c.parentCategoryId
  catPcatF : ∀ c ∈ db.categories,
    c.parentCategoryId ∈ σ.pcats.map PCatNode.parentCategoryId
  parentOfF : ∀ c ∈ db.categories,
    (c.categoryId, c.parentCategoryId) ∈ σ.parentOf.map ParentOfRel.key
  videoF : ∀ v ∈ db.videos, ∃ n,
    lookupK VideoNode.videoId v.videoId σ.videos = some n ∧
    n.title = some v.title ∧ n.categories = some v.categoryIds ∧
    n.parentCategories = some v.parentCategoryIds
  creatorF : ∀ v ∈ db.videos, v.creatorId ∈ σ.users.map UserNode.userId
  createdByF : ∀ v ∈ db.videos,
    (v.videoId, v.creatorId) ∈ σ.createdBy.map CreatedByRel.key
  vcatF : ∀ v ∈ db.videos, ∀ c ∈ v.categoryIds,
    c ∈ σ.cats.map CatNode.categoryId
  belongsF : ∀ v ∈ db.videos, ∀ c ∈ v.categoryIds,
    (v.videoId, c) ∈ σ.belongsTo.map BelongsToRel.key
  watchF : ∀ w ∈ db.watches.take 10000,
    ∀ mv, lookupK VideoNode.videoId w.videoId σ.videos = some mv →
    w.userId ∈ σ.users.map UserNode.userId →
      lookupK WatchesRel.key (w.userId, w.videoId) σ.watches =
        some { user := w.userId, video := w.videoId,
               watchTime := w.watchTime, timestamp := w.timestamp } ∧
      ∀ c ∈ mv.categories.getD [], c ∈ σ.cats.map CatNode.categoryId →
        (w.userId, c) ∈ σ.interestKeys
  likeF : ∀ l ∈ db.likes,
    ∀ mv, lookupK VideoNode.videoId l.videoId σ.videos = some mv →
    l.userId ∈ σ.users.map UserNode.userId →
      lookupK LikesRel.key (l.userId, l.videoId) σ.likes =
        some { user := l.userId, video := l.videoId,
               timestamp := l.timestamp } ∧
      ∀ c ∈ mv.categories.getD [], c ∈ σ.cats.map CatNode.categoryId →
        (l.userId, c) ∈ σ.interestKeys
  followF : ∀ f ∈ db.follows,
    f.followerId ∈ σ.users.map UserNode.userId →
    f.followeeId ∈ σ.users.map UserNode.userId →
      lookupK FollowsRel.key (f.followerId, f.followeeId) σ.follows =
        some { follower := f.followerId, followee := f.followeeId,
               timestamp := f.timestamp }
  simF : ∀ p ∈ videoPairs σ.videos, ∀ c1 c2 : List CatId,
    p.1.categories = some c1 → p.2.categories = some c2 →
    (3 : ℚ)/10 ≤ catSim c1 c2 →
    ∃ e, lookupK SimilarToRel.skey (pairKey p) σ.similar = some e ∧
      e.similarity = catSim c1 c2

structure NodupInv (s : GraphState) : Prop where
  usersN : (s.users.map UserNode.userId).Nodup
  videosN : (s.videos.map VideoNode.videoId).Nodup
  catsN : (s.cats.map CatNode.categoryId).Nodup
  pcatsN : (s.pcats.map PCatNode.parentCategoryId).Nodup
  watchesN : (s.watches.map WatchesRel.key).Nodup
  likesN : (s.likes.map LikesRel.key).Nodup
  followsN : (s.follows.map FollowsRel.key).Nodup
  interestsN : (s.interests.map InterestedInRel.key).Nodup
  createdByN : (s.createdBy.map CreatedByRel.key).Nodup
  belongsToN : (s.belongsTo.map BelongsToRel.key).Nodup
  parentOfN : (s.parentOf.map ParentOfRel.key).Nodup
  similarN : (s.similar.map SimilarToRel.skey).Nodup

/-- A small relational fixture for C5: one user, one parent category, one
category, one video in that category, one watch and one like of it. -/
def c5db : RelationalDB :=
  { users := [{ id := 1, username := "alice" }],
    parentCategories := [{ parentCategoryId := 3, name := "Music" }],
    categories := [{ categoryId := 7, name := "Jazz",
                     parentCategoryId := 3 }],
    videos := [{ videoId := 10, title := "clip", creatorId := 1,
                 categoryIds := [7], parentCategoryIds := [3] }],
    watches := [{ userId := 1, videoId := 10, watchTime := 3/2,
                  timestamp := 50 }],
    likes := [{ userId := 1, videoId := 10, timestamp := 60 }],
    follows := [] }

theorem lookupK_nil {α κ : Type} [DecidableEq κ] (key : α → κ) (k : κ) :
    lookupK key k ([] : List α) = none := rfl

theorem lookupK_cons {α κ : Type} [DecidableEq κ] (key : α → κ) (k : κ)
    (x : α) (l : List α) :
    lookupK key k (x :: l) = if key x = k then some x else lookupK key k l := by
  simp only [lookupK, List.find?]
  by_cases h : key x = k <;> simp [h]

/-- Looking up the merged key after an upsert: the found element was updated,
or the created element is found. -/
theorem lookupK_upsertK_self {α κ : Type} [DecidableEq κ] (key : α → κ)
    (k : κ) (upd : α → α) (mk : α) (l : List α)
    (hk : key mk = k) (hupd : ∀ x, key (upd x) = key x) :
    lookupK key k (upsertK key k upd mk l) =
      some ((lookupK key k l).elim mk upd) := by
  induction l with
  | nil => simp [upsertK, lookupK_cons, hk, lookupK_nil]
  | cons x xs ih =>
      by_cases h : key x = k
      · simp [upsertK, h, lookupK_cons, hupd, h]
      · simp [upsertK, h, lookupK_cons, ih]

/-- Upserting one key does not disturb lookups of another key. -/
theorem lookupK_upsertK_ne {α κ : Type} [DecidableEq κ] (key : α → κ)
    (k k' : κ) (upd : α → α) (mk : α) (l : List α)
    (hk : key mk = k) (hupd : ∀ x, key (upd x) = key x) (hne : k' ≠ k) :
    lookupK key k' (upsertK key k upd mk l) = lookupK key k' l := by
  have hkk : ¬ (k = k') := fun hh => hne hh.symm
  induction l with
  | nil =>
      have h0 : ¬ (key mk = k') := by rw [hk]; exact hkk
      simp [upsertK, lookupK_cons, h0, lookupK_nil]
  | cons x xs ih =>
      by_cases h : key x = k
      · have h1 : ¬ (key (upd x) = k') := by rw [hupd x, h]; exact hkk
        have h2 : ¬ (key x = k') := by rw [h]; exact hkk
        simp [upsertK, h, lookupK_cons, h1, h2, hkk]
      · simp only [upsertK, h, if_false, lookupK_cons]
        by_cases h' : key x = k' <;> simp [h', ih]

/-- When the merge key is present and the update leaves the projection `f`
of the first match unchanged, the upsert is invisible through `List.map f`. -/
theorem map_upsertK_of_lookup {α κ β : Type} [DecidableEq κ] (key : α → κ)
    (k : κ) (upd : α → α) (mk : α) (l : List α) (f : α → β) (x : α)
    (hfind : lookupK key k l = some x) (hval : f (upd x) = f x) :
    (upsertK key k upd mk l).map f = l.map f := by
  induction l with
  | nil => simp [lookupK] at hfind
  | cons y ys ih =>
      rw [lookupK_cons] at hfind
      by_cases h : key y = k
      · simp only [h, if_true, Option.some.injEq] at hfind
        subst hfind
        simp [upsertK, h, hval]
      · simp only [h, if_false] at hfind
        simp [upsertK, h, ih hfind]

/-- A bare `MERGE` (no `SET` clause) on a present key is the identity. -/
theorem upsertK_id_of_mem {α κ : Type} [DecidableEq κ] (key : α → κ)
    (k : κ) (mk : α) (l : List α) (x : α) (hfind : lookupK key k l = some x) :
    upsertK key k (fun y => y) mk l = l := by
  induction l with
  | nil => simp [lookupK] at hfind
  | cons y ys ih =>
      rw [lookupK_cons] at hfind
      by_cases h : key y = k
      · simp [upsertK, h]
      · simp only [h, if_false] at hfind
        simp [upsertK, h, ih hfind]

/-- The key list after an upsert: unchanged when the key was present,
the new key appended otherwise. -/
theorem map_key_upsertK {α κ : Type} [DecidableEq κ] (key : α → κ)
    (k : κ) (upd : α → α) (mk : α) (l : List α)
    (hk : key mk = k) (hupd : ∀ x, key (upd x) = key x) :
    (upsertK key k upd mk l).map key =
      if k ∈ l.map key then l.map key else l.map key ++ [k] := by
  induction l with
  | nil => simp [upsertK, hk]
  | cons x xs ih =>
      by_cases h : key x = k
      · simp [upsertK, h, hupd]
      · have h' : ¬ (k = key x) := fun hh => h hh.symm
        simp only [upsertK, h, if_false, List.map_cons, List.mem_cons]
        rw [ih]
        by_cases hmem : k ∈ xs.map key
        · simp [hmem, h']
        · simp [hmem, h']

/-- Upserts preserve `Nodup` of the key list. -/
theorem nodup_map_key_upsertK {α κ : Type} [DecidableEq κ] (key : α → κ)
    (k : κ) (upd : α → α) (mk : α) (l : List α)
    (hk : key mk = k) (hupd : ∀ x, key (upd x) = key x)
    (hnd : (l.map key).Nodup) :
    ((upsertK key k upd mk l).map key).Nodup := by
  rw [map_key_upsertK key k upd mk l hk hupd]
  by_cases hmem : k ∈ l.map key
  · simpa [hmem]
  · simp only [hmem, if_false]
    refine List.Nodup.append hnd (List.nodup_singleton k) ?_
    intro a ha hb
    rw [List.mem_singleton] at hb
    exact hmem (hb ▸ ha)

/-- A property holding of every element, of the created element, and preserved
by the update, holds of every element after the upsert. -/
theorem forall_mem_upsertK {α κ : Type} [DecidableEq κ] (key : α → κ)
    (k : κ) (upd : α → α) (mk : α) (l : List α) (P : α → Prop)
    (hall : ∀ x ∈ l, P x) (hmk : P mk) (hupd : ∀ x, P x → P (upd x)) :
    ∀ x ∈ upsertK key k upd mk l, P x := by
  induction l with
  | nil => simpa [upsertK] using hmk
  | cons y ys ih =>
      by_cases h : key y = k
      · simp only [upsertK, h, if_true]
        intro x hx
        rcases List.mem_cons.mp hx with hx | hx
        · exact hx ▸ hupd y (hall y (List.mem_cons_self y ys))
        · exact hall x (List.mem_cons_of_mem y hx)
      · simp only [upsertK, h, if_false]
        intro x hx
        rcases List.mem_cons.mp hx with hx | hx
        · exact hx ▸ hall y (List.mem_cons_self y ys)
        · exact ih (fun z hz => hall z (List.mem_cons_of_mem y hz)) x hx

/-! ## Theorems -/

/-! ### C3: the staleness detector -/

theorem foldl_skip_all {α : Type} (f : (ℚ × Nat) → α → (ℚ × Nat))
    (l : List α) (hskip : ∀ a ∈ l, ∀ acc, f acc a = acc) (acc : ℚ × Nat) :
    l.foldl f acc = acc := by
  induction l generalizing acc with
  | nil => rfl
  | cons x xs ih =>
      rw [List.foldl_cons, hskip x (List.mem_cons_self x xs)]
      exact ih (fun a ha acc => hskip a (List.mem_cons_of_mem x ha) acc) acc

/-- C3: `check_model_needs_training` returns `true` exactly when no model is
loaded, or the recorded `last_trained` lies more than 7 days before `now`, or
the current user count exceeds `1.2 ×` the mapped user count, or the current
video count exceeds `1.2 ×` the mapped video count.  In particular (second
conjunct) a loaded model with `last_trained = now` and mapped counts equal to
the current counts reports `false`, and (third conjunct) the same model after
a 21% increase of the user count reports `true`. -/
theorem claimC3_staleness_detector :
    (∀ (e : Engine) (now : Time) (g : GraphState),
      checkModelNeedsTraining e now g = true ↔
        e.model = none ∨
        (∃ t, e.modelMetadata.lastTrained = some t ∧
          (7 : Int) * 86400 < now - t) ∨
        (e.nodeMappings.user.length : ℚ) * (6/5) < (g.users.length : ℚ) ∨
        (e.nodeMappings.video.length : ℚ) * (6/5) < (g.videos.length : ℚ)) ∧
    (∀ (e : Engine) (now : Time) (g : GraphState) (m : GNNModelSt),
      e.model = some m →
      e.modelMetadata.lastTrained = some now →
      e.nodeMappings.user.length = g.users.length →
      e.nodeMappings.video.length = g.videos.length →
      checkModelNeedsTraining e now g = false) ∧
    (∀ (e : Engine) (now : Time) (g : GraphState) (m : GNNModelSt) (u : Nat),
      e.model = some m →
      e.modelMetadata.lastTrained = some now →
      e.nodeMappings.user.length = 100 * u →
      g.users.length = 121 * u →
      1 ≤ u →
      e.nodeMappings.video.length = g.videos.length →
      checkModelNeedsTraining e now g = true) := by
  have hiff : ∀ (e : Engine) (now : Time) (g : GraphState),
      checkModelNeedsTraining e now g = true ↔
        e.model = none ∨
        (∃ t, e.modelMetadata.lastTrained = some t ∧
          (7 : Int) * 86400 < now - t) ∨
        (e.nodeMappings.user.length : ℚ) * (6/5) < (g.users.length : ℚ) ∨
        (e.nodeMappings.video.length : ℚ) * (6/5) < (g.videos.length : ℚ) := by
    intro e now g
    unfold checkModelNeedsTraining
    cases hm : e.model with
    | none => simp
    | some m =>
        cases ht : e.modelMetadata.lastTrained with
        | none => simp [ht]
        | some t =>
            by_cases hs : (7 : Int) * 86400 < now - t
            · simp [hs]
            · simp [hs]
  refine ⟨hiff, ?_, ?_⟩
  · intro e now g m hm ht hu hv
    have h := hiff e now g
    rcases hb : checkModelNeedsTraining e now g with _ | _
    · rfl
    · exfalso
      rcases h.mp hb with hc | hc | hc | hc
      · rw [hm] at hc; exact Option.noConfusion hc
      · rcases hc with ⟨t, ht2, hlt⟩
        rw [ht] at ht2
        have hteq : t = now := (Option.some.injEq _ _).mp ht2.symm
        subst hteq
        omega
      · rw [hu] at hc
        have hx : (g.users.length : ℚ) ≤ (g.users.length : ℚ) * (6/5) := by
          nlinarith [Nat.cast_nonneg (α := ℚ) g.users.length]
        linarith
      · rw [hv] at hc
        have hx : (g.videos.length : ℚ) ≤ (g.videos.length : ℚ) * (6/5) := by
          nlinarith [Nat.cast_nonneg (α := ℚ) g.videos.length]
        linarith
  · intro e now g m u hm ht hu hcur hu1 hv
    refine (hiff e now g).mpr (Or.inr (Or.inr (Or.inl ?_)))
    rw [hu, hcur]
    push_cast
    have hu' : (1 : ℚ) ≤ (u : ℚ) := by exact_mod_cast hu1
    nlinarith

/-- Witness for C3 at concrete inputs: a warm model over 5 users / 5 videos
with matching mappings is not stale; bumping the user count from 100 to 121
makes it stale. -/
theorem claimC3_staleness_detector_witness :
    checkModelNeedsTraining
      { model := some { hiddenDim := 128, weights := 0, training := false },
        modelMetadata := { lastTrained := some 1000 },
        nodeMappings := { user := [(1, 0), (2, 1)], video := [(10, 0)] } }
      1000
      { users := [{ userId := 1 }, { userId := 2 }],
        videos := [{ videoId := 10 }] } = false ∧
    checkModelNeedsTraining
      { model := some { hiddenDim := 128, weights := 0, training := false },
        modelMetadata := { lastTrained := some 1000 },
        nodeMappings := { user := (List.range 100).map (fun i => (i, i)) } }
      1000
      { users := (List.range 121).map (fun i => { userId := i }) } = true := by
  constructor
  · exact (claimC3_staleness_detector.2.1 _ 1000 _
      { hiddenDim := 128, weights := 0, training := false }
      rfl rfl (by simp) (by simp))
  · exact (claimC3_staleness_detector.2.2 _ 1000 _
      { hiddenDim := 128, weights := 0, training := false } 1
      rfl rfl (by simp) (by simp) (by omega) (by simp))

/-! ### C10: `_train_epoch` totality on the averaging step -/

/-- C10: `_train_epoch` returns mean loss `0.0` and takes no optimizer step
when the sampled interaction pool is empty, and likewise when every sampled
interaction is skipped because its user or video id is absent from the node
mappings — the `max(num_batches, 1)` guard prevents a division by zero. -/
theorem claimC10_train_epoch_guarded :
    (∀ (um vm : List (Nat × Nat)) (f : Nat → ℚ),
      trainEpochLoss [] um vm f = (0, 0)) ∧
    (∀ (ints : List (UserId × VideoId)) (um vm : List (Nat × Nat))
        (f : Nat → ℚ),
      (∀ pr ∈ ints, dictGet um pr.1 = none ∨ dictGet vm pr.2 = none) →
      trainEpochLoss ints um vm f = (0, 0)) := by
  constructor
  · intro um vm f
    rfl
  · intro ints um vm f hskip
    unfold trainEpochLoss
    cases hne : ints.isEmpty with
    | true => simp
    | false =>
        simp only [hne, Bool.false_eq_true, if_false]
        have hfold : ints.foldl (fun acc pr =>
            match dictGet um pr.1, dictGet vm pr.2 with
            | some _, some _ => (acc.1 + f acc.2, acc.2 + 1)
            | _, _ => acc) ((0 : ℚ), (0 : Nat)) = ((0 : ℚ), (0 : Nat)) := by
          apply foldl_skip_all
          intro pr hpr acc
          rcases hskip pr hpr with h | h
          · cases hv : dictGet vm pr.2 <;> simp [h, hv]
          · cases hu : dictGet um pr.1 <;> simp [h, hu]
        rw [hfold]
        norm_num

/-- Witness for C10: a pool of two interactions, both unmapped, yields mean
loss `0` and zero optimizer steps; so does the empty pool. -/
theorem claimC10_train_epoch_guarded_witness :
    trainEpochLoss [] [(1, 0)] [(2, 0)] (fun _ => 5) = (0, 0) ∧
    trainEpochLoss [(7, 2), (1, 9)] [(1, 0)] [(2, 0)] (fun _ => 5) = (0, 0) := by
  constructor
  · exact claimC10_train_epoch_guarded.1 [(1, 0)] [(2, 0)] (fun _ => 5)
  · exact claimC10_train_epoch_guarded.2 [(7, 2), (1, 9)] [(1, 0)] [(2, 0)]
      (fun _ => 5) (by decide)

/-- C1 (the save/load slip, evaluated): after a completed training run saves
its artifacts, the durable store holds the weights, the index and the video
ids — but no metadata file, because `_save_model` only reassigns the
in-memory dict and never writes `METADATA_PATH`.  A fresh process
(`__init__`) therefore finds `MODEL_PATH` without `METADATA_PATH` and leaves
`self.model = None`: the reload does NOT yield a loaded model.  The final
conjunct shows the narrower fact that does survive the restart: with the
index loaded, `get_recommendations` returns the identical list anyway,
because the query path never consults the model.  (The list itself is twenty
copies of video 10: `search` pads with `-1` when `2 × limit` exceeds the
index size, and Python's `video_ids[-1]` wraps to the last entry — faithfully
reproduced here.) -/
theorem claimC1_metadata_never_persisted :
    c1Fs.modelFile = some { hiddenDim := 128, blob := 7 } ∧
    c1Fs.faissFile = some { vecs := [[1, 0]] } ∧
    c1Fs.videoIdsFile = some [10] ∧
    c1Fs.metadataFile = none ∧
    (Engine.startProcess c1Fs).model = none ∧
    (Engine.startProcess c1Fs).faissIndex = some { vecs := [[1, 0]] } ∧
    recsOf (getRecommendations c1Params 1000 (Engine.startProcess c1Fs)
        c1Graph c1Fs 1 20) =
      recsOf (getRecommendations c1Params 1000 c1Saved.1 c1Graph c1Fs 1 20) ∧
    recsOf (getRecommendations c1Params 1000 (Engine.startProcess c1Fs)
        c1Graph c1Fs 1 20) = some (List.replicate 20 10) := by
  exact ⟨rfl, rfl, rfl, rfl, rfl, rfl, by decide, by decide⟩

/-- C7 (evaluated at a 5-epoch run): the pipeline does run the dropout-
disabled extraction pass (the model ends in eval mode), stores the video
embedding in the Graph Store, rebuilds the index from it and persists index
plus id list and the weights blob — but the recorded cumulative epoch count
is `0 + 30`, not `0 + 5` (the `+ 30` is hard-coded in `_save_model`), and no
metadata file is written to durable storage at all. -/
theorem claimC7_post_training_persistence :
    c7Res.isOk = true ∧
    c7StoredState = some (.ok [1, 0], some false) ∧
    c7IndexFiles = some (some { vecs := [[1, 0]] }, some [10]) ∧
    c7ModelFile = some (some { hiddenDim := 128, blob := 5 }) ∧
    c7TotalEpochs = some 30 ∧
    c7MetaFile = some none := by
  decide

/-! ### C2: no watched video in the results -/

theorem pickRecs_no_watched (videoIds watched : List VideoId) (limit : Nat) :
    ∀ (is : List Int) (acc res : List VideoId),
      (∀ v ∈ acc, watched.contains v = false) →
      pickRecs videoIds watched limit is acc = .ok res →
      ∀ v ∈ res, watched.contains v = false := by
  intro is
  induction is with
  | nil =>
      intro acc res hacc hres v hv
      simp only [pickRecs, Except.ok.injEq] at hres
      subst hres
      exact hacc v (List.mem_reverse.mp hv)
  | cons i is ih =>
      intro acc res hacc hres v hv
      simp only [pickRecs] at hres
      by_cases hlt : i < (videoIds.length : Int)
      · rw [if_pos hlt] at hres
        cases hget : pyGet videoIds i with
        | none => rw [hget] at hres; exact Except.noConfusion hres
        | some vid =>
            rw [hget] at hres
            simp only at hres
            by_cases hw : watched.contains vid = true
            · rw [if_pos hw] at hres
              exact ih acc res hacc hres v hv
            · rw [if_neg hw] at hres
              by_cases hl : limit ≤ acc.length + 1
              · rw [if_pos hl] at hres
                have hres2 : (vid :: acc).reverse = res :=
                  (Except.ok.injEq _ _).mp hres
                subst hres2
                rcases List.mem_cons.mp (List.mem_reverse.mp hv) with hv | hv
                · exact hv ▸ (Bool.not_eq_true _).mp hw
                · exact hacc v hv
              · rw [if_neg hl] at hres
                refine ih (vid :: acc) res ?_ hres v hv
                intro u hu
                rcases List.mem_cons.mp hu with hu | hu
                · exact hu ▸ (Bool.not_eq_true _).mp hw
                · exact hacc u hu
      · rw [if_neg hlt] at hres
        exact ih acc res hacc hres v hv

/-- C2 (amended): in the vector-index branch — the index is loaded and the
requesting user has a well-formed stored embedding — no video the user has
already watched appears in the returned list: the branch queries `2 × limit`
candidates, drops watched ones while preserving index rank order, and
returns the first `limit` survivors.  (The popularity-fallback branch does
not filter watched videos; see the counterexample.) -/
theorem claimC2_index_branch_filters_watched (p : EngineParams) (now : Time)
    (e : Engine) (g : GraphState) (fs : FileSystem) (uid : UserId)
    (limit : Nat) (idx : FaissIndexSt) (un : UserNode) (q : List ℚ)
    (res : List VideoId) (e' : Engine) (g' : GraphState) (fs' : FileSystem)
    (hidx : e.faissIndex = some idx)
    (hu : g.findUser uid = some un)
    (hemb : un.embedding = .ok q)
    (hres : getRecommendations p now e g fs uid limit =
      .ok (res, e', g', fs')) :
    ∀ vid ∈ res, vid ∉ g.watchedBy uid := by
  unfold getRecommendations at hres
  simp only [hidx, hu, hemb] at hres
  cases hpick : pickRecs e.videoIds (g.watchedBy uid) limit
      (idx.search (p.normalize q) (limit * 2)) [] with
  | error msg => rw [hpick] at hres; exact Except.noConfusion hres
  | ok recs =>
      rw [hpick] at hres
      simp only [Except.ok.injEq, Prod.mk.injEq] at hres
      obtain ⟨hr, _⟩ := hres
      intro vid hvid hmem
      have hnc := pickRecs_no_watched e.videoIds (g.watchedBy uid) limit
        (idx.search (p.normalize q) (limit * 2)) [] recs
        (by intro v hv; exact absurd hv (List.not_mem_nil v))
        hpick vid (hr ▸ hvid)
      have hnm : vid ∉ g.watchedBy uid := by simpa using hnc
      exact hnm hmem

/-- Witness for C2: a concrete index-branch query — user 1 (embedding
stored) has watched video 10; the index ranks 10 first, yet the returned
list is `[20]`, and indeed no element of it was watched. -/
theorem claimC2_index_branch_filters_watched_witness :
    getRecommendations c1Params 0
        { faissIndex := some { vecs := [[1, 0], [0, 1]] },
          videoIds := [10, 20] }
        { users := [{ userId := 1, embedding := .ok [1, 0] }],
          videos := [{ videoId := 10 }, { videoId := 20 }],
          watches := [{ user := 1, video := 10, watchTime := 1,
                        timestamp := 0 }] }
        {} 1 1 =
      .ok ([20],
        { faissIndex := some { vecs := [[1, 0], [0, 1]] },
          videoIds := [10, 20] },
        { users := [{ userId := 1, embedding := .ok [1, 0] }],
          videos := [{ videoId := 10 }, { videoId := 20 }],
          watches := [{ user := 1, video := 10, watchTime := 1,
                        timestamp := 0 }] },
        {}) ∧
    (20 : VideoId) ∉ GraphState.watchedBy
      { users := [{ userId := 1, embedding := .ok [1, 0] }],
        videos := [{ videoId := 10 }, { videoId := 20 }],
        watches := [{ user := 1, video := 10, watchTime := 1,
                      timestamp := 0 }] } 1 := by
  constructor
  · with_unfolding_all rfl
  · intro hmem
    have := claimC2_index_branch_filters_watched c1Params 0
      { faissIndex := some { vecs := [[1, 0], [0, 1]] },
        videoIds := [10, 20] }
      { users := [{ userId := 1, embedding := .ok [1, 0] }],
        videos := [{ videoId := 10 }, { videoId := 20 }],
        watches := [{ user := 1, video := 10, watchTime := 1,
                      timestamp := 0 }] }
      {} 1 1 { vecs := [[1, 0], [0, 1]] }
      { userId := 1, embedding := .ok [1, 0] } [1, 0] [20]
      { faissIndex := some { vecs := [[1, 0], [0, 1]] },
        videoIds := [10, 20] }
      { users := [{ userId := 1, embedding := .ok [1, 0] }],
        videos := [{ videoId := 10 }, { videoId := 20 }],
        watches := [{ user := 1, video := 10, watchTime := 1,
                      timestamp := 0 }] }
      {} rfl (by with_unfolding_all rfl) rfl (by with_unfolding_all rfl)
    exact this 20 (List.mem_singleton.mpr rfl) hmem

/-- C2 counterexample: on the popularity-fallback branch (user 1 has no
stored embedding) `get_recommendations` returns `[10, 20]` although user 1
has already watched video 10 — the fallback does not filter watched videos,
refuting the claim for "any list returned by get_recommendations". -/
theorem claimC2_fallback_returns_watched :
    recsOf (getRecommendations c1Params 0 c2Engine c2Graph {} 1 20) =
      some [10, 20] ∧
    (10 : VideoId) ∈ c2Graph.watchedBy 1 := by
  exact ⟨by decide, by decide⟩

/-! ### C4: missing or malformed embedding at query time -/

/-- C4 (amended): with the index loaded, a user that is absent from the
graph or whose stored embedding is missing (or falsy) gets exactly the
popularity ranking truncated to `limit`, with the engine, graph and files
untouched — the request does not fail.  (A present-but-malformed embedding
instead raises out of `json.loads`; see the counterexample.) -/
theorem claimC4_missing_embedding_falls_back (p : EngineParams) (now : Time)
    (e : Engine) (g : GraphState) (fs : FileSystem) (uid : UserId)
    (limit : Nat) (idx : FaissIndexSt)
    (hidx : e.faissIndex = some idx)
    (hmiss : g.findUser uid = none ∨
      ∃ un, g.findUser uid = some un ∧ un.embedding = .missing) :
    getRecommendations p now e g fs uid limit =
      .ok (getPopularVideos g limit, e, g, fs) := by
  unfold getRecommendations
  rw [hidx]
  simp only
  rcases hmiss with h | ⟨un, hun, hemb⟩
  · rw [h]
  · rw [hun]
    simp only
    rw [hemb]

/-- Witness for C4: user 7 is absent from `c2Graph`, and user 1 is present
with a missing embedding; both get the popularity ranking `[10, 20]`. -/
theorem claimC4_missing_embedding_falls_back_witness :
    getRecommendations c1Params 0 c2Engine c2Graph {} 7 20 =
      .ok (getPopularVideos c2Graph 20, c2Engine, c2Graph, {}) ∧
    getRecommendations c1Params 0 c2Engine c2Graph {} 1 20 =
      .ok (getPopularVideos c2Graph 20, c2Engine, c2Graph, {}) ∧
    getPopularVideos c2Graph 20 = [10, 20] := by
  refine ⟨?_, ?_, by decide⟩
  · exact claimC4_missing_embedding_falls_back c1Params 0 c2Engine c2Graph {}
      7 20 { vecs := [[1, 0], [0, 1]] } rfl (Or.inl (by decide))
  · exact claimC4_missing_embedding_falls_back c1Params 0 c2Engine c2Graph {}
      1 20 { vecs := [[1, 0], [0, 1]] } rfl
      (Or.inr ⟨{ userId := 1 }, by decide, rfl⟩)

/-- C4 counterexample: a present-but-malformed stored embedding makes
`get_recommendations` raise (the uncaught `json.loads` error) instead of
degrading to the popularity fallback — refuting "missing or malformed …
never fails". -/
theorem claimC4_malformed_embedding_raises :
    getRecommendations c1Params 0 c2Engine c4Graph {} 1 20 =
      .error "json.loads: user embedding is malformed" := by
  rfl

theorem mem_videoPairs (vs : List VideoNode) (p : VideoNode × VideoNode) :
    p ∈ videoPairs vs ↔ p.1 ∈ vs ∧ p.2 ∈ vs ∧ p.1.videoId < p.2.videoId := by
  rcases p with ⟨x, y⟩
  constructor
  · intro hmem
    unfold videoPairs at hmem
    rw [List.mem_flatten] at hmem
    obtain ⟨l, hl, hxy⟩ := hmem
    rw [List.mem_map] at hl
    obtain ⟨v1, hv1, rfl⟩ := hl
    rw [List.mem_filterMap] at hxy
    obtain ⟨v2, hv2, hif⟩ := hxy
    by_cases h : v1.videoId < v2.videoId
    · rw [if_pos h] at hif
      have h12 := (Option.some.injEq _ _).mp hif
      have h1 : v1 = x := congrArg Prod.fst h12
      have h2 : v2 = y := congrArg Prod.snd h12
      exact ⟨h1 ▸ hv1, h2 ▸ hv2, h1 ▸ h2 ▸ h⟩
    · rw [if_neg h] at hif
      exact Option.noConfusion hif
  · rintro ⟨hx, hy, hlt⟩
    unfold videoPairs
    rw [List.mem_flatten]
    refine ⟨_, List.mem_map_of_mem _ hx, ?_⟩
    rw [List.mem_filterMap]
    exact ⟨y, hy, if_pos hlt⟩

theorem simUpd_lookup_ne (now : Time) (sl : List SimilarToRel)
    (q : VideoNode × VideoNode) (k : VideoId × VideoId)
    (hne : pairKey q ≠ k) :
    lookupK SimilarToRel.skey k (simUpd now sl q) =
      lookupK SimilarToRel.skey k sl := by
  unfold simUpd
  cases h1 : q.1.categories with
  | none => rfl
  | some c1 =>
      cases h2 : q.2.categories with
      | none => rfl
      | some c2 =>
          simp only
          by_cases hs : (3 : ℚ)/10 ≤ catSim c1 c2
          · rw [if_pos hs]
            exact lookupK_upsertK_ne SimilarToRel.skey _ k _ _ sl rfl
              (fun e => rfl) (Ne.symm hne)
          · rw [if_neg hs]

/-- The central fold lemma for C6: once every pair carrying the key of `p`
is `p` itself, the fold leaves exactly the record of `p` under that key. -/
theorem foldSim_lookup (now : Time) (p : VideoNode × VideoNode) :
    ∀ (ps : List (VideoNode × VideoNode)) (sl : List SimilarToRel),
    (∀ q ∈ ps, pairKey q = pairKey p → q = p) →
    (lookupK SimilarToRel.skey (pairKey p) sl = none ∨
      lookupK SimilarToRel.skey (pairKey p) sl = simRec now p) →
    (p ∈ ps ∨ lookupK SimilarToRel.skey (pairKey p) sl = simRec now p) →
    lookupK SimilarToRel.skey (pairKey p) (ps.foldl (simUpd now) sl) =
      simRec now p := by
  intro ps
  induction ps with
  | nil =>
      intro sl hkeys hpre hin
      rcases hin with hin | hin
      · exact absurd hin (List.not_mem_nil p)
      · exact hin
  | cons q rest ih =>
      intro sl hkeys hpre hin
      rw [List.foldl_cons]
      by_cases hk : pairKey q = pairKey p
      · have hq : q = p := hkeys q (List.mem_cons_self q rest) hk
        subst hq
        have hnew : lookupK SimilarToRel.skey (pairKey q) (simUpd now sl q) =
            simRec now q := by
          cases h1 : q.1.categories with
          | none =>
              have hl : simUpd now sl q = sl := by
                unfold simUpd; rw [h1]
              have hr : simRec now q = none := by
                simp only [simRec, h1]
              rw [hl, hr]
              rcases hpre with h | h
              · exact h
              · rw [hr] at h; exact h
          | some c1 =>
              cases h2 : q.2.categories with
              | none =>
                  have hl : simUpd now sl q = sl := by
                    unfold simUpd; rw [h1, h2]
                  have hr : simRec now q = none := by
                    simp only [simRec, h1, h2]
                  rw [hl, hr]
                  rcases hpre with h | h
                  · exact h
                  · rw [hr] at h; exact h
              | some c2 =>
                  by_cases hs : (3 : ℚ)/10 ≤ catSim c1 c2
                  · have hl : simUpd now sl q =
                        upsertK SimilarToRel.skey (pairKey q)
                          (fun e => { e with similarity := catSim c1 c2,
                                             updatedAt := some now })
                          { a := q.1.videoId, b := q.2.videoId,
                            similarity := catSim c1 c2,
                            updatedAt := some now } sl := by
                      unfold simUpd; rw [h1, h2]; simp only [if_pos hs]; rfl
                    have hr : simRec now q =
                        some { a := q.1.videoId, b := q.2.videoId,
                               similarity := catSim c1 c2,
                               updatedAt := some now } := by
                      simp only [simRec, h1, h2, if_pos hs]
                    rw [hl, hr]
                    rw [lookupK_upsertK_self SimilarToRel.skey (pairKey q)
                      (fun e => { e with similarity := catSim c1 c2,
                                         updatedAt := some now })
                      { a := q.1.videoId, b := q.2.videoId,
                        similarity := catSim c1 c2, updatedAt := some now }
                      sl rfl (fun e => rfl)]
                    rcases hpre with h | h
                    · rw [h]
                      rfl
                    · rw [hr] at h
                      rw [h]
                      rfl
                  · have hl : simUpd now sl q = sl := by
                      unfold simUpd; rw [h1, h2]; simp only [if_neg hs]
                    have hr : simRec now q = none := by
                      simp only [simRec, h1, h2, if_neg hs]
                    rw [hl, hr]
                    rcases hpre with h | h
                    · exact h
                    · rw [hr] at h; exact h
        exact ih (simUpd now sl q)
          (fun r hr hkr => hkeys r (List.mem_cons_of_mem q hr) hkr)
          (Or.inr hnew) (Or.inr hnew)
      · have hlook : lookupK SimilarToRel.skey (pairKey p)
            (simUpd now sl q) = lookupK SimilarToRel.skey (pairKey p) sl :=
          simUpd_lookup_ne now sl q (pairKey p) hk
        refine ih (simUpd now sl q)
          (fun r hr hkr => hkeys r (List.mem_cons_of_mem q hr) hkr)
          ?_ ?_
        · rw [hlook]; exact hpre
        · rcases hin with hin | hin
          · rcases List.mem_cons.mp hin with hin | hin
            · exact absurd (hin ▸ rfl) hk
            · exact Or.inl hin
          · exact Or.inr (hlook ▸ hin)

theorem catSim_eq_jaccard (c1 c2 : List CatId) (h1 : c1.Nodup)
    (h2 : c2.Nodup) : catSim c1 c2 = jaccardOverlap c1 c2 := by
  unfold catSim jaccardOverlap
  have hnum : (c1.filter (fun c => c2.contains c)).length =
      (c1.toFinset ∩ c2.toFinset).card := by
    rw [← List.toFinset_card_of_nodup (h1.filter _)]
    congr 1
    ext a
    simp [List.mem_toFinset, List.mem_filter, Finset.mem_inter]
  have hden : (c1 ++ c2.filter (fun c => ! c1.contains c)).length =
      (c1.toFinset ∪ c2.toFinset).card := by
    rw [List.length_append]
    have e1 : c1.length = c1.toFinset.card :=
      (List.toFinset_card_of_nodup h1).symm
    have e2 : (c2.filter (fun c => ! c1.contains c)).length =
        (c2.toFinset \ c1.toFinset).card := by
      rw [← List.toFinset_card_of_nodup (h2.filter _)]
      congr 1
      ext a
      simp [List.mem_toFinset, List.mem_filter, Finset.mem_sdiff]
    rw [e1, e2]
    have hsd := Finset.card_sdiff_add_card (s := c2.toFinset)
      (t := c1.toFinset)
    have hcomm : (c2.toFinset ∪ c1.toFinset).card =
        (c1.toFinset ∪ c2.toFinset).card :=
      congrArg Finset.card (Finset.union_comm _ _)
    omega
  rw [hnum, hden]

/-- C6: starting from a graph with no `SIMILAR_TO` edges and duplicate-free
video ids, `compute_video_similarities` leaves, for each unordered video pair
(processed once, as the ordered pair with `v1.video_id < v2.video_id`), an
undirected `SIMILAR_TO` edge exactly when the category-overlap score is at
least `0.30`, carrying that score as `similarity` (first conjunct); on
duplicate-free category lists the score IS the category-set Jaccard overlap,
intersection size over union size (second conjunct); and on the concrete
scenario A\x7bx,y\x7d, B\x7by,z\x7d, C\x7bp,q\x7d exactly one edge A–B with
similarity `1/3` is created (third conjunct). -/
theorem claimC6_video_similarities :
    (∀ (s : GraphState) (now : Time) (va vb : VideoNode)
        (c1 c2 : List CatId),
      (s.videos.map VideoNode.videoId).Nodup →
      s.similar = [] →
      va ∈ s.videos → vb ∈ s.videos → va.videoId < vb.videoId →
      va.categories = some c1 → vb.categories = some c2 →
      lookupK SimilarToRel.skey (spair va.videoId vb.videoId)
          (computeVideoSimilarities now s).similar =
        (if (3 : ℚ)/10 ≤ catSim c1 c2 then
          some { a := va.videoId, b := vb.videoId,
                 similarity := catSim c1 c2, updatedAt := some now }
         else none)) ∧
    (∀ c1 c2 : List CatId, c1.Nodup → c2.Nodup →
      catSim c1 c2 = jaccardOverlap c1 c2) ∧
    (computeVideoSimilarities 0 c6Scenario).similar =
      [{ a := 1, b := 2, similarity := 1/3, updatedAt := some 0 }] := by
  refine ⟨?_, catSim_eq_jaccard, by with_unfolding_all rfl⟩
  intro s now va vb c1 c2 hnd hsim hva hvb hlt hc1 hc2
  have hmain := foldSim_lookup now (va, vb) (videoPairs s.videos) s.similar
    ?_ ?_ ?_
  · have hrec : simRec now (va, vb) =
        (if (3 : ℚ)/10 ≤ catSim c1 c2 then
          some { a := va.videoId, b := vb.videoId,
                 similarity := catSim c1 c2, updatedAt := some now }
         else none) := by
      simp only [simRec, hc1, hc2]
    unfold computeVideoSimilarities
    simp only
    rw [← hrec, ← hmain]
    rfl
  · intro q hq hkey
    obtain ⟨hq1, hq2, hqlt⟩ := (mem_videoPairs s.videos q).mp hq
    have hkq : pairKey q = (q.1.videoId, q.2.videoId) := by
      unfold pairKey spair
      rw [min_eq_left (le_of_lt hqlt), max_eq_right (le_of_lt hqlt)]
    have hkp : pairKey (va, vb) = (va.videoId, vb.videoId) := by
      unfold pairKey spair
      rw [min_eq_left (le_of_lt hlt), max_eq_right (le_of_lt hlt)]
    rw [hkq, hkp] at hkey
    have hfst : q.1.videoId = va.videoId := congrArg Prod.fst hkey
    have hsnd : q.2.videoId = vb.videoId := congrArg Prod.snd hkey
    have hq1e : q.1 = va := List.inj_on_of_nodup_map hnd hq1 hva hfst
    have hq2e : q.2 = vb := List.inj_on_of_nodup_map hnd hq2 hvb hsnd
    exact Prod.ext hq1e hq2e
  · rw [hsim]
    exact Or.inl rfl
  · exact Or.inl ((mem_videoPairs s.videos (va, vb)).mpr ⟨hva, hvb, hlt⟩)

/-- Witness for C6 at a concrete state: in the scenario graph the A–B lookup
returns the `1/3` edge and the A–C lookup returns none, matching the
if-characterization of the first conjunct. -/
theorem claimC6_video_similarities_witness :
    lookupK SimilarToRel.skey (spair 1 2)
        (computeVideoSimilarities 0 c6Scenario).similar =
      some { a := 1, b := 2, similarity := 1/3, updatedAt := some 0 } ∧
    lookupK SimilarToRel.skey (spair 1 3)
        (computeVideoSimilarities 0 c6Scenario).similar = none := by
  constructor
  · have h := claimC6_video_similarities.1 c6Scenario 0
      { videoId := 1, categories := some [100, 101] }
      { videoId := 2, categories := some [101, 102] }
      [100, 101] [101, 102]
      (by decide) rfl (by decide) (by decide) (by decide) rfl rfl
    rw [h]
    with_unfolding_all rfl
  · have h := claimC6_video_similarities.1 c6Scenario 0
      { videoId := 1, categories := some [100, 101] }
      { videoId := 3, categories := some [103, 104] }
      [100, 101] [103, 104]
      (by decide) rfl (by decide) (by decide) (by decide) rfl rfl
    rw [h]
    with_unfolding_all rfl

/-! ### C8: the shape of the GNN forward pass -/

theorem layerNewGo_filter {V E : Type} (ops : GNNOps V E) (i : Nat)
    (x : NodeType → V) :
    ∀ (edges : List (EdgeTriple × E)) (acc : NodeType → Option V),
      layerNewGo ops i x edges acc =
        layerNewGo ops i x (sameTypeOnly edges) acc := by
  intro edges
  induction edges with
  | nil => intro acc; rfl
  | cons pr rest ih =>
      intro acc
      by_cases h : pr.1.src = pr.1.dst
      · have hsto : sameTypeOnly (pr :: rest) = pr :: sameTypeOnly rest :=
          List.filter_cons_of_pos (decide_eq_true h)
        rw [hsto]
        simp only [layerNewGo, if_pos h]
        exact ih _
      · have hsto : sameTypeOnly (pr :: rest) = sameTypeOnly rest :=
          List.filter_cons_of_neg (by simpa using h)
        rw [hsto]
        simp only [layerNewGo, if_neg h]
        exact ih acc

/-- The dict accumulation of one layer, read off per destination type: a
fold of the conv-norm-relu-dropout chain over the same-type relations
feeding that type. -/
theorem layerNewGo_eval {V E : Type} (ops : GNNOps V E) (i : Nat)
    (x : NodeType → V) (nt : NodeType) :
    ∀ (edges : List (EdgeTriple × E)) (acc : NodeType → Option V),
      layerNewGo ops i x edges acc nt =
        (sameTypeInto nt edges).foldl (fun o pr =>
          match o with
          | none => some (convChain ops i (x pr.1.src) pr.2)
          | some w => some (ops.add w (convChain ops i (x pr.1.src) pr.2)))
          (acc nt) := by
  intro edges
  induction edges with
  | nil => intro acc; rfl
  | cons pr rest ih =>
      intro acc
      by_cases h : pr.1.src = pr.1.dst
      · simp only [layerNewGo, if_pos h]
        rw [ih]
        by_cases hd : pr.1.dst = nt
        · have hsti : sameTypeInto nt (pr :: rest) =
              pr :: sameTypeInto nt rest :=
            List.filter_cons_of_pos (by simp [h, hd])
          rw [hsti, List.foldl_cons]
          subst hd
          simp
        · have hsti : sameTypeInto nt (pr :: rest) = sameTypeInto nt rest :=
            List.filter_cons_of_neg (by simp [hd])
          rw [hsti]
          have hne : ¬ (nt = pr.1.dst) := fun hh => hd hh.symm
          simp only [hne, if_false]
      · simp only [layerNewGo, if_neg h]
        rw [ih]
        have hsti : sameTypeInto nt (pr :: rest) = sameTypeInto nt rest :=
          List.filter_cons_of_neg (by simp [h])
        rw [hsti]

theorem optfold_some {V E : Type} (ops : GNNOps V E) (i : Nat)
    (x : NodeType → V) :
    ∀ (l : List (EdgeTriple × E)) (w : V),
      l.foldl (fun o pr =>
          match o with
          | none => some (convChain ops i (x pr.1.src) pr.2)
          | some w => some (ops.add w (convChain ops i (x pr.1.src) pr.2)))
        (some w) =
      some (l.foldl (fun a q => ops.add a (convChain ops i (x q.1.src) q.2))
        w) := by
  intro l
  induction l with
  | nil => intro w; rfl
  | cons pr rest ih => intro w; rw [List.foldl_cons, List.foldl_cons]; exact ih _

theorem layerStep_eq_layerSpec {V E : Type} (ops : GNNOps V E) (i : Nat)
    (x : NodeType → V) (edges : List (EdgeTriple × E)) :
    layerStep ops i x edges = layerSpec ops i x edges := by
  funext nt
  unfold layerStep layerSpec layerNew
  rw [layerNewGo_eval ops i x nt edges (fun _ => none)]
  cases hsti : sameTypeInto nt edges with
  | nil => rfl
  | cons pr rest =>
      rw [List.foldl_cons]
      simp only
      rw [optfold_some ops i x rest (convChain ops i (x pr.1.src) pr.2)]

theorem hforward_congr_layers {V : Type}
    (f g : (NodeType → V) → Nat → (NodeType → V))
    (hfg : ∀ x i, f x i = g x i) :
    ∀ (l : List Nat) (x : NodeType → V), l.foldl f x = l.foldl g x := by
  intro l
  induction l with
  | nil => intro x; rfl
  | cons i rest ih => intro x; rw [List.foldl_cons, List.foldl_cons, hfg]; exact ih _

/-- C8: `HeteroGNNModel.forward` (i) is invariant under deleting every
cross-type edge relation — convolution is applied only to edge types whose
source node type equals their destination node type; (ii) equals the layer
shape the spec describes: per layer, convolution → layer norm → ReLU →
dropout per same-type relation, summed over the same-type relations feeding
each destination type, added residually to that type's running
representation, types fed by no same-type relation passing through
unchanged; and (iii) the constructor defaults are hidden dim 128, 3 layers,
dropout probability 0.3. -/
theorem claimC8_forward_same_type_only :
    (∀ (V E : Type) (ops : GNNOps V E) (numLayers : Nat) (x0 : NodeType → V)
        (edges : List (EdgeTriple × E)),
      hforward ops numLayers x0 edges =
        hforward ops numLayers x0 (sameTypeOnly edges)) ∧
    (∀ (V E : Type) (ops : GNNOps V E) (numLayers : Nat) (x0 : NodeType → V)
        (edges : List (EdgeTriple × E)),
      hforward ops numLayers x0 edges = hforwardSpec ops numLayers x0 edges) ∧
    (heteroGNNDefault.hiddenDim = 128 ∧ heteroGNNDefault.numLayers = 3 ∧
      heteroGNNDefault.dropoutP = 3/10) := by
  refine ⟨?_, ?_, rfl, rfl, rfl⟩
  · intro V E ops numLayers x0 edges
    unfold hforward
    refine hforward_congr_layers _ _ (fun x i => ?_) _ _
    unfold layerStep layerNew
    funext nt
    rw [layerNewGo_filter ops i x edges]
  · intro V E ops numLayers x0 edges
    unfold hforward hforwardSpec
    exact hforward_congr_layers _ _
      (fun x i => layerStep_eq_layerSpec ops i x edges) _ _

theorem mergeInterest_cats (u' : UserId) (c' : CatId) (d : ℚ)
    (s : GraphState) : (mergeInterest u' c' d s).cats = s.cats := by
  unfold mergeInterest
  cases s.findCat c' <;> rfl

theorem mergeInterest_findCat (u' : UserId) (c' : CatId) (d : ℚ)
    (s : GraphState) (c : CatId) :
    (mergeInterest u' c' d s).findCat c = s.findCat c := by
  unfold GraphState.findCat
  rw [mergeInterest_cats]

theorem interestScoreOf_mergeInterest (s : GraphState) (u' : UserId)
    (c' : CatId) (d : ℚ) (u : UserId) (c : CatId) (hd : 0 ≤ d) :
    interestScoreOf s u c ≤ interestScoreOf (mergeInterest u' c' d s) u c := by
  unfold mergeInterest
  cases hfc : s.findCat c' with
  | none => exact le_refl _
  | some cn =>
      unfold interestScoreOf
      simp only
      by_cases hk : (u, c) = (u', c')
      · rw [hk]
        rw [lookupK_upsertK_self InterestedInRel.key (u', c')
          (fun e => { e with score := e.score + d, count := e.count + 1 })
          { user := u', category := c', score := d, count := 1 }
          s.interests rfl (fun e => rfl)]
        cases hlk : lookupK InterestedInRel.key (u', c') s.interests with
        | none => simpa [hlk] using hd
        | some e => simp [hlk, Option.elim]; linarith
      · rw [lookupK_upsertK_ne InterestedInRel.key (u', c') (u, c)
          (fun e => { e with score := e.score + d, count := e.count + 1 })
          { user := u', category := c', score := d, count := 1 }
          s.interests rfl (fun e => rfl) hk]

theorem interestCountOf_mergeInterest (s : GraphState) (u' : UserId)
    (c' : CatId) (d : ℚ) (u : UserId) (c : CatId) :
    interestCountOf (mergeInterest u' c' d s) u c =
      interestCountOf s u c +
        (if (u', c') = (u, c) ∧ (s.findCat c').isSome then 1 else 0) := by
  unfold mergeInterest
  cases hfc : s.findCat c' with
  | none => simp [hfc]
  | some cn =>
      unfold interestCountOf
      simp only
      by_cases hk : (u', c') = (u, c)
      · rw [← hk]
        rw [lookupK_upsertK_self InterestedInRel.key (u', c')
          (fun e => { e with score := e.score + d, count := e.count + 1 })
          { user := u', category := c', score := d, count := 1 }
          s.interests rfl (fun e => rfl)]
        rw [if_pos ⟨rfl, rfl⟩]
        cases hlk : lookupK InterestedInRel.key (u', c') s.interests with
        | none => rfl
        | some e => rfl
      · rw [lookupK_upsertK_ne InterestedInRel.key (u', c') (u, c)
          (fun e => { e with score := e.score + d, count := e.count + 1 })
          { user := u', category := c', score := d, count := 1 }
          s.interests rfl (fun e => rfl) (fun hh => hk hh.symm)]
        rw [if_neg (fun hh => hk hh.1)]
        exact (Nat.add_zero _).symm

theorem interestScoreOf_foldMerge (u' : UserId) (d : ℚ) (u : UserId)
    (c : CatId) (hd : 0 ≤ d) :
    ∀ (cats : List CatId) (s : GraphState),
      interestScoreOf s u c ≤
        interestScoreOf
          (cats.foldl (fun s cid => mergeInterest u' cid d s) s) u c := by
  intro cats
  induction cats with
  | nil => intro s; exact le_refl _
  | cons cid rest ih =>
      intro s
      rw [List.foldl_cons]
      exact le_trans (interestScoreOf_mergeInterest s u' cid d u c hd)
        (ih (mergeInterest u' cid d s))

theorem interestCountOf_foldMerge (u' : UserId) (d : ℚ) (u : UserId)
    (c : CatId) :
    ∀ (cats : List CatId) (s : GraphState), cats.Nodup →
      interestCountOf
          (cats.foldl (fun s cid => mergeInterest u' cid d s) s) u c =
        interestCountOf s u c +
          (if u' = u ∧ c ∈ cats ∧ (s.findCat c).isSome then 1 else 0) := by
  intro cats
  induction cats with
  | nil =>
      intro s hnd
      simp
  | cons cid rest ih =>
      intro s hnd
      obtain ⟨hcid, hrest⟩ := List.nodup_cons.mp hnd
      rw [List.foldl_cons]
      rw [ih (mergeInterest u' cid d s) hrest]
      rw [mergeInterest_findCat]
      rw [interestCountOf_mergeInterest]
      by_cases h1 : u' = u
      · subst h1
        by_cases h2 : c = cid
        · subst h2
          have hcm : c ∉ rest := hcid
          cases h4 : (s.findCat c).isSome with
          | true => simp [hcm, h4]
          | false => simp [hcm, h4]
        · have hpair : ¬ ((u', cid) = (u', c) ∧
              (s.findCat cid).isSome = true) := by
            rintro ⟨hp, _⟩
            exact h2 (congrArg Prod.snd hp).symm
          rw [if_neg hpair]
          have h2s : ¬ (cid = c) := fun hh => h2 hh.symm
          by_cases h3 : c ∈ rest
          · simp [h3, h2, h2s]
          · simp [h3, h2, h2s]
      · have hpair : ¬ ((u', cid) = (u, c) ∧
            (s.findCat cid).isSome = true) := by
          rintro ⟨hp, _⟩
          exact h1 (congrArg Prod.fst hp)
        rw [if_neg hpair]
        simp [h1]

theorem syncWatch_interests_frame (w : RWatch) (s : GraphState) (v : VideoNode)
    (hu : (s.findUser w.userId).isSome) (hv : s.findVideo w.videoId = some v) :
    syncWatch w s =
      (v.categories.getD []).foldl
        (fun s cid => mergeInterest w.userId cid w.watchTime s)
        { s with watches := upsertK WatchesRel.key (w.userId, w.videoId)
                              (fun e => { e with watchTime := w.watchTime,
                                                 timestamp := w.timestamp })
                              { user := w.userId, video := w.videoId,
                                watchTime := w.watchTime,
                                timestamp := w.timestamp } s.watches } := by
  unfold syncWatch
  cases hfu : s.findUser w.userId with
  | none => rw [hfu] at hu; exact absurd hu (by simp)
  | some un => rw [hv]

theorem syncLike_interests_frame (l : RLike) (s : GraphState) (v : VideoNode)
    (hu : (s.findUser l.userId).isSome) (hv : s.findVideo l.videoId = some v) :
    syncLike l s =
      (v.categories.getD []).foldl
        (fun s cid => mergeInterest l.userId cid 2 s)
        { s with likes := upsertK LikesRel.key (l.userId, l.videoId)
                            (fun e => { e with timestamp := l.timestamp })
                            { user := l.userId, video := l.videoId,
                              timestamp := l.timestamp } s.likes } := by
  unfold syncLike
  cases hfu : s.findUser l.userId with
  | none => rw [hfu] at hu; exact absurd hu (by simp)
  | some un => rw [hv]

theorem interestCountOf_setWatches (s : GraphState) (wl : List WatchesRel)
    (u : UserId) (c : CatId) :
    interestCountOf { s with watches := wl } u c = interestCountOf s u c :=
  rfl

theorem interestCountOf_setLikes (s : GraphState) (ll : List LikesRel)
    (u : UserId) (c : CatId) :
    interestCountOf { s with likes := ll } u c = interestCountOf s u c :=
  rfl

theorem findCat_setWatches (s : GraphState) (wl : List WatchesRel)
    (c : CatId) : GraphState.findCat { s with watches := wl } c =
      s.findCat c := rfl

theorem findCat_setLikes (s : GraphState) (ll : List LikesRel)
    (c : CatId) : GraphState.findCat { s with likes := ll } c =
      s.findCat c := rfl

/-- C9: across `sync_watch_to_neo4j` / `sync_like_to_neo4j` operations whose
watch weights are non-negative, the `INTERESTED_IN` edge score at every
`(user, category)` pair never decreases — for a single operation (first
conjunct) and along any sequence (second conjunct) — and `count` increases
by exactly one on each qualifying interaction (one by user `u` on a video
whose stored category list carries `c`, with all `MATCH`ed nodes present)
and is unchanged otherwise, provided the video's stored category list is
duplicate-free (third conjunct). -/
theorem claimC9_interest_score_count :
    (∀ (s : GraphState) (op : InteractionOp) (u : UserId) (c : CatId),
      op.wf →
      interestScoreOf s u c ≤ interestScoreOf (applyInteraction s op) u c) ∧
    (∀ (s : GraphState) (ops : List InteractionOp) (u : UserId) (c : CatId),
      (∀ o ∈ ops, o.wf) →
      interestScoreOf s u c ≤
        interestScoreOf (ops.foldl applyInteraction s) u c) ∧
    (∀ (s : GraphState) (op : InteractionOp) (u : UserId) (c : CatId),
      opVideoCatsNodup s op →
      interestCountOf (applyInteraction s op) u c =
        interestCountOf s u c + (if qualifiesFor s u c op then 1 else 0)) := by
  have hscore : ∀ (s : GraphState) (op : InteractionOp) (u : UserId)
      (c : CatId), op.wf →
      interestScoreOf s u c ≤ interestScoreOf (applyInteraction s op) u c := by
    intro s op u c hwf
    cases op with
    | watch w =>
        show interestScoreOf s u c ≤ interestScoreOf (syncWatch w s) u c
        unfold syncWatch
        cases hfu : s.findUser w.userId with
        | none => exact le_refl _
        | some un =>
            cases hfv : s.findVideo w.videoId with
            | none => exact le_refl _
            | some v =>
                simp only
                exact interestScoreOf_foldMerge w.userId w.watchTime u c hwf
                  (v.categories.getD []) _
    | like l =>
        show interestScoreOf s u c ≤ interestScoreOf (syncLike l s) u c
        unfold syncLike
        cases hfu : s.findUser l.userId with
        | none => exact le_refl _
        | some un =>
            cases hfv : s.findVideo l.videoId with
            | none => exact le_refl _
            | some v =>
                simp only
                exact interestScoreOf_foldMerge l.userId 2 u c (by norm_num)
                  (v.categories.getD []) _
  refine ⟨hscore, ?_, ?_⟩
  · intro s ops u c hwf
    induction ops generalizing s with
    | nil => exact le_refl _
    | cons op rest ih =>
        rw [List.foldl_cons]
        exact le_trans
          (hscore s op u c (hwf op (List.mem_cons_self op rest)))
          (ih (applyInteraction s op)
            (fun o ho => hwf o (List.mem_cons_of_mem op ho)))
  · intro s op u c hnd
    unfold opVideoCatsNodup at hnd
    cases op with
    | watch w =>
        simp only [InteractionOp.videoId] at hnd
        show interestCountOf (syncWatch w s) u c =
          interestCountOf s u c +
            (if qualifiesFor s u c (.watch w) then 1 else 0)
        cases hfu : s.findUser w.userId with
        | none =>
            have hsw : syncWatch w s = s := by
              unfold syncWatch
              rw [hfu]
            have hq : qualifiesFor s u c (.watch w) = false := by
              unfold qualifiesFor
              simp [hfu, InteractionOp.userId]
            rw [hsw, hq]
            simp
        | some un =>
            cases hfv : s.findVideo w.videoId with
            | none =>
                have hsw : syncWatch w s = s := by
                  unfold syncWatch
                  rw [hfu, hfv]
                have hq : qualifiesFor s u c (.watch w) = false := by
                  unfold qualifiesFor
                  simp [hfv, InteractionOp.videoId]
                rw [hsw, hq]
                simp
            | some v =>
                rw [hfv] at hnd
                rw [syncWatch_interests_frame w s v (by rw [hfu]; rfl) hfv]
                rw [interestCountOf_foldMerge w.userId w.watchTime u c
                  (v.categories.getD []) _ hnd]
                rw [interestCountOf_setWatches, findCat_setWatches]
                congr 1
                have hq : qualifiesFor s u c (.watch w) =
                    (decide (w.userId = u) &&
                      (v.categories.getD []).contains c &&
                      (s.findCat c).isSome) := by
                  unfold qualifiesFor
                  rw [show InteractionOp.userId (.watch w) = w.userId from rfl,
                    show InteractionOp.videoId (.watch w) = w.videoId from rfl,
                    hfu, hfv]
                  simp
                rw [hq]
                by_cases h1 : w.userId = u
                · by_cases h2 : c ∈ v.categories.getD []
                  · cases h4 : (s.findCat c).isSome with
                    | true => simp [h1, h2, h4]
                    | false => simp [h1, h2, h4]
                  · simp [h1, h2]
                · simp [h1]
    | like l =>
        simp only [InteractionOp.videoId] at hnd
        show interestCountOf (syncLike l s) u c =
          interestCountOf s u c +
            (if qualifiesFor s u c (.like l) then 1 else 0)
        cases hfu : s.findUser l.userId with
        | none =>
            have hsw : syncLike l s = s := by
              unfold syncLike
              rw [hfu]
            have hq : qualifiesFor s u c (.like l) = false := by
              unfold qualifiesFor
              simp [hfu, InteractionOp.userId]
            rw [hsw, hq]
            simp
        | some un =>
            cases hfv : s.findVideo l.videoId with
            | none =>
                have hsw : syncLike l s = s := by
                  unfold syncLike
                  rw [hfu, hfv]
                have hq : qualifiesFor s u c (.like l) = false := by
                  unfold qualifiesFor
                  simp [hfv, InteractionOp.videoId]
                rw [hsw, hq]
                simp
            | some v =>
                rw [hfv] at hnd
                rw [syncLike_interests_frame l s v (by rw [hfu]; rfl) hfv]
                rw [interestCountOf_foldMerge l.userId 2 u c
                  (v.categories.getD []) _ hnd]
                rw [interestCountOf_setLikes, findCat_setLikes]
                congr 1
                have hq : qualifiesFor s u c (.like l) =
                    (decide (l.userId = u) &&
                      (v.categories.getD []).contains c &&
                      (s.findCat c).isSome) := by
                  unfold qualifiesFor
                  rw [show InteractionOp.userId (.like l) = l.userId from rfl,
                    show InteractionOp.videoId (.like l) = l.videoId from rfl,
                    hfu, hfv]
                  simp
                rw [hq]
                by_cases h1 : l.userId = u
                · by_cases h2 : c ∈ v.categories.getD []
                  · cases h4 : (s.findCat c).isSome with
                    | true => simp [h1, h2, h4]
                    | false => simp [h1, h2, h4]
                  · simp [h1, h2]
                · simp [h1]

/-- Witness for C9 at concrete inputs: a watch of weight 2 by user 1 on
video 10 keeps the (1, 5) interest score non-decreasing, increments its
count by one (it qualifies), and a two-event sequence also keeps the score
non-decreasing. -/
theorem claimC9_interest_score_count_witness :
    interestScoreOf c9Graph 1 5 ≤
      interestScoreOf
        (applyInteraction c9Graph
          (.watch { userId := 1, videoId := 10, watchTime := 2,
                    timestamp := 0 })) 1 5 ∧
    interestCountOf
        (applyInteraction c9Graph
          (.watch { userId := 1, videoId := 10, watchTime := 2,
                    timestamp := 0 })) 1 5 =
      interestCountOf c9Graph 1 5 +
        (if qualifiesFor c9Graph 1 5
            (.watch { userId := 1, videoId := 10, watchTime := 2,
                      timestamp := 0 }) then 1 else 0) ∧
    interestScoreOf c9Graph 1 5 ≤
      interestScoreOf
        ([InteractionOp.watch { userId := 1, videoId := 10, watchTime := 2,
                                timestamp := 0 },
          InteractionOp.like { userId := 1, videoId := 10,
                               timestamp := 1 }].foldl applyInteraction
          c9Graph) 1 5 := by
  refine ⟨?_, ?_, ?_⟩
  · exact claimC9_interest_score_count.1 c9Graph
      (.watch { userId := 1, videoId := 10, watchTime := 2, timestamp := 0 })
      1 5 (by norm_num [InteractionOp.wf])
  · exact claimC9_interest_score_count.2.2 c9Graph
      (.watch { userId := 1, videoId := 10, watchTime := 2, timestamp := 0 })
      1 5 (show ([5] : List CatId).Nodup by decide)
  · refine claimC9_interest_score_count.2.1 c9Graph _ 1 5 ?_
    intro o ho
    rcases List.mem_cons.mp ho with h | h
    · subst h; norm_num [InteractionOp.wf]
    · rcases List.mem_cons.mp h with h | h
      · subst h; trivial
      · exact absurd h (List.not_mem_nil o)

/-- Counterexample to C9 as stated: the `INTERESTED_IN` score is **not**
monotonically non-decreasing across arbitrary `sync_watch_to_neo4j`
sequences.  `Watch.watch_time` carries no validator and the `watch` API
endpoint forwards the client float unchecked, so a watch with weight `-1`
is reachable; its `ON MATCH SET i.score = i.score + $watch_time` then
decreases the stored score: on `c9Graph`, a weight-2 watch leaves score 2,
and re-syncing a weight-`-1` watch drops it to 1. -/
theorem claimC9_negative_watch_time_decreases_score :
    interestScoreOf (applyInteraction c9Graph c9PosWatch) 1 5 = 2 ∧
    interestScoreOf (applyInteraction (applyInteraction c9Graph c9PosWatch)
      c9NegWatch) 1 5 = 1 ∧
    interestScoreOf (applyInteraction (applyInteraction c9Graph c9PosWatch)
      c9NegWatch) 1 5 <
      interestScoreOf (applyInteraction c9Graph c9PosWatch) 1 5 := by
  have h1 : interestScoreOf (applyInteraction c9Graph c9PosWatch) 1 5 = 2 :=
    by with_unfolding_all rfl
  have h2 : interestScoreOf (applyInteraction
      (applyInteraction c9Graph c9PosWatch) c9NegWatch) 1 5 = 1 :=
    by with_unfolding_all rfl
  refine ⟨h1, h2, ?_⟩
  rw [h1, h2]
  norm_num

/-! ### C5: bulk sync re-run

The claim compares the graph after one bulk sync from an empty graph store
with the graph after a second bulk sync over unchanged relational data.  The
comparison is made through `GraphState.scrub`, which erases exactly the
`updated_at`-style timestamps (written as `datetime()` at sync time) and the
`INTERESTED_IN` score/count payloads, keeping everything else — node
property values, relationship property values drawn from relational rows,
and every relationship's endpoints. -/

theorem upsertK_eq_of_fixed {α κ : Type} [DecidableEq κ] (key : α → κ)
    (k : κ) (upd : α → α) (mk : α) (l : List α) (x : α)
    (hfind : lookupK key k l = some x) (hfix : upd x = x) :
    upsertK key k upd mk l = l := by
  induction l with
  | nil => simp [lookupK] at hfind
  | cons y ys ih =>
      rw [lookupK_cons] at hfind
      by_cases h : key y = k
      · simp only [h, if_true, Option.some.injEq] at hfind
        subst hfind
        simp [upsertK, h, hfix]
      · simp only [h, if_false] at hfind
        simp [upsertK, h, ih hfind]

theorem lookupK_isSome_of_mem_map_key {α κ : Type} [DecidableEq κ]
    (key : α → κ) (k : κ) (l : List α) (hmem : k ∈ l.map key) :
    ∃ x, lookupK key k l = some x := by
  induction l with
  | nil => simp at hmem
  | cons y ys ih =>
      rw [lookupK_cons]
      by_cases h : key y = k
      · exact ⟨y, by simp [h]⟩
      · simp only [h, if_false]
        rw [List.map_cons] at hmem
        rcases List.mem_cons.mp hmem with hmem2 | hmem2
        · exact absurd hmem2.symm h
        · exact ih hmem2

theorem mem_map_key_of_lookupK {α κ : Type} [DecidableEq κ]
    (key : α → κ) (k : κ) (l : List α) (x : α)
    (hfind : lookupK key k l = some x) : k ∈ l.map key := by
  induction l with
  | nil => simp [lookupK] at hfind
  | cons y ys ih =>
      rw [lookupK_cons] at hfind
      by_cases h : key y = k
      · simp [h]
      · simp only [h, if_false] at hfind
        simp [ih hfind]

theorem lookupK_map {α β κ : Type} [DecidableEq κ] (key : α → κ)
    (keyB : β → κ) (f : α → β) (hf : ∀ x, keyB (f x) = key x) (k : κ)
    (l : List α) :
    lookupK keyB k (l.map f) = (lookupK key k l).map f := by
  induction l with
  | nil => rfl
  | cons y ys ih =>
      rw [List.map_cons, lookupK_cons, lookupK_cons, hf]
      by_cases h : key y = k
      · simp [h]
      · simp [h, ih]

theorem mem_map_key_upsertK {α κ : Type} [DecidableEq κ] (key : α → κ)
    (k k' : κ) (upd : α → α) (mk : α) (l : List α)
    (hk : key mk = k') (hupd : ∀ x, key (upd x) = key x)
    (hmem : k ∈ l.map key) : k ∈ (upsertK key k' upd mk l).map key := by
  rw [map_key_upsertK key k' upd mk l hk hupd]
  by_cases h : k' ∈ l.map key
  · rw [if_pos h]; exact hmem
  · rw [if_neg h]; exact List.mem_append_left _ hmem

theorem mergeInterest_char (uid : UserId) (cid : CatId) (d : ℚ)
    (s : GraphState) :
    mergeInterest uid cid d s =
      { s with interests := mergeInterestL s.cats uid cid d s.interests } := by
  unfold mergeInterest mergeInterestL GraphState.findCat
  cases lookupK CatNode.categoryId cid s.cats <;> rfl

theorem foldMerge_char (uid : UserId) (d : ℚ) :
    ∀ (cats : List CatId) (s : GraphState),
      cats.foldl (fun s c => mergeInterest uid c d s) s =
        { s with interests := cats.foldl
                                (fun il c => mergeInterestL s.cats uid c d il)
                                s.interests } := by
  intro cats
  induction cats with
  | nil => intro s; rfl
  | cons c rest ih =>
      intro s
      rw [List.foldl_cons, List.foldl_cons, mergeInterest_char]
      rw [ih]

theorem syncWatch_none (w : RWatch) (s : GraphState)
    (h : s.findUser w.userId = none ∨ s.findVideo w.videoId = none) :
    syncWatch w s = s := by
  unfold syncWatch
  rcases h with h | h
  · rw [h]
  · rw [h]
    cases s.findUser w.userId <;> rfl

theorem syncWatch_some (w : RWatch) (s : GraphState) (un : UserNode)
    (v : VideoNode) (hu : s.findUser w.userId = some un)
    (hv : s.findVideo w.videoId = some v) :
    syncWatch w s =
      { s with
        watches := watchUpsert w s.watches,
        interests := (v.categories.getD []).foldl
                       (fun il c =>
                         mergeInterestL s.cats w.userId c w.watchTime il)
                       s.interests } := by
  unfold syncWatch
  rw [hu, hv]
  simp only
  rw [foldMerge_char]
  rfl

theorem syncLike_none (l : RLike) (s : GraphState)
    (h : s.findUser l.userId = none ∨ s.findVideo l.videoId = none) :
    syncLike l s = s := by
  unfold syncLike
  rcases h with h | h
  · rw [h]
  · rw [h]
    cases s.findUser l.userId <;> rfl

theorem syncLike_some (l : RLike) (s : GraphState) (un : UserNode)
    (v : VideoNode) (hu : s.findUser l.userId = some un)
    (hv : s.findVideo l.videoId = some v) :
    syncLike l s =
      { s with
        likes := likeUpsert l s.likes,
        interests := (v.categories.getD []).foldl
                       (fun il c => mergeInterestL s.cats l.userId c 2 il)
                       s.interests } := by
  unfold syncLike
  rw [hu, hv]
  simp only
  rw [foldMerge_char]
  rfl

theorem syncFollow_none (f : RFollow) (s : GraphState)
    (h : s.findUser f.followerId = none ∨ s.findUser f.followeeId = none) :
    syncFollow f s = s := by
  unfold syncFollow
  rcases h with h | h
  · rw [h]
  · rw [h]
    cases s.findUser f.followerId <;> rfl

theorem syncFollow_some (f : RFollow) (s : GraphState) (u1 u2 : UserNode)
    (h1 : s.findUser f.followerId = some u1)
    (h2 : s.findUser f.followeeId = some u2) :
    syncFollow f s = { s with follows := followUpsert f s.follows } := by
  unfold syncFollow
  rw [h1, h2]
  rfl

theorem syncVideo_fold_char (vid : VideoId) :
    ∀ (cids : List CatId) (s : GraphState),
      cids.foldl (fun s cid =>
        let cats := upsertK CatNode.categoryId cid
          (fun n => n) { categoryId := cid } s.cats
        let s := { s with cats := cats }
        let bt := upsertK BelongsToRel.key
          (vid, cid) (fun e => e)
          { video := vid, category := cid } s.belongsTo
        { s with belongsTo := bt }) s =
      { s with
        cats := (catsBelongsFold vid cids (s.cats, s.belongsTo)).1,
        belongsTo := (catsBelongsFold vid cids (s.cats, s.belongsTo)).2 } := by
  intro cids
  induction cids with
  | nil => intro s; rfl
  | cons cid rest ih =>
      intro s
      rw [List.foldl_cons]
      rw [ih]
      rfl

theorem syncVideo_char (now : Time) (v : RVideo) (s : GraphState) :
    syncVideo now v s =
      { s with
        videos := videoUpsert now v s.videos,
        users := upsertK UserNode.userId v.creatorId (fun n => n)
          { userId := v.creatorId } s.users,
        createdBy := upsertK CreatedByRel.key (v.videoId, v.creatorId)
          (fun e => e) { video := v.videoId, creator := v.creatorId }
          s.createdBy,
        cats := (catsBelongsFold v.videoId v.categoryIds
          (s.cats, s.belongsTo)).1,
        belongsTo := (catsBelongsFold v.videoId v.categoryIds
          (s.cats, s.belongsTo)).2 } := by
  simp only [syncVideo]
  rw [syncVideo_fold_char v.videoId v.categoryIds]
  rfl

theorem map_key_map_scrub {α κ : Type} (key : α → κ) (f : α → α)
    (hf : ∀ x, key (f x) = key x) (l : List α) :
    (l.map f).map key = l.map key := by
  rw [List.map_map]
  exact List.map_congr_left (fun x _ => hf x)

theorem scrubUser_key (n : UserNode) : (scrubUser n).userId = n.userId := rfl

theorem scrubVideo_key (n : VideoNode) :
    (scrubVideo n).videoId = n.videoId := rfl

theorem scrubCat_key (n : CatNode) :
    (scrubCat n).categoryId = n.categoryId := rfl

theorem scrubPCat_key (n : PCatNode) :
    (scrubPCat n).parentCategoryId = n.parentCategoryId := rfl

theorem scrubSimilar_key (e : SimilarToRel) :
    (scrubSimilar e).skey = e.skey := rfl

/-- Re-running `sync_user_to_neo4j` over a user whose node already carries
the synced username changes only the `updated_at` timestamp. -/
theorem syncUser_scrub (now : Time) (u : RUser) (s : GraphState)
    (hf : ∃ n, lookupK UserNode.userId u.id s.scrub.users = some n ∧
      n.username = some u.username) :
    (syncUser now u s).scrub = s.scrub := by
  obtain ⟨n, hn, hname⟩ := hf
  rw [show s.scrub.users = s.users.map scrubUser from rfl,
    lookupK_map UserNode.userId UserNode.userId scrubUser scrubUser_key]
    at hn
  cases hx : lookupK UserNode.userId u.id s.users with
  | none => rw [hx] at hn; exact Option.noConfusion hn
  | some x =>
      rw [hx] at hn
      have hxn : scrubUser x = n := Option.some.inj hn
      have husername : x.username = some u.username := by
        have h2 : (scrubUser x).username = n.username :=
          congrArg UserNode.username hxn
        rw [show (scrubUser x).username = x.username from rfl] at h2
        rw [h2, hname]
      have hval : scrubUser ({ x with username := some u.username,
                                      updatedAt := some now }) = scrubUser x := by
        unfold scrubUser
        rw [husername]
      simp only [syncUser, GraphState.scrub]
      congr 1
      exact map_upsertK_of_lookup UserNode.userId u.id _ _ s.users scrubUser
        x hx hval

/-- Re-running the parent-category half of `sync_categories_to_neo4j`
changes only the timestamp. -/
theorem syncParentCategory_scrub (now : Time) (pc : RParentCategory)
    (s : GraphState)
    (hf : ∃ n, lookupK PCatNode.parentCategoryId pc.parentCategoryId
        s.scrub.pcats = some n ∧ n.name = some pc.name) :
    (syncParentCategory now pc s).scrub = s.scrub := by
  obtain ⟨n, hn, hname⟩ := hf
  rw [show s.scrub.pcats = s.pcats.map scrubPCat from rfl,
    lookupK_map PCatNode.parentCategoryId PCatNode.parentCategoryId scrubPCat
      scrubPCat_key] at hn
  cases hx : lookupK PCatNode.parentCategoryId pc.parentCategoryId s.pcats with
  | none => rw [hx] at hn; exact Option.noConfusion hn
  | some x =>
      rw [hx] at hn
      have hxn : scrubPCat x = n := Option.some.inj hn
      have hpname : x.name = some pc.name := by
        have h2 : (scrubPCat x).name = n.name := congrArg PCatNode.name hxn
        rw [show (scrubPCat x).name = x.name from rfl] at h2
        rw [h2, hname]
      have hval : scrubPCat ({ x with name := some pc.name,
                                      updatedAt := some now }) = scrubPCat x := by
        unfold scrubPCat
        rw [hpname]
      simp only [syncParentCategory, GraphState.scrub]
      congr 1
      exact map_upsertK_of_lookup PCatNode.parentCategoryId
        pc.parentCategoryId _ _ s.pcats scrubPCat x hx hval

/-- Re-running the category half of `sync_categories_to_neo4j` changes only
the timestamp: the value `SET` rewrites the synced values, and the two bare
merges find their targets. -/
theorem syncCategory_scrub (now : Time) (c : RCategory) (s : GraphState)
    (hcat : ∃ n, lookupK CatNode.categoryId c.categoryId s.scrub.cats =
      some n ∧ n.name = some c.name ∧
      n.parentCategory = some c.parentCategoryId)
    (hpc : c.parentCategoryId ∈ s.scrub.pcats.map PCatNode.parentCategoryId)
    (hpo : (c.categoryId, c.parentCategoryId) ∈
      s.scrub.parentOf.map ParentOfRel.key) :
    (syncCategory now c s).scrub = s.scrub := by
  obtain ⟨n, hn, hname, hpar⟩ := hcat
  rw [show s.scrub.cats = s.cats.map scrubCat from rfl,
    lookupK_map CatNode.categoryId CatNode.categoryId scrubCat scrubCat_key]
    at hn
  rw [show s.scrub.pcats = s.pcats.map scrubPCat from rfl,
    map_key_map_scrub PCatNode.parentCategoryId scrubPCat scrubPCat_key]
    at hpc
  obtain ⟨y, hy⟩ := lookupK_isSome_of_mem_map_key PCatNode.parentCategoryId
    c.parentCategoryId s.pcats hpc
  obtain ⟨z, hz⟩ := lookupK_isSome_of_mem_map_key ParentOfRel.key
    (c.categoryId, c.parentCategoryId) s.parentOf hpo
  cases hx : lookupK CatNode.categoryId c.categoryId s.cats with
  | none => rw [hx] at hn; exact Option.noConfusion hn
  | some x =>
      rw [hx] at hn
      have hxn : scrubCat x = n := Option.some.inj hn
      have hnameeq : x.name = some c.name := by
        have h2 : (scrubCat x).name = n.name := congrArg CatNode.name hxn
        rw [show (scrubCat x).name = x.name from rfl] at h2
        rw [h2, hname]
      have hpareq : x.parentCategory = some c.parentCategoryId := by
        have h2 : (scrubCat x).parentCategory = n.parentCategory :=
          congrArg CatNode.parentCategory hxn
        rw [show (scrubCat x).parentCategory = x.parentCategory from rfl] at h2
        rw [h2, hpar]
      have hval : scrubCat ({ x with name := some c.name,
                                     parentCategory := some c.parentCategoryId,
                                     updatedAt := some now }) = scrubCat x := by
        unfold scrubCat
        rw [hnameeq, hpareq]
      simp only [syncCategory, GraphState.scrub]
      rw [upsertK_id_of_mem PCatNode.parentCategoryId c.parentCategoryId
        _ s.pcats y hy]
      rw [upsertK_id_of_mem ParentOfRel.key (c.categoryId, c.parentCategoryId)
        _ s.parentOf z hz]
      congr 1
      exact map_upsertK_of_lookup CatNode.categoryId c.categoryId _ _ s.cats
        scrubCat x hx hval

theorem catsBelongsFold_id (vid : VideoId) :
    ∀ (cids : List CatId) (cl : List CatNode) (bl : List BelongsToRel),
      (∀ cid ∈ cids, cid ∈ cl.map CatNode.categoryId ∧
        (vid, cid) ∈ bl.map BelongsToRel.key) →
      catsBelongsFold vid cids (cl, bl) = (cl, bl) := by
  intro cids
  induction cids with
  | nil => intro cl bl hf; rfl
  | cons cid rest ih =>
      intro cl bl hf
      obtain ⟨hc, hb⟩ := hf cid (List.mem_cons_self cid rest)
      obtain ⟨y, hy⟩ := lookupK_isSome_of_mem_map_key CatNode.categoryId cid
        cl hc
      obtain ⟨z, hz⟩ := lookupK_isSome_of_mem_map_key BelongsToRel.key
        (vid, cid) bl hb
      unfold catsBelongsFold
      rw [List.foldl_cons]
      rw [upsertK_id_of_mem CatNode.categoryId cid _ cl y hy]
      rw [upsertK_id_of_mem BelongsToRel.key (vid, cid) _ bl z hz]
      exact ih cl bl (fun q hq => hf q (List.mem_cons_of_mem cid hq))

/-- Re-running `sync_video_to_neo4j` over a synced video changes only the
timestamp. -/
theorem syncVideo_scrub (now : Time) (v : RVideo) (s : GraphState)
    (hvid : ∃ n, lookupK VideoNode.videoId v.videoId s.scrub.videos =
      some n ∧ n.title = some v.title ∧ n.categories = some v.categoryIds ∧
      n.parentCategories = some v.parentCategoryIds)
    (hcreator : v.creatorId ∈ s.scrub.users.map UserNode.userId)
    (hcb : (v.videoId, v.creatorId) ∈ s.scrub.createdBy.map CreatedByRel.key)
    (hcats : ∀ c ∈ v.categoryIds, c ∈ s.scrub.cats.map CatNode.categoryId)
    (hbel : ∀ c ∈ v.categoryIds,
      (v.videoId, c) ∈ s.scrub.belongsTo.map BelongsToRel.key) :
    (syncVideo now v s).scrub = s.scrub := by
  obtain ⟨n, hn, htitle, hcat, hpcat⟩ := hvid
  rw [show s.scrub.videos = s.videos.map scrubVideo from rfl,
    lookupK_map VideoNode.videoId VideoNode.videoId scrubVideo scrubVideo_key]
    at hn
  rw [show s.scrub.users = s.users.map scrubUser from rfl,
    map_key_map_scrub UserNode.userId scrubUser scrubUser_key] at hcreator
  obtain ⟨y, hy⟩ := lookupK_isSome_of_mem_map_key UserNode.userId v.creatorId
    s.users hcreator
  obtain ⟨z, hz⟩ := lookupK_isSome_of_mem_map_key CreatedByRel.key
    (v.videoId, v.creatorId) s.createdBy hcb
  have hfold : catsBelongsFold v.videoId v.categoryIds
      (s.cats, s.belongsTo) = (s.cats, s.belongsTo) := by
    refine catsBelongsFold_id v.videoId v.categoryIds s.cats s.belongsTo ?_
    intro cid hcid
    refine ⟨?_, hbel cid hcid⟩
    have := hcats cid hcid
    rw [show s.scrub.cats = s.cats.map scrubCat from rfl,
      map_key_map_scrub CatNode.categoryId scrubCat scrubCat_key] at this
    exact this
  cases hx : lookupK VideoNode.videoId v.videoId s.videos with
  | none => rw [hx] at hn; exact Option.noConfusion hn
  | some x =>
      rw [hx] at hn
      have hxn : scrubVideo x = n := Option.some.inj hn
      have htitleeq : x.title = some v.title := by
        have h2 : (scrubVideo x).title = n.title := congrArg VideoNode.title hxn
        rw [show (scrubVideo x).title = x.title from rfl] at h2
        rw [h2, htitle]
      have hcateq : x.categories = some v.categoryIds := by
        have h2 : (scrubVideo x).categories = n.categories :=
          congrArg VideoNode.categories hxn
        rw [show (scrubVideo x).categories = x.categories from rfl] at h2
        rw [h2, hcat]
      have hpcateq : x.parentCategories = some v.parentCategoryIds := by
        have h2 : (scrubVideo x).parentCategories = n.parentCategories :=
          congrArg VideoNode.parentCategories hxn
        rw [show (scrubVideo x).parentCategories = x.parentCategories
          from rfl] at h2
        rw [h2, hpcat]
      have hval : scrubVideo ({ x with title := some v.title,
                                       categories := some v.categoryIds,
                                       parentCategories := some v.parentCategoryIds,
                                       updatedAt := some now }) = scrubVideo x := by
        unfold scrubVideo
        rw [htitleeq, hcateq, hpcateq]
      rw [syncVideo_char]
      simp only [GraphState.scrub, hfold]
      rw [upsertK_id_of_mem UserNode.userId v.creatorId _ s.users y hy]
      rw [upsertK_id_of_mem CreatedByRel.key (v.videoId, v.creatorId) _
        s.createdBy z hz]
      congr 1
      exact map_upsertK_of_lookup VideoNode.videoId v.videoId _ _ s.videos
        scrubVideo x hx hval

theorem foldMergeL_keys (catsL : List CatNode) (uid : UserId) (d : ℚ) :
    ∀ (cids : List CatId) (il : List InterestedInRel),
      (∀ c ∈ cids, c ∈ catsL.map CatNode.categoryId →
        (uid, c) ∈ il.map InterestedInRel.key) →
      (cids.foldl (fun il c => mergeInterestL catsL uid c d il) il).map
        InterestedInRel.key = il.map InterestedInRel.key := by
  intro cids
  induction cids with
  | nil => intro il hfa; rfl
  | cons c rest ih =>
      intro il hfa
      have hstep : (mergeInterestL catsL uid c d il).map InterestedInRel.key =
          il.map InterestedInRel.key := by
        unfold mergeInterestL
        cases hc : lookupK CatNode.categoryId c catsL with
        | none => rfl
        | some y =>
            have hcm : c ∈ catsL.map CatNode.categoryId :=
              mem_map_key_of_lookupK CatNode.categoryId c catsL y hc
            have hik := hfa c (List.mem_cons_self c rest) hcm
            obtain ⟨e, he⟩ := lookupK_isSome_of_mem_map_key
              InterestedInRel.key (uid, c) il hik
            exact map_upsertK_of_lookup InterestedInRel.key (uid, c) _ _ il
              InterestedInRel.key e he rfl
      rw [List.foldl_cons]
      have hrest := ih (mergeInterestL catsL uid c d il)
        (fun q hq hqc => by
          rw [hstep]
          exact hfa q (List.mem_cons_of_mem c hq) hqc)
      exact hrest.trans hstep

/-- Re-running `sync_watch_to_neo4j` over an already-synced watch rewrites
the `WATCHES` payload to the values it already has and re-fires the
`INTERESTED_IN` merges without creating a new edge, so nothing but the
interest score/count payloads (already erased by `scrub`) changes. -/
theorem syncWatch_scrub (w : RWatch) (s : GraphState)
    (hf : ∀ mv, lookupK VideoNode.videoId w.videoId s.scrub.videos = some mv →
      w.userId ∈ s.scrub.users.map UserNode.userId →
        lookupK WatchesRel.key (w.userId, w.videoId) s.scrub.watches =
          some { user := w.userId, video := w.videoId,
                 watchTime := w.watchTime, timestamp := w.timestamp } ∧
        ∀ c ∈ mv.categories.getD [], c ∈ s.scrub.cats.map CatNode.categoryId →
          (w.userId, c) ∈ s.scrub.interestKeys) :
    (syncWatch w s).scrub = s.scrub := by
  cases hu : s.findUser w.userId with
  | none => rw [syncWatch_none w s (Or.inl hu)]
  | some un =>
      cases hv : s.findVideo w.videoId with
      | none => rw [syncWatch_none w s (Or.inr hv)]
      | some v =>
          have hvm : lookupK VideoNode.videoId w.videoId s.scrub.videos =
              some (scrubVideo v) := by
            rw [show s.scrub.videos = s.videos.map scrubVideo from rfl,
              lookupK_map VideoNode.videoId VideoNode.videoId scrubVideo
                scrubVideo_key]
            rw [show lookupK VideoNode.videoId w.videoId s.videos =
              s.findVideo w.videoId from rfl, hv]
            rfl
          have hum : w.userId ∈ s.scrub.users.map UserNode.userId := by
            rw [show s.scrub.users = s.users.map scrubUser from rfl,
              map_key_map_scrub UserNode.userId scrubUser scrubUser_key]
            exact mem_map_key_of_lookupK UserNode.userId w.userId s.users un hu
          obtain ⟨hwl, hik⟩ := hf (scrubVideo v) hvm hum
          have hfix : watchUpsert w s.watches = s.watches := by
            exact upsertK_eq_of_fixed WatchesRel.key (w.userId, w.videoId) _ _
              s.watches _ hwl rfl
          have hkeys : ((v.categories.getD []).foldl
              (fun il c => mergeInterestL s.cats w.userId c w.watchTime il)
              s.interests).map InterestedInRel.key =
              s.interests.map InterestedInRel.key := by
            refine foldMergeL_keys s.cats w.userId w.watchTime
              (v.categories.getD []) s.interests ?_
            intro c hc hcm
            refine hik c ?_ ?_
            · exact hc
            · rw [show s.scrub.cats = s.cats.map scrubCat from rfl,
                map_key_map_scrub CatNode.categoryId scrubCat scrubCat_key]
              exact hcm
          rw [syncWatch_some w s un v hu hv, hfix]
          simp only [GraphState.scrub]
          congr 1

/-- Re-running `sync_like_to_neo4j` over an already-synced like is likewise
invisible through `scrub`. -/
theorem syncLike_scrub (l : RLike) (s : GraphState)
    (hf : ∀ mv, lookupK VideoNode.videoId l.videoId s.scrub.videos = some mv →
      l.userId ∈ s.scrub.users.map UserNode.userId →
        lookupK LikesRel.key (l.userId, l.videoId) s.scrub.likes =
          some { user := l.userId, video := l.videoId,
                 timestamp := l.timestamp } ∧
        ∀ c ∈ mv.categories.getD [], c ∈ s.scrub.cats.map CatNode.categoryId →
          (l.userId, c) ∈ s.scrub.interestKeys) :
    (syncLike l s).scrub = s.scrub := by
  cases hu : s.findUser l.userId with
  | none => rw [syncLike_none l s (Or.inl hu)]
  | some un =>
      cases hv : s.findVideo l.videoId with
      | none => rw [syncLike_none l s (Or.inr hv)]
      | some v =>
          have hvm : lookupK VideoNode.videoId l.videoId s.scrub.videos =
              some (scrubVideo v) := by
            rw [show s.scrub.videos = s.videos.map scrubVideo from rfl,
              lookupK_map VideoNode.videoId VideoNode.videoId scrubVideo
                scrubVideo_key]
            rw [show lookupK VideoNode.videoId l.videoId s.videos =
              s.findVideo l.videoId from rfl, hv]
            rfl
          have hum : l.userId ∈ s.scrub.users.map UserNode.userId := by
            rw [show s.scrub.users = s.users.map scrubUser from rfl,
              map_key_map_scrub UserNode.userId scrubUser scrubUser_key]
            exact mem_map_key_of_lookupK UserNode.userId l.userId s.users un hu
          obtain ⟨hll, hik⟩ := hf (scrubVideo v) hvm hum
          have hfix : likeUpsert l s.likes = s.likes := by
            exact upsertK_eq_of_fixed LikesRel.key (l.userId, l.videoId) _ _
              s.likes _ hll rfl
          have hkeys : ((v.categories.getD []).foldl
              (fun il c => mergeInterestL s.cats l.userId c 2 il)
              s.interests).map InterestedInRel.key =
              s.interests.map InterestedInRel.key := by
            refine foldMergeL_keys s.cats l.userId 2
              (v.categories.getD []) s.interests ?_
            intro c hc hcm
            refine hik c ?_ ?_
            · exact hc
            · rw [show s.scrub.cats = s.cats.map scrubCat from rfl,
                map_key_map_scrub CatNode.categoryId scrubCat scrubCat_key]
              exact hcm
          rw [syncLike_some l s un v hu hv, hfix]
          simp only [GraphState.scrub]
          congr 1

/-- Re-running `sync_follow_to_neo4j` over an already-synced follow rewrites
the `FOLLOWS` timestamp to the value it already has. -/
theorem syncFollow_scrub (f : RFollow) (s : GraphState)
    (hf : f.followerId ∈ s.scrub.users.map UserNode.userId →
      f.followeeId ∈ s.scrub.users.map UserNode.userId →
      lookupK FollowsRel.key (f.followerId, f.followeeId) s.scrub.follows =
        some { follower := f.followerId, followee := f.followeeId,
               timestamp := f.timestamp }) :
    (syncFollow f s).scrub = s.scrub := by
  cases h1 : s.findUser f.followerId with
  | none => rw [syncFollow_none f s (Or.inl h1)]
  | some u1 =>
      cases h2 : s.findUser f.followeeId with
      | none => rw [syncFollow_none f s (Or.inr h2)]
      | some u2 =>
          have hm1 : f.followerId ∈ s.scrub.users.map UserNode.userId := by
            rw [show s.scrub.users = s.users.map scrubUser from rfl,
              map_key_map_scrub UserNode.userId scrubUser scrubUser_key]
            exact mem_map_key_of_lookupK UserNode.userId f.followerId s.users
              u1 h1
          have hm2 : f.followeeId ∈ s.scrub.users.map UserNode.userId := by
            rw [show s.scrub.users = s.users.map scrubUser from rfl,
              map_key_map_scrub UserNode.userId scrubUser scrubUser_key]
            exact mem_map_key_of_lookupK UserNode.userId f.followeeId s.users
              u2 h2
          have hfix : followUpsert f s.follows = s.follows := by
            exact upsertK_eq_of_fixed FollowsRel.key
              (f.followerId, f.followeeId) _ _ s.follows _ (hf hm1 hm2) rfl
          rw [syncFollow_some f s u1 u2 h1 h2, hfix]

theorem pairKey_eq_iff (p q : VideoNode × VideoNode)
    (hp : p.1.videoId < p.2.videoId) (hq : q.1.videoId < q.2.videoId)
    (h : pairKey p = pairKey q) :
    p.1.videoId = q.1.videoId ∧ p.2.videoId = q.2.videoId := by
  unfold pairKey spair at h
  rw [min_eq_left (le_of_lt hp), max_eq_right (le_of_lt hp),
      min_eq_left (le_of_lt hq), max_eq_right (le_of_lt hq)] at h
  exact ⟨congrArg Prod.fst h, congrArg Prod.snd h⟩

theorem videoPairs_key_inj (vs : List VideoNode)
    (hnd : (vs.map VideoNode.videoId).Nodup) :
    ∀ p ∈ videoPairs vs, ∀ q ∈ videoPairs vs,
      pairKey p = pairKey q → p = q := by
  intro p hp q hq h
  rw [mem_videoPairs] at hp hq
  obtain ⟨hp1, hp2, hplt⟩ := hp
  obtain ⟨hq1, hq2, hqlt⟩ := hq
  obtain ⟨h1, h2⟩ := pairKey_eq_iff p q hplt hqlt h
  have e1 : p.1 = q.1 := List.inj_on_of_nodup_map hnd hp1 hq1 h1
  have e2 : p.2 = q.2 := List.inj_on_of_nodup_map hnd hp2 hq2 h2
  exact Prod.ext e1 e2

theorem simFold_scrub (now : Time) :
    ∀ (ps : List (VideoNode × VideoNode)) (sl : List SimilarToRel),
      (∀ p ∈ ps, ∀ c1 c2 : List CatId, p.1.categories = some c1 →
        p.2.categories = some c2 → (3 : ℚ)/10 ≤ catSim c1 c2 →
        ∃ e, lookupK SimilarToRel.skey (pairKey p) sl = some e ∧
          e.similarity = catSim c1 c2) →
      (∀ p ∈ ps, ∀ q ∈ ps, pairKey p = pairKey q → p = q) →
      (ps.foldl (simUpd now) sl).map scrubSimilar = sl.map scrubSimilar := by
  intro ps
  induction ps with
  | nil => intro sl hfa hinj; rfl
  | cons p rest ih =>
      intro sl hfa hinj
      rw [List.foldl_cons]
      have hinj' : ∀ a ∈ rest, ∀ b ∈ rest, pairKey a = pairKey b → a = b :=
        fun a ha b hb => hinj a (List.mem_cons_of_mem p ha) b
          (List.mem_cons_of_mem p hb)
      cases hc1 : p.1.categories with
      | none =>
          have hid : simUpd now sl p = sl := by
            unfold simUpd
            rw [hc1]
          rw [hid]
          exact ih sl (fun q hq => hfa q (List.mem_cons_of_mem p hq)) hinj'
      | some c1 =>
          cases hc2 : p.2.categories with
          | none =>
              have hid : simUpd now sl p = sl := by
                unfold simUpd
                rw [hc1, hc2]
              rw [hid]
              exact ih sl (fun q hq => hfa q (List.mem_cons_of_mem p hq)) hinj'
          | some c2 =>
              by_cases hge : (3 : ℚ)/10 ≤ catSim c1 c2
              · obtain ⟨e, he, hesim⟩ := hfa p (List.mem_cons_self p rest)
                  c1 c2 hc1 hc2 hge
                have hid : simUpd now sl p =
                    upsertK SimilarToRel.skey (spair p.1.videoId p.2.videoId)
                      (fun e => { e with similarity := catSim c1 c2,
                                         updatedAt := some now })
                      { a := p.1.videoId, b := p.2.videoId,
                        similarity := catSim c1 c2, updatedAt := some now }
                      sl := by
                  unfold simUpd
                  rw [hc1, hc2]
                  simp only
                  rw [if_pos hge]
                have hval : scrubSimilar ({ e with similarity := catSim c1 c2,
                                                   updatedAt := some now }) =
                    scrubSimilar e := by
                  unfold scrubSimilar
                  rw [← hesim]
                have hmap : (simUpd now sl p).map scrubSimilar =
                    sl.map scrubSimilar := by
                  rw [hid]
                  exact map_upsertK_of_lookup SimilarToRel.skey
                    (spair p.1.videoId p.2.videoId) _ _ sl scrubSimilar e
                    he hval
                have hfa' : ∀ q ∈ rest, ∀ c1' c2' : List CatId,
                    q.1.categories = some c1' → q.2.categories = some c2' →
                    (3 : ℚ)/10 ≤ catSim c1' c2' →
                    ∃ e', lookupK SimilarToRel.skey (pairKey q)
                        (simUpd now sl p) = some e' ∧
                      e'.similarity = catSim c1' c2' := by
                  intro q hq c1' c2' hq1 hq2 hge'
                  by_cases hk : pairKey q = pairKey p
                  · have hqp : q = p := hinj q (List.mem_cons_of_mem p hq) p
                      (List.mem_cons_self p rest) hk
                    subst hqp
                    have e1 : c1' = c1 :=
                      Option.some.inj ((hq1.symm).trans hc1)
                    have e2 : c2' = c2 :=
                      Option.some.inj ((hq2.symm).trans hc2)
                    subst e1
                    subst e2
                    refine ⟨{ e with similarity := catSim c1' c2',
                                     updatedAt := some now }, ?_, rfl⟩
                    rw [hid]
                    rw [show pairKey q = spair q.1.videoId q.2.videoId
                      from rfl]
                    rw [lookupK_upsertK_self SimilarToRel.skey
                      (spair q.1.videoId q.2.videoId)
                      (fun e => { e with similarity := catSim c1' c2',
                                         updatedAt := some now })
                      ({ a := q.1.videoId, b := q.2.videoId,
                         similarity := catSim c1' c2',
                         updatedAt := some now }) sl rfl
                      (fun x => rfl)]
                    rw [show pairKey q = spair q.1.videoId q.2.videoId
                      from rfl] at he
                    rw [he]
                    rfl
                  · rw [simUpd_lookup_ne now sl p (pairKey q)
                      (fun hh => hk hh.symm)]
                    exact hfa q (List.mem_cons_of_mem p hq) c1' c2' hq1 hq2
                      hge'
                have := ih (simUpd now sl p) hfa' hinj'
                exact this.trans hmap
              · have hid : simUpd now sl p = sl := by
                  unfold simUpd
                  rw [hc1, hc2]
                  simp only
                  rw [if_neg hge]
                rw [hid]
                exact ih sl (fun q hq => hfa q (List.mem_cons_of_mem p hq))
                  hinj'

/-- Re-running `compute_video_similarities` over an already-computed store
rewrites each qualifying `SIMILAR_TO` edge to the similarity it already
carries, changing only `updated_at`. -/
theorem computeVideoSimilarities_scrub (now : Time) (s : GraphState)
    (hnd : (s.videos.map VideoNode.videoId).Nodup)
    (hfa : ∀ p ∈ videoPairs s.videos, ∀ c1 c2 : List CatId,
      p.1.categories = some c1 → p.2.categories = some c2 →
      (3 : ℚ)/10 ≤ catSim c1 c2 →
      ∃ e, lookupK SimilarToRel.skey (pairKey p) s.similar = some e ∧
        e.similarity = catSim c1 c2) :
    (computeVideoSimilarities now s).scrub = s.scrub := by
  simp only [computeVideoSimilarities, GraphState.scrub]
  congr 1
  exact simFold_scrub now (videoPairs s.videos) s.similar hfa
    (videoPairs_key_inj s.videos hnd)

theorem lookupK_key_eq {α κ : Type} [DecidableEq κ] (key : α → κ) (k : κ)
    (l : List α) (x : α) (h : lookupK key k l = some x) : key x = k := by
  have := List.find?_some h
  simpa using this

theorem lookupK_upsertK_bare {α κ : Type} [DecidableEq κ] (key : α → κ)
    (k k' : κ) (mk : α) (l : List α) (x : α)
    (hx : lookupK key k l = some x) :
    lookupK key k (upsertK key k' (fun y => y) mk l) = some x := by
  induction l with
  | nil => simp [lookupK] at hx
  | cons y ys ih =>
      rw [lookupK_cons] at hx
      unfold upsertK
      by_cases hky : key y = k'
      · rw [if_pos hky, lookupK_cons]
        exact hx
      · rw [if_neg hky, lookupK_cons]
        by_cases hk2 : key y = k
        · rw [if_pos hk2] at hx ⊢
          exact hx
        · rw [if_neg hk2] at hx ⊢
          exact ih hx

theorem self_mem_map_key_upsertK {α κ : Type} [DecidableEq κ] (key : α → κ)
    (k : κ) (upd : α → α) (mk : α) (l : List α)
    (hk : key mk = k) (hupd : ∀ x, key (upd x) = key x) :
    k ∈ (upsertK key k upd mk l).map key := by
  rw [map_key_upsertK key k upd mk l hk hupd]
  by_cases h : k ∈ l.map key
  · rw [if_pos h]; exact h
  · rw [if_neg h]
    exact List.mem_append_right _ (List.mem_singleton.mpr rfl)

theorem foldl_comp_frame {X A : Type} (op : X → GraphState → GraphState)
    (proj : GraphState → A) (hop : ∀ x s, proj (op x s) = proj s) :
    ∀ (xs : List X) (s : GraphState),
      proj (xs.foldl (fun s x => op x s) s) = proj s := by
  intro xs
  induction xs with
  | nil => intro s; rfl
  | cons x rest ih =>
      intro s
      rw [List.foldl_cons]
      exact (ih (op x s)).trans (hop x s)

theorem foldl_pres {X : Type} (op : X → GraphState → GraphState)
    (P : GraphState → Prop) (hop : ∀ x s, P s → P (op x s)) :
    ∀ (xs : List X) (s : GraphState),
      P s → P (xs.foldl (fun s x => op x s) s) := by
  intro xs
  induction xs with
  | nil => intro s h; exact h
  | cons x rest ih =>
      intro s h
      rw [List.foldl_cons]
      exact ih (op x s) (hop x s h)

theorem foldPhase_scrub {X : Type} (op : X → GraphState → GraphState)
    (F : X → ScrubbedGraph → Prop)
    (hop : ∀ x s, F x s.scrub → (op x s).scrub = s.scrub) :
    ∀ (xs : List X) (s : GraphState), (∀ x ∈ xs, F x s.scrub) →
      (xs.foldl (fun s x => op x s) s).scrub = s.scrub := by
  intro xs
  induction xs with
  | nil => intro s h; rfl
  | cons x rest ih =>
      intro s h
      rw [List.foldl_cons]
      have hx := hop x s (h x (List.mem_cons_self x rest))
      have hrest := ih (op x s) (fun y hy => by
        rw [hx]
        exact h y (List.mem_cons_of_mem x hy))
      exact hrest.trans hx

theorem simFa_of_scrubF (s : GraphState)
    (hsim : ∀ p ∈ videoPairs s.scrub.videos, ∀ c1 c2 : List CatId,
      p.1.categories = some c1 → p.2.categories = some c2 →
      (3 : ℚ)/10 ≤ catSim c1 c2 →
      ∃ e, lookupK SimilarToRel.skey (pairKey p) s.scrub.similar = some e ∧
        e.similarity = catSim c1 c2) :
    ∀ p ∈ videoPairs s.videos, ∀ c1 c2 : List CatId,
      p.1.categories = some c1 → p.2.categories = some c2 →
      (3 : ℚ)/10 ≤ catSim c1 c2 →
      ∃ e, lookupK SimilarToRel.skey (pairKey p) s.similar = some e ∧
        e.similarity = catSim c1 c2 := by
  intro p hp c1 c2 hc1 hc2 hge
  rw [mem_videoPairs] at hp
  obtain ⟨hp1, hp2, hplt⟩ := hp
  have hp' : (scrubVideo p.1, scrubVideo p.2) ∈ videoPairs s.scrub.videos := by
    rw [show s.scrub.videos = s.videos.map scrubVideo from rfl,
      mem_videoPairs]
    exact ⟨List.mem_map_of_mem scrubVideo hp1,
      List.mem_map_of_mem scrubVideo hp2, hplt⟩
  obtain ⟨e', he', hsim'⟩ := hsim (scrubVideo p.1, scrubVideo p.2) hp' c1 c2
    hc1 hc2 hge
  rw [show pairKey (scrubVideo p.1, scrubVideo p.2) = pairKey p from rfl,
    show s.scrub.similar = s.similar.map scrubSimilar from rfl,
    lookupK_map SimilarToRel.skey SimilarToRel.skey scrubSimilar
      scrubSimilar_key] at he'
  cases hraw : lookupK SimilarToRel.skey (pairKey p) s.similar with
  | none => rw [hraw] at he'; exact Option.noConfusion he'
  | some e =>
      rw [hraw] at he'
      have hee : scrubSimilar e = e' := Option.some.inj he'
      refine ⟨e, rfl, ?_⟩
      have := congrArg SimilarToRel.similarity hee
      rw [show (scrubSimilar e).similarity = e.similarity from rfl] at this
      rw [this, hsim']

/-- A second full bulk sync over a state whose scrubbed view already holds
all the synced facts is invisible through `scrub`. -/
theorem bulkSync_scrub (t : Time) (db : RelationalDB) (s : GraphState)
    (hnd : (s.videos.map VideoNode.videoId).Nodup)
    (hf : SyncFacts db s.scrub) :
    (bulkSyncAllData t db s).scrub = s.scrub := by
  have h1 : ((db.parentCategories.foldl
      (fun s pc => syncParentCategory t pc s) s)).scrub = s.scrub :=
    foldPhase_scrub (fun pc s => syncParentCategory t pc s)
      (fun pc σ => ∃ n, lookupK PCatNode.parentCategoryId pc.parentCategoryId
        σ.pcats = some n ∧ n.name = some pc.name)
      (fun pc s h => syncParentCategory_scrub t pc s h)
      db.parentCategories s (fun pc hpc => hf.pcatF pc hpc)
  set s1 := db.parentCategories.foldl (fun s pc => syncParentCategory t pc s) s
    with hs1
  have h2 : ((db.categories.foldl (fun s c => syncCategory t c s) s1)).scrub =
      s1.scrub :=
    foldPhase_scrub (fun c s => syncCategory t c s)
      (fun c σ => (∃ n, lookupK CatNode.categoryId c.categoryId σ.cats =
          some n ∧ n.name = some c.name ∧
          n.parentCategory = some c.parentCategoryId) ∧
        c.parentCategoryId ∈ σ.pcats.map PCatNode.parentCategoryId ∧
        (c.categoryId, c.parentCategoryId) ∈ σ.parentOf.map ParentOfRel.key)
      (fun c s h => syncCategory_scrub t c s h.1 h.2.1 h.2.2)
      db.categories s1 (fun c hc => by
        rw [h1]
        exact ⟨hf.catF c hc, hf.catPcatF c hc, hf.parentOfF c hc⟩)
  set s2 := db.categories.foldl (fun s c => syncCategory t c s) s1 with hs2
  have h2' : s2.scrub = s.scrub := h2.trans h1
  have h3 : ((db.users.foldl (fun s u => syncUser t u s) s2)).scrub =
      s2.scrub :=
    foldPhase_scrub (fun u s => syncUser t u s)
      (fun u σ => ∃ n, lookupK UserNode.userId u.id σ.users = some n ∧
        n.username = some u.username)
      (fun u s h => syncUser_scrub t u s h)
      db.users s2 (fun u hu => by
        rw [h2']
        exact hf.userF u hu)
  set s3 := db.users.foldl (fun s u => syncUser t u s) s2 with hs3
  have h3' : s3.scrub = s.scrub := h3.trans h2'
  have h4 : ((db.videos.foldl (fun s v => syncVideo t v s) s3)).scrub =
      s3.scrub :=
    foldPhase_scrub (fun v s => syncVideo t v s)
      (fun v σ => (∃ n, lookupK VideoNode.videoId v.videoId σ.videos =
          some n ∧ n.title = some v.title ∧ n.categories = some v.categoryIds ∧
          n.parentCategories = some v.parentCategoryIds) ∧
        v.creatorId ∈ σ.users.map UserNode.userId ∧
        (v.videoId, v.creatorId) ∈ σ.createdBy.map CreatedByRel.key ∧
        (∀ c ∈ v.categoryIds, c ∈ σ.cats.map CatNode.categoryId) ∧
        (∀ c ∈ v.categoryIds,
          (v.videoId, c) ∈ σ.belongsTo.map BelongsToRel.key))
      (fun v s h => syncVideo_scrub t v s h.1 h.2.1 h.2.2.1 h.2.2.2.1
        h.2.2.2.2)
      db.videos s3 (fun v hv => by
        rw [h3']
        exact ⟨hf.videoF v hv, hf.creatorF v hv, hf.createdByF v hv,
          hf.vcatF v hv, hf.belongsF v hv⟩)
  set s4 := db.videos.foldl (fun s v => syncVideo t v s) s3 with hs4
  have h4' : s4.scrub = s.scrub := h4.trans h3'
  have h5 : (((db.watches.take 10000).foldl (fun s w => syncWatch w s)
      s4)).scrub = s4.scrub :=
    foldPhase_scrub (fun w s => syncWatch w s)
      (fun w σ => ∀ mv, lookupK VideoNode.videoId w.videoId σ.videos =
          some mv →
        w.userId ∈ σ.users.map UserNode.userId →
          lookupK WatchesRel.key (w.userId, w.videoId) σ.watches =
            some { user := w.userId, video := w.videoId,
                   watchTime := w.watchTime, timestamp := w.timestamp } ∧
          ∀ c ∈ mv.categories.getD [], c ∈ σ.cats.map CatNode.categoryId →
            (w.userId, c) ∈ σ.interestKeys)
      (fun w s h => syncWatch_scrub w s h)
      (db.watches.take 10000) s4 (fun w hw => by
        rw [h4']
        exact hf.watchF w hw)
  set s5 := (db.watches.take 10000).foldl (fun s w => syncWatch w s) s4
    with hs5
  have h5' : s5.scrub = s.scrub := h5.trans h4'
  have h6 : ((db.likes.foldl (fun s l => syncLike l s) s5)).scrub =
      s5.scrub :=
    foldPhase_scrub (fun l s => syncLike l s)
      (fun l σ => ∀ mv, lookupK VideoNode.videoId l.videoId σ.videos =
          some mv →
        l.userId ∈ σ.users.map UserNode.userId →
          lookupK LikesRel.key (l.userId, l.videoId) σ.likes =
            some { user := l.userId, video := l.videoId,
                   timestamp := l.timestamp } ∧
          ∀ c ∈ mv.categories.getD [], c ∈ σ.cats.map CatNode.categoryId →
            (l.userId, c) ∈ σ.interestKeys)
      (fun l s h => syncLike_scrub l s h)
      db.likes s5 (fun l hl => by
        rw [h5']
        exact hf.likeF l hl)
  set s6 := db.likes.foldl (fun s l => syncLike l s) s5 with hs6
  have h6' : s6.scrub = s.scrub := h6.trans h5'
  have h7 : ((db.follows.foldl (fun s f => syncFollow f s) s6)).scrub =
      s6.scrub :=
    foldPhase_scrub (fun f s => syncFollow f s)
      (fun f σ => f.followerId ∈ σ.users.map UserNode.userId →
        f.followeeId ∈ σ.users.map UserNode.userId →
          lookupK FollowsRel.key (f.followerId, f.followeeId) σ.follows =
            some { follower := f.followerId, followee := f.followeeId,
                   timestamp := f.timestamp })
      (fun f s h => syncFollow_scrub f s h)
      db.follows s6 (fun f hfm => by
        rw [h6']
        exact hf.followF f hfm)
  set s7 := db.follows.foldl (fun s f => syncFollow f s) s6 with hs7
  have h7' : s7.scrub = s.scrub := h7.trans h6'
  have hkeys7 : s7.videos.map VideoNode.videoId =
      s.videos.map VideoNode.videoId := by
    have e1 : s7.scrub.videos.map VideoNode.videoId =
        s.scrub.videos.map VideoNode.videoId := by rw [h7']
    rw [show s7.scrub.videos = s7.videos.map scrubVideo from rfl,
      show s.scrub.videos = s.videos.map scrubVideo from rfl,
      map_key_map_scrub VideoNode.videoId scrubVideo scrubVideo_key,
      map_key_map_scrub VideoNode.videoId scrubVideo scrubVideo_key] at e1
    exact e1
  have hnd7 : (s7.videos.map VideoNode.videoId).Nodup := by
    rw [hkeys7]
    exact hnd
  have h8 : (computeVideoSimilarities t s7).scrub = s7.scrub := by
    refine computeVideoSimilarities_scrub t s7 hnd7 ?_
    refine simFa_of_scrubF s7 ?_
    intro p hp c1 c2 hc1 hc2 hge
    rw [h7'] at hp ⊢
    exact hf.simF p hp c1 c2 hc1 hc2 hge
  have hfinal : bulkSyncAllData t db s = computeVideoSimilarities t s7 := by
    simp only [bulkSyncAllData, syncCategoriesAll, hs1, hs2, hs3, hs4, hs5,
      hs6, hs7]
  rw [hfinal]
  exact h8.trans h7'

theorem syncVideo_shape (now : Time) (v : RVideo) (s : GraphState) :
    ∃ vl ul cbl cl bl, syncVideo now v s =
      { s with videos := vl, users := ul, createdBy := cbl, cats := cl,
               belongsTo := bl } := by
  refine ⟨_, _, _, _, _, syncVideo_char now v s⟩

theorem syncWatch_shape (w : RWatch) (s : GraphState) :
    ∃ wl il, syncWatch w s = { s with watches := wl, interests := il } := by
  cases hu : s.findUser w.userId with
  | none =>
      exact ⟨s.watches, s.interests, by rw [syncWatch_none w s (Or.inl hu)]⟩
  | some un =>
      cases hv : s.findVideo w.videoId with
      | none =>
          exact ⟨s.watches, s.interests,
            by rw [syncWatch_none w s (Or.inr hv)]⟩
      | some v =>
          exact ⟨_, _, syncWatch_some w s un v hu hv⟩

theorem syncLike_shape (l : RLike) (s : GraphState) :
    ∃ ll il, syncLike l s = { s with likes := ll, interests := il } := by
  cases hu : s.findUser l.userId with
  | none =>
      exact ⟨s.likes, s.interests, by rw [syncLike_none l s (Or.inl hu)]⟩
  | some un =>
      cases hv : s.findVideo l.videoId with
      | none =>
          exact ⟨s.likes, s.interests, by rw [syncLike_none l s (Or.inr hv)]⟩
      | some v =>
          exact ⟨_, _, syncLike_some l s un v hu hv⟩

theorem syncFollow_shape (f : RFollow) (s : GraphState) :
    ∃ fl, syncFollow f s = { s with follows := fl } := by
  cases h1 : s.findUser f.followerId with
  | none => exact ⟨s.follows, by rw [syncFollow_none f s (Or.inl h1)]⟩
  | some u1 =>
      cases h2 : s.findUser f.followeeId with
      | none => exact ⟨s.follows, by rw [syncFollow_none f s (Or.inr h2)]⟩
      | some u2 => exact ⟨_, syncFollow_some f s u1 u2 h1 h2⟩

theorem foldPCat_lookup_ne (now : Time) :
    ∀ (ps : List RParentCategory) (s : GraphState) (k : PCatId),
      (∀ q ∈ ps, q.parentCategoryId ≠ k) →
      lookupK PCatNode.parentCategoryId k
        (ps.foldl (fun s pc => syncParentCategory now pc s) s).pcats =
      lookupK PCatNode.parentCategoryId k s.pcats := by
  intro ps
  induction ps with
  | nil => intro s k h; rfl
  | cons p rest ih =>
      intro s k h
      rw [List.foldl_cons]
      rw [ih (syncParentCategory now p s) k
        (fun q hq => h q (List.mem_cons_of_mem p hq))]
      exact lookupK_upsertK_ne PCatNode.parentCategoryId p.parentCategoryId k
        _ _ s.pcats rfl (fun x => rfl) (h p (List.mem_cons_self p rest)).symm

theorem foldPCat_establish (now : Time) :
    ∀ (ps : List RParentCategory) (s : GraphState),
      (ps.map RParentCategory.parentCategoryId).Nodup →
      ∀ pc ∈ ps, ∃ n,
        lookupK PCatNode.parentCategoryId pc.parentCategoryId
          (ps.foldl (fun s pc => syncParentCategory now pc s) s).pcats =
          some n ∧ n.name = some pc.name := by
  intro ps
  induction ps with
  | nil => intro s hnd pc hpc; exact absurd hpc (List.not_mem_nil pc)
  | cons p0 rest ih =>
      intro s hnd pc hpc
      obtain ⟨hnotin, hndrest⟩ := List.nodup_cons.mp hnd
      rw [List.foldl_cons]
      rcases List.mem_cons.mp hpc with rfl | hpc'
      · have hne : ∀ q ∈ rest, q.parentCategoryId ≠ pc.parentCategoryId :=
          fun q hq h => hnotin (h ▸ List.mem_map_of_mem
            RParentCategory.parentCategoryId hq)
        rw [foldPCat_lookup_ne now rest (syncParentCategory now pc s)
          pc.parentCategoryId hne]
        refine ⟨(lookupK PCatNode.parentCategoryId pc.parentCategoryId
            s.pcats).elim
          { parentCategoryId := pc.parentCategoryId, name := some pc.name,
            updatedAt := some now }
          (fun n => { n with name := some pc.name,
                             updatedAt := some now }), ?_, ?_⟩
        · exact lookupK_upsertK_self PCatNode.parentCategoryId
            pc.parentCategoryId _ _ s.pcats rfl (fun x => rfl)
        · cases lookupK PCatNode.parentCategoryId pc.parentCategoryId
            s.pcats <;> rfl
      · exact ih (syncParentCategory now p0 s) hndrest pc hpc'

theorem foldUser_lookup_ne (now : Time) :
    ∀ (us : List RUser) (s : GraphState) (k : UserId),
      (∀ q ∈ us, q.id ≠ k) →
      lookupK UserNode.userId k
        (us.foldl (fun s u => syncUser now u s) s).users =
      lookupK UserNode.userId k s.users := by
  intro us
  induction us with
  | nil => intro s k h; rfl
  | cons u rest ih =>
      intro s k h
      rw [List.foldl_cons]
      rw [ih (syncUser now u s) k (fun q hq => h q (List.mem_cons_of_mem u hq))]
      exact lookupK_upsertK_ne UserNode.userId u.id k _ _ s.users rfl
        (fun x => rfl) (h u (List.mem_cons_self u rest)).symm

theorem foldUser_establish (now : Time) :
    ∀ (us : List RUser) (s : GraphState),
      (us.map RUser.id).Nodup →
      ∀ u ∈ us, ∃ n,
        lookupK UserNode.userId u.id
          (us.foldl (fun s u => syncUser now u s) s).users = some n ∧
        n.username = some u.username := by
  intro us
  induction us with
  | nil => intro s hnd u hu; exact absurd hu (List.not_mem_nil u)
  | cons u0 rest ih =>
      intro s hnd u hu
      obtain ⟨hnotin, hndrest⟩ := List.nodup_cons.mp hnd
      rw [List.foldl_cons]
      rcases List.mem_cons.mp hu with rfl | hu'
      · have hne : ∀ q ∈ rest, q.id ≠ u.id :=
          fun q hq h => hnotin (h ▸ List.mem_map_of_mem RUser.id hq)
        rw [foldUser_lookup_ne now rest (syncUser now u s) u.id hne]
        refine ⟨(lookupK UserNode.userId u.id s.users).elim
          { userId := u.id, username := some u.username,
            updatedAt := some now }
          (fun n => { n with username := some u.username,
                             updatedAt := some now }), ?_, ?_⟩
        · exact lookupK_upsertK_self UserNode.userId u.id _ _ s.users rfl
            (fun x => rfl)
        · cases lookupK UserNode.userId u.id s.users <;> rfl
      · exact ih (syncUser now u0 s) hndrest u hu'

theorem foldCat_cats_lookup_ne (now : Time) :
    ∀ (cs : List RCategory) (s : GraphState) (k : CatId),
      (∀ q ∈ cs, q.categoryId ≠ k) →
      lookupK CatNode.categoryId k
        (cs.foldl (fun s c => syncCategory now c s) s).cats =
      lookupK CatNode.categoryId k s.cats := by
  intro cs
  induction cs with
  | nil => intro s k h; rfl
  | cons c rest ih =>
      intro s k h
      rw [List.foldl_cons]
      rw [ih (syncCategory now c s) k
        (fun q hq => h q (List.mem_cons_of_mem c hq))]
      exact lookupK_upsertK_ne CatNode.categoryId c.categoryId k _ _ s.cats
        rfl (fun x => rfl) (h c (List.mem_cons_self c rest)).symm

theorem foldCat_establish_cat (now : Time) :
    ∀ (cs : List RCategory) (s : GraphState),
      (cs.map RCategory.categoryId).Nodup →
      ∀ c ∈ cs, ∃ n,
        lookupK CatNode.categoryId c.categoryId
          (cs.foldl (fun s c => syncCategory now c s) s).cats = some n ∧
        n.name = some c.name ∧ n.parentCategory = some c.parentCategoryId := by
  intro cs
  induction cs with
  | nil => intro s hnd c hc; exact absurd hc (List.not_mem_nil c)
  | cons c0 rest ih =>
      intro s hnd c hc
      obtain ⟨hnotin, hndrest⟩ := List.nodup_cons.mp hnd
      rw [List.foldl_cons]
      rcases List.mem_cons.mp hc with rfl | hc'
      · have hne : ∀ q ∈ rest, q.categoryId ≠ c.categoryId :=
          fun q hq h => hnotin (h ▸ List.mem_map_of_mem RCategory.categoryId
            hq)
        rw [foldCat_cats_lookup_ne now rest (syncCategory now c s)
          c.categoryId hne]
        refine ⟨(lookupK CatNode.categoryId c.categoryId s.cats).elim
          { categoryId := c.categoryId, name := some c.name,
            parentCategory := some c.parentCategoryId, updatedAt := some now }
          (fun n => { n with name := some c.name,
                             parentCategory := some c.parentCategoryId,
                             updatedAt := some now }), ?_, ?_⟩
        · exact lookupK_upsertK_self CatNode.categoryId c.categoryId _ _
            s.cats rfl (fun x => rfl)
        · cases lookupK CatNode.categoryId c.categoryId s.cats <;>
            exact ⟨rfl, rfl⟩
      · exact ih (syncCategory now c0 s) hndrest c hc'

theorem foldCat_pcats_mono (now : Time) :
    ∀ (cs : List RCategory) (s : GraphState) (k : PCatId),
      k ∈ s.pcats.map PCatNode.parentCategoryId →
      k ∈ ((cs.foldl (fun s c => syncCategory now c s) s)).pcats.map
        PCatNode.parentCategoryId := by
  intro cs
  induction cs with
  | nil => intro s k h; exact h
  | cons c rest ih =>
      intro s k h
      rw [List.foldl_cons]
      refine ih (syncCategory now c s) k ?_
      exact mem_map_key_upsertK PCatNode.parentCategoryId k c.parentCategoryId
        _ _ s.pcats rfl (fun x => rfl) h

theorem foldCat_parentOf_mono (now : Time) :
    ∀ (cs : List RCategory) (s : GraphState) (k : CatId × PCatId),
      k ∈ s.parentOf.map ParentOfRel.key →
      k ∈ ((cs.foldl (fun s c => syncCategory now c s) s)).parentOf.map
        ParentOfRel.key := by
  intro cs
  induction cs with
  | nil => intro s k h; exact h
  | cons c rest ih =>
      intro s k h
      rw [List.foldl_cons]
      refine ih (syncCategory now c s) k ?_
      exact mem_map_key_upsertK ParentOfRel.key k
        (c.categoryId, c.parentCategoryId) _ _ s.parentOf rfl (fun x => rfl) h

theorem foldCat_establish_pcmem (now : Time) :
    ∀ (cs : List RCategory) (s : GraphState),
      ∀ c ∈ cs, c.parentCategoryId ∈
        ((cs.foldl (fun s c => syncCategory now c s) s)).pcats.map
          PCatNode.parentCategoryId := by
  intro cs
  induction cs with
  | nil => intro s c hc; exact absurd hc (List.not_mem_nil c)
  | cons c0 rest ih =>
      intro s c hc
      rw [List.foldl_cons]
      rcases List.mem_cons.mp hc with rfl | hc'
      · refine foldCat_pcats_mono now rest (syncCategory now c s)
          c.parentCategoryId ?_
        exact self_mem_map_key_upsertK PCatNode.parentCategoryId
          c.parentCategoryId _ _ s.pcats rfl (fun x => rfl)
      · exact ih (syncCategory now c0 s) c hc'

theorem foldCat_establish_pomem (now : Time) :
    ∀ (cs : List RCategory) (s : GraphState),
      ∀ c ∈ cs, (c.categoryId, c.parentCategoryId) ∈
        ((cs.foldl (fun s c => syncCategory now c s) s)).parentOf.map
          ParentOfRel.key := by
  intro cs
  induction cs with
  | nil => intro s c hc; exact absurd hc (List.not_mem_nil c)
  | cons c0 rest ih =>
      intro s c hc
      rw [List.foldl_cons]
      rcases List.mem_cons.mp hc with rfl | hc'
      · refine foldCat_parentOf_mono now rest (syncCategory now c s)
          (c.categoryId, c.parentCategoryId) ?_
        exact self_mem_map_key_upsertK ParentOfRel.key
          (c.categoryId, c.parentCategoryId) _ _ s.parentOf rfl (fun x => rfl)
      · exact ih (syncCategory now c0 s) c hc'

theorem foldCat_pcats_lookup_pres (now : Time) :
    ∀ (cs : List RCategory) (s : GraphState) (k : PCatId) (x : PCatNode),
      lookupK PCatNode.parentCategoryId k s.pcats = some x →
      lookupK PCatNode.parentCategoryId k
        ((cs.foldl (fun s c => syncCategory now c s) s)).pcats = some x := by
  intro cs
  induction cs with
  | nil => intro s k x h; exact h
  | cons c rest ih =>
      intro s k x h
      rw [List.foldl_cons]
      refine ih (syncCategory now c s) k x ?_
      exact lookupK_upsertK_bare PCatNode.parentCategoryId k
        c.parentCategoryId _ s.pcats x h

theorem syncVideo_videos (now : Time) (v : RVideo) (s : GraphState) :
    (syncVideo now v s).videos = videoUpsert now v s.videos := by
  rw [syncVideo_char]

theorem syncVideo_users (now : Time) (v : RVideo) (s : GraphState) :
    (syncVideo now v s).users = upsertK UserNode.userId v.creatorId
      (fun n => n) { userId := v.creatorId } s.users := by
  rw [syncVideo_char]

theorem syncVideo_createdBy (now : Time) (v : RVideo) (s : GraphState) :
    (syncVideo now v s).createdBy = upsertK CreatedByRel.key
      (v.videoId, v.creatorId) (fun e => e)
      { video := v.videoId, creator := v.creatorId } s.createdBy := by
  rw [syncVideo_char]

theorem syncVideo_cats (now : Time) (v : RVideo) (s : GraphState) :
    (syncVideo now v s).cats =
      (catsBelongsFold v.videoId v.categoryIds (s.cats, s.belongsTo)).1 := by
  rw [syncVideo_char]

theorem syncVideo_belongsTo (now : Time) (v : RVideo) (s : GraphState) :
    (syncVideo now v s).belongsTo =
      (catsBelongsFold v.videoId v.categoryIds (s.cats, s.belongsTo)).2 := by
  rw [syncVideo_char]

theorem catsBelongsFold_cats_mono (vid : VideoId) :
    ∀ (cids : List CatId) (cl : List CatNode) (bl : List BelongsToRel)
      (k : CatId), k ∈ cl.map CatNode.categoryId →
      k ∈ ((catsBelongsFold vid cids (cl, bl)).1).map CatNode.categoryId := by
  intro cids
  induction cids with
  | nil => intro cl bl k h; exact h
  | cons cid rest ih =>
      intro cl bl k h
      unfold catsBelongsFold
      rw [List.foldl_cons]
      refine ih _ _ k ?_
      exact mem_map_key_upsertK CatNode.categoryId k cid _ _ cl rfl
        (fun x => rfl) h

theorem catsBelongsFold_belongs_mono (vid : VideoId) :
    ∀ (cids : List CatId) (cl : List CatNode) (bl : List BelongsToRel)
      (k : VideoId × CatId), k ∈ bl.map BelongsToRel.key →
      k ∈ ((catsBelongsFold vid cids (cl, bl)).2).map BelongsToRel.key := by
  intro cids
  induction cids with
  | nil => intro cl bl k h; exact h
  | cons cid rest ih =>
      intro cl bl k h
      unfold catsBelongsFold
      rw [List.foldl_cons]
      refine ih _ _ k ?_
      exact mem_map_key_upsertK BelongsToRel.key k (vid, cid) _ _ bl rfl
        (fun x => rfl) h

theorem catsBelongsFold_establish (vid : VideoId) :
    ∀ (cids : List CatId) (cl : List CatNode) (bl : List BelongsToRel),
      ∀ c ∈ cids,
        c ∈ ((catsBelongsFold vid cids (cl, bl)).1).map CatNode.categoryId ∧
        (vid, c) ∈
          ((catsBelongsFold vid cids (cl, bl)).2).map BelongsToRel.key := by
  intro cids
  induction cids with
  | nil => intro cl bl c hc; exact absurd hc (List.not_mem_nil c)
  | cons c0 rest ih =>
      intro cl bl c hc
      rcases List.mem_cons.mp hc with rfl | hc'
      · unfold catsBelongsFold
        rw [List.foldl_cons]
        constructor
        · refine catsBelongsFold_cats_mono vid rest _ _ c ?_
          exact self_mem_map_key_upsertK CatNode.categoryId c _ _ cl rfl
            (fun x => rfl)
        · refine catsBelongsFold_belongs_mono vid rest _ _ (vid, c) ?_
          exact self_mem_map_key_upsertK BelongsToRel.key (vid, c) _ _ bl rfl
            (fun x => rfl)
      · unfold catsBelongsFold
        rw [List.foldl_cons]
        exact ih _ _ c hc'

theorem catsBelongsFold_cats_lookup_pres (vid : VideoId) :
    ∀ (cids : List CatId) (cl : List CatNode) (bl : List BelongsToRel)
      (k : CatId) (x : CatNode), lookupK CatNode.categoryId k cl = some x →
      lookupK CatNode.categoryId k ((catsBelongsFold vid cids (cl, bl)).1) =
        some x := by
  intro cids
  induction cids with
  | nil => intro cl bl k x h; exact h
  | cons cid rest ih =>
      intro cl bl k x h
      unfold catsBelongsFold
      rw [List.foldl_cons]
      refine ih _ _ k x ?_
      exact lookupK_upsertK_bare CatNode.categoryId k cid _ cl x h

theorem foldVideo_videos_lookup_ne (now : Time) :
    ∀ (vs : List RVideo) (s : GraphState) (k : VideoId),
      (∀ q ∈ vs, q.videoId ≠ k) →
      lookupK VideoNode.videoId k
        (vs.foldl (fun s v => syncVideo now v s) s).videos =
      lookupK VideoNode.videoId k s.videos := by
  intro vs
  induction vs with
  | nil => intro s k h; rfl
  | cons v rest ih =>
      intro s k h
      rw [List.foldl_cons]
      rw [ih (syncVideo now v s) k
        (fun q hq => h q (List.mem_cons_of_mem v hq))]
      rw [syncVideo_videos]
      exact lookupK_upsertK_ne VideoNode.videoId v.videoId k _ _ s.videos rfl
        (fun x => rfl) (h v (List.mem_cons_self v rest)).symm

theorem foldVideo_establish_video (now : Time) :
    ∀ (vs : List RVideo) (s : GraphState),
      (vs.map RVideo.videoId).Nodup →
      ∀ v ∈ vs, ∃ n,
        lookupK VideoNode.videoId v.videoId
          (vs.foldl (fun s v => syncVideo now v s) s).videos = some n ∧
        n.title = some v.title ∧ n.categories = some v.categoryIds ∧
        n.parentCategories = some v.parentCategoryIds := by
  intro vs
  induction vs with
  | nil => intro s hnd v hv; exact absurd hv (List.not_mem_nil v)
  | cons v0 rest ih =>
      intro s hnd v hv
      obtain ⟨hnotin, hndrest⟩ := List.nodup_cons.mp hnd
      rw [List.foldl_cons]
      rcases List.mem_cons.mp hv with rfl | hv'
      · have hne : ∀ q ∈ rest, q.videoId ≠ v.videoId :=
          fun q hq h => hnotin (h ▸ List.mem_map_of_mem RVideo.videoId hq)
        rw [foldVideo_videos_lookup_ne now rest (syncVideo now v s)
          v.videoId hne]
        rw [syncVideo_videos]
        unfold videoUpsert
        refine ⟨(lookupK VideoNode.videoId v.videoId s.videos).elim
          { videoId := v.videoId, title := some v.title,
            categories := some v.categoryIds,
            parentCategories := some v.parentCategoryIds,
            updatedAt := some now }
          (fun n => { n with title := some v.title,
                             categories := some v.categoryIds,
                             parentCategories := some v.parentCategoryIds,
                             updatedAt := some now }), ?_, ?_⟩
        · exact lookupK_upsertK_self VideoNode.videoId v.videoId _ _
            s.videos rfl (fun x => rfl)
        · cases lookupK VideoNode.videoId v.videoId s.videos <;>
            exact ⟨rfl, rfl, rfl⟩
      · exact ih (syncVideo now v0 s) hndrest v hv'

theorem foldVideo_users_mono (now : Time) :
    ∀ (vs : List RVideo) (s : GraphState) (k : UserId),
      k ∈ s.users.map UserNode.userId →
      k ∈ ((vs.foldl (fun s v => syncVideo now v s) s)).users.map
        UserNode.userId := by
  intro vs
  induction vs with
  | nil => intro s k h; exact h
  | cons v rest ih =>
      intro s k h
      rw [List.foldl_cons]
      refine ih (syncVideo now v s) k ?_
      rw [syncVideo_users]
      exact mem_map_key_upsertK UserNode.userId k v.creatorId _ _ s.users rfl
        (fun x => rfl) h

theorem foldVideo_createdBy_mono (now : Time) :
    ∀ (vs : List RVideo) (s : GraphState) (k : VideoId × UserId),
      k ∈ s.createdBy.map CreatedByRel.key →
      k ∈ ((vs.foldl (fun s v => syncVideo now v s) s)).createdBy.map
        CreatedByRel.key := by
  intro vs
  induction vs with
  | nil => intro s k h; exact h
  | cons v rest ih =>
      intro s k h
      rw [List.foldl_cons]
      refine ih (syncVideo now v s) k ?_
      rw [syncVideo_createdBy]
      exact mem_map_key_upsertK CreatedByRel.key k (v.videoId, v.creatorId)
        _ _ s.createdBy rfl (fun x => rfl) h

theorem foldVideo_cats_mono (now : Time) :
    ∀ (vs : List RVideo) (s : GraphState) (k : CatId),
      k ∈ s.cats.map CatNode.categoryId →
      k ∈ ((vs.foldl (fun s v => syncVideo now v s) s)).cats.map
        CatNode.categoryId := by
  intro vs
  induction vs with
  | nil => intro s k h; exact h
  | cons v rest ih =>
      intro s k h
      rw [List.foldl_cons]
      refine ih (syncVideo now v s) k ?_
      rw [syncVideo_cats]
      exact catsBelongsFold_cats_mono v.videoId v.categoryIds s.cats
        s.belongsTo k h

theorem foldVideo_belongs_mono (now : Time) :
    ∀ (vs : List RVideo) (s : GraphState) (k : VideoId × CatId),
      k ∈ s.belongsTo.map BelongsToRel.key →
      k ∈ ((vs.foldl (fun s v => syncVideo now v s) s)).belongsTo.map
        BelongsToRel.key := by
  intro vs
  induction vs with
  | nil => intro s k h; exact h
  | cons v rest ih =>
      intro s k h
      rw [List.foldl_cons]
      refine ih (syncVideo now v s) k ?_
      rw [syncVideo_belongsTo]
      exact catsBelongsFold_belongs_mono v.videoId v.categoryIds s.cats
        s.belongsTo k h

theorem foldVideo_establish_creator (now : Time) :
    ∀ (vs : List RVideo) (s : GraphState),
      ∀ v ∈ vs, v.creatorId ∈
        ((vs.foldl (fun s v => syncVideo now v s) s)).users.map
          UserNode.userId := by
  intro vs
  induction vs with
  | nil => intro s v hv; exact absurd hv (List.not_mem_nil v)
  | cons v0 rest ih =>
      intro s v hv
      rw [List.foldl_cons]
      rcases List.mem_cons.mp hv with rfl | hv'
      · refine foldVideo_users_mono now rest (syncVideo now v s)
          v.creatorId ?_
        rw [syncVideo_users]
        exact self_mem_map_key_upsertK UserNode.userId v.creatorId _ _
          s.users rfl (fun x => rfl)
      · exact ih (syncVideo now v0 s) v hv'

theorem foldVideo_establish_createdBy (now : Time) :
    ∀ (vs : List RVideo) (s : GraphState),
      ∀ v ∈ vs, (v.videoId, v.creatorId) ∈
        ((vs.foldl (fun s v => syncVideo now v s) s)).createdBy.map
          CreatedByRel.key := by
  intro vs
  induction vs with
  | nil => intro s v hv; exact absurd hv (List.not_mem_nil v)
  | cons v0 rest ih =>
      intro s v hv
      rw [List.foldl_cons]
      rcases List.mem_cons.mp hv with rfl | hv'
      · refine foldVideo_createdBy_mono now rest (syncVideo now v s)
          (v.videoId, v.creatorId) ?_
        rw [syncVideo_createdBy]
        exact self_mem_map_key_upsertK CreatedByRel.key
          (v.videoId, v.creatorId) _ _ s.createdBy rfl (fun x => rfl)
      · exact ih (syncVideo now v0 s) v hv'

theorem foldVideo_establish_vcat (now : Time) :
    ∀ (vs : List RVideo) (s : GraphState),
      ∀ v ∈ vs, ∀ c ∈ v.categoryIds, c ∈
        ((vs.foldl (fun s v => syncVideo now v s) s)).cats.map
          CatNode.categoryId := by
  intro vs
  induction vs with
  | nil => intro s v hv; exact absurd hv (List.not_mem_nil v)
  | cons v0 rest ih =>
      intro s v hv c
      rw [List.foldl_cons]
      rcases List.mem_cons.mp hv with rfl | hv'
      · intro hc
        refine foldVideo_cats_mono now rest (syncVideo now v s) c ?_
        rw [syncVideo_cats]
        exact (catsBelongsFold_establish v.videoId v.categoryIds s.cats
          s.belongsTo c hc).1
      · exact ih (syncVideo now v0 s) v hv' c

theorem foldVideo_establish_belongs (now : Time) :
    ∀ (vs : List RVideo) (s : GraphState),
      ∀ v ∈ vs, ∀ c ∈ v.categoryIds, (v.videoId, c) ∈
        ((vs.foldl (fun s v => syncVideo now v s) s)).belongsTo.map
          BelongsToRel.key := by
  intro vs
  induction vs with
  | nil => intro s v hv; exact absurd hv (List.not_mem_nil v)
  | cons v0 rest ih =>
      intro s v hv c
      rw [List.foldl_cons]
      rcases List.mem_cons.mp hv with rfl | hv'
      · intro hc
        refine foldVideo_belongs_mono now rest (syncVideo now v s)
          (v.videoId, c) ?_
        rw [syncVideo_belongsTo]
        exact (catsBelongsFold_establish v.videoId v.categoryIds s.cats
          s.belongsTo c hc).2
      · exact ih (syncVideo now v0 s) v hv' c

theorem foldVideo_users_lookup_pres (now : Time) :
    ∀ (vs : List RVideo) (s : GraphState) (k : UserId) (x : UserNode),
      lookupK UserNode.userId k s.users = some x →
      lookupK UserNode.userId k
        ((vs.foldl (fun s v => syncVideo now v s) s)).users = some x := by
  intro vs
  induction vs with
  | nil => intro s k x h; exact h
  | cons v rest ih =>
      intro s k x h
      rw [List.foldl_cons]
      refine ih (syncVideo now v s) k x ?_
      rw [syncVideo_users]
      exact lookupK_upsertK_bare UserNode.userId k v.creatorId _ s.users x h

theorem foldVideo_cats_lookup_pres (now : Time) :
    ∀ (vs : List RVideo) (s : GraphState) (k : CatId) (x : CatNode),
      lookupK CatNode.categoryId k s.cats = some x →
      lookupK CatNode.categoryId k
        ((vs.foldl (fun s v => syncVideo now v s) s)).cats = some x := by
  intro vs
  induction vs with
  | nil => intro s k x h; exact h
  | cons v rest ih =>
      intro s k x h
      rw [List.foldl_cons]
      refine ih (syncVideo now v s) k x ?_
      rw [syncVideo_cats]
      exact catsBelongsFold_cats_lookup_pres v.videoId v.categoryIds s.cats
        s.belongsTo k x h

theorem watchUpsert_lookup (w : RWatch) (wl : List WatchesRel) :
    lookupK WatchesRel.key (w.userId, w.videoId) (watchUpsert w wl) =
      some { user := w.userId, video := w.videoId,
             watchTime := w.watchTime, timestamp := w.timestamp } := by
  unfold watchUpsert
  rw [lookupK_upsertK_self WatchesRel.key (w.userId, w.videoId)
    (fun e => { e with watchTime := w.watchTime, timestamp := w.timestamp })
    ({ user := w.userId, video := w.videoId, watchTime := w.watchTime,
       timestamp := w.timestamp }) wl rfl (fun x => rfl)]
  cases hx : lookupK WatchesRel.key (w.userId, w.videoId) wl with
  | none => rfl
  | some x =>
      have hk := lookupK_key_eq WatchesRel.key (w.userId, w.videoId) wl x hx
      have h1 : x.user = w.userId := congrArg Prod.fst hk
      have h2 : x.video = w.videoId := congrArg Prod.snd hk
      rw [← h1, ← h2]
      rfl

theorem likeUpsert_lookup (l : RLike) (ll : List LikesRel) :
    lookupK LikesRel.key (l.userId, l.videoId) (likeUpsert l ll) =
      some { user := l.userId, video := l.videoId,
             timestamp := l.timestamp } := by
  unfold likeUpsert
  rw [lookupK_upsertK_self LikesRel.key (l.userId, l.videoId)
    (fun e => { e with timestamp := l.timestamp })
    ({ user := l.userId, video := l.videoId, timestamp := l.timestamp }) ll
    rfl (fun x => rfl)]
  cases hx : lookupK LikesRel.key (l.userId, l.videoId) ll with
  | none => rfl
  | some x =>
      have hk := lookupK_key_eq LikesRel.key (l.userId, l.videoId) ll x hx
      have h1 : x.user = l.userId := congrArg Prod.fst hk
      have h2 : x.video = l.videoId := congrArg Prod.snd hk
      rw [← h1, ← h2]
      rfl

theorem followUpsert_lookup (f : RFollow) (fl : List FollowsRel) :
    lookupK FollowsRel.key (f.followerId, f.followeeId) (followUpsert f fl) =
      some { follower := f.followerId, followee := f.followeeId,
             timestamp := f.timestamp } := by
  unfold followUpsert
  rw [lookupK_upsertK_self FollowsRel.key (f.followerId, f.followeeId)
    (fun e => { e with timestamp := f.timestamp })
    ({ follower := f.followerId, followee := f.followeeId,
       timestamp := f.timestamp }) fl rfl (fun x => rfl)]
  cases hx : lookupK FollowsRel.key (f.followerId, f.followeeId) fl with
  | none => rfl
  | some x =>
      have hk := lookupK_key_eq FollowsRel.key (f.followerId, f.followeeId)
        fl x hx
      have h1 : x.follower = f.followerId := congrArg Prod.fst hk
      have h2 : x.followee = f.followeeId := congrArg Prod.snd hk
      rw [← h1, ← h2]
      rfl

theorem mergeInterestL_mono (catsL : List CatNode) (uid : UserId)
    (cid : CatId) (d : ℚ) (il : List InterestedInRel) (k : UserId × CatId)
    (h : k ∈ il.map InterestedInRel.key) :
    k ∈ (mergeInterestL catsL uid cid d il).map InterestedInRel.key := by
  unfold mergeInterestL
  cases lookupK CatNode.categoryId cid catsL with
  | none => exact h
  | some _ =>
      exact mem_map_key_upsertK InterestedInRel.key k (uid, cid) _ _ il rfl
        (fun x => rfl) h

theorem foldMergeL_mono (catsL : List CatNode) (uid : UserId) (d : ℚ) :
    ∀ (cids : List CatId) (il : List InterestedInRel) (k : UserId × CatId),
      k ∈ il.map InterestedInRel.key →
      k ∈ ((cids.foldl (fun il c => mergeInterestL catsL uid c d il)
        il)).map InterestedInRel.key := by
  intro cids
  induction cids with
  | nil => intro il k h; exact h
  | cons c rest ih =>
      intro il k h
      rw [List.foldl_cons]
      exact ih _ k (mergeInterestL_mono catsL uid c d il k h)

theorem foldMergeL_establish (catsL : List CatNode) (uid : UserId) (d : ℚ) :
    ∀ (cids : List CatId) (il : List InterestedInRel),
      ∀ c ∈ cids, (∃ cn, lookupK CatNode.categoryId c catsL = some cn) →
      (uid, c) ∈ ((cids.foldl (fun il c => mergeInterestL catsL uid c d il)
        il)).map InterestedInRel.key := by
  intro cids
  induction cids with
  | nil => intro il c hc; exact absurd hc (List.not_mem_nil c)
  | cons c0 rest ih =>
      intro il c hc hcn
      rw [List.foldl_cons]
      rcases List.mem_cons.mp hc with rfl | hc'
      · obtain ⟨cn, hcn'⟩ := hcn
        refine foldMergeL_mono catsL uid d rest _ (uid, c) ?_
        unfold mergeInterestL
        rw [hcn']
        exact self_mem_map_key_upsertK InterestedInRel.key (uid, c) _ _ il
          rfl (fun x => rfl)
      · exact ih _ c hc' hcn

theorem syncWatch_videos (w : RWatch) (s : GraphState) :
    (syncWatch w s).videos = s.videos := by
  obtain ⟨wl, il, h⟩ := syncWatch_shape w s
  rw [h]

theorem syncWatch_users (w : RWatch) (s : GraphState) :
    (syncWatch w s).users = s.users := by
  obtain ⟨wl, il, h⟩ := syncWatch_shape w s
  rw [h]

theorem syncWatch_cats (w : RWatch) (s : GraphState) :
    (syncWatch w s).cats = s.cats := by
  obtain ⟨wl, il, h⟩ := syncWatch_shape w s
  rw [h]

theorem syncLike_videos (l : RLike) (s : GraphState) :
    (syncLike l s).videos = s.videos := by
  obtain ⟨ll, il, h⟩ := syncLike_shape l s
  rw [h]

theorem syncLike_users (l : RLike) (s : GraphState) :
    (syncLike l s).users = s.users := by
  obtain ⟨ll, il, h⟩ := syncLike_shape l s
  rw [h]

theorem syncLike_cats (l : RLike) (s : GraphState) :
    (syncLike l s).cats = s.cats := by
  obtain ⟨ll, il, h⟩ := syncLike_shape l s
  rw [h]

theorem syncFollow_users (f : RFollow) (s : GraphState) :
    (syncFollow f s).users = s.users := by
  obtain ⟨fl, h⟩ := syncFollow_shape f s
  rw [h]

theorem syncWatch_interests_mono (w : RWatch) (s : GraphState)
    (k : UserId × CatId) (h : k ∈ s.interests.map InterestedInRel.key) :
    k ∈ (syncWatch w s).interests.map InterestedInRel.key := by
  cases hu : s.findUser w.userId with
  | none => rw [syncWatch_none w s (Or.inl hu)]; exact h
  | some un =>
      cases hv : s.findVideo w.videoId with
      | none => rw [syncWatch_none w s (Or.inr hv)]; exact h
      | some v =>
          rw [syncWatch_some w s un v hu hv]
          exact foldMergeL_mono s.cats w.userId w.watchTime
            (v.categories.getD []) s.interests k h

theorem syncLike_interests_mono (l : RLike) (s : GraphState)
    (k : UserId × CatId) (h : k ∈ s.interests.map InterestedInRel.key) :
    k ∈ (syncLike l s).interests.map InterestedInRel.key := by
  cases hu : s.findUser l.userId with
  | none => rw [syncLike_none l s (Or.inl hu)]; exact h
  | some un =>
      cases hv : s.findVideo l.videoId with
      | none => rw [syncLike_none l s (Or.inr hv)]; exact h
      | some v =>
          rw [syncLike_some l s un v hu hv]
          exact foldMergeL_mono s.cats l.userId 2
            (v.categories.getD []) s.interests k h

theorem foldWatch_interests_mono :
    ∀ (ws : List RWatch) (s : GraphState) (k : UserId × CatId),
      k ∈ s.interests.map InterestedInRel.key →
      k ∈ ((ws.foldl (fun s w => syncWatch w s) s)).interests.map
        InterestedInRel.key := by
  intro ws
  induction ws with
  | nil => intro s k h; exact h
  | cons w rest ih =>
      intro s k h
      rw [List.foldl_cons]
      exact ih (syncWatch w s) k (syncWatch_interests_mono w s k h)

theorem foldLike_interests_mono :
    ∀ (ls : List RLike) (s : GraphState) (k : UserId × CatId),
      k ∈ s.interests.map InterestedInRel.key →
      k ∈ ((ls.foldl (fun s l => syncLike l s) s)).interests.map
        InterestedInRel.key := by
  intro ls
  induction ls with
  | nil => intro s k h; exact h
  | cons l rest ih =>
      intro s k h
      rw [List.foldl_cons]
      exact ih (syncLike l s) k (syncLike_interests_mono l s k h)

theorem syncWatch_watches_lookup_ne (w : RWatch) (s : GraphState)
    (k : UserId × VideoId) (hne : k ≠ (w.userId, w.videoId)) :
    lookupK WatchesRel.key k (syncWatch w s).watches =
      lookupK WatchesRel.key k s.watches := by
  cases hu : s.findUser w.userId with
  | none => rw [syncWatch_none w s (Or.inl hu)]
  | some un =>
      cases hv : s.findVideo w.videoId with
      | none => rw [syncWatch_none w s (Or.inr hv)]
      | some v =>
          rw [syncWatch_some w s un v hu hv]
          exact lookupK_upsertK_ne WatchesRel.key (w.userId, w.videoId) k
            _ _ s.watches rfl (fun x => rfl) hne

theorem foldWatch_watches_lookup_ne :
    ∀ (ws : List RWatch) (s : GraphState) (k : UserId × VideoId),
      (∀ q ∈ ws, (q.userId, q.videoId) ≠ k) →
      lookupK WatchesRel.key k
        ((ws.foldl (fun s w => syncWatch w s) s)).watches =
      lookupK WatchesRel.key k s.watches := by
  intro ws
  induction ws with
  | nil => intro s k h; rfl
  | cons w rest ih =>
      intro s k h
      rw [List.foldl_cons]
      rw [ih (syncWatch w s) k (fun q hq => h q (List.mem_cons_of_mem w hq))]
      exact syncWatch_watches_lookup_ne w s k
        (h w (List.mem_cons_self w rest)).symm

theorem syncLike_likes_lookup_ne (l : RLike) (s : GraphState)
    (k : UserId × VideoId) (hne : k ≠ (l.userId, l.videoId)) :
    lookupK LikesRel.key k (syncLike l s).likes =
      lookupK LikesRel.key k s.likes := by
  cases hu : s.findUser l.userId with
  | none => rw [syncLike_none l s (Or.inl hu)]
  | some un =>
      cases hv : s.findVideo l.videoId with
      | none => rw [syncLike_none l s (Or.inr hv)]
      | some v =>
          rw [syncLike_some l s un v hu hv]
          exact lookupK_upsertK_ne LikesRel.key (l.userId, l.videoId) k
            _ _ s.likes rfl (fun x => rfl) hne

theorem foldLike_likes_lookup_ne :
    ∀ (ls : List RLike) (s : GraphState) (k : UserId × VideoId),
      (∀ q ∈ ls, (q.userId, q.videoId) ≠ k) →
      lookupK LikesRel.key k
        ((ls.foldl (fun s l => syncLike l s) s)).likes =
      lookupK LikesRel.key k s.likes := by
  intro ls
  induction ls with
  | nil => intro s k h; rfl
  | cons l rest ih =>
      intro s k h
      rw [List.foldl_cons]
      rw [ih (syncLike l s) k (fun q hq => h q (List.mem_cons_of_mem l hq))]
      exact syncLike_likes_lookup_ne l s k
        (h l (List.mem_cons_self l rest)).symm

theorem syncFollow_follows_lookup_ne (f : RFollow) (s : GraphState)
    (k : UserId × UserId) (hne : k ≠ (f.followerId, f.followeeId)) :
    lookupK FollowsRel.key k (syncFollow f s).follows =
      lookupK FollowsRel.key k s.follows := by
  cases h1 : s.findUser f.followerId with
  | none => rw [syncFollow_none f s (Or.inl h1)]
  | some u1 =>
      cases h2 : s.findUser f.followeeId with
      | none => rw [syncFollow_none f s (Or.inr h2)]
      | some u2 =>
          rw [syncFollow_some f s u1 u2 h1 h2]
          exact lookupK_upsertK_ne FollowsRel.key
            (f.followerId, f.followeeId) k _ _ s.follows rfl (fun x => rfl)
            hne

theorem foldFollow_follows_lookup_ne :
    ∀ (fs : List RFollow) (s : GraphState) (k : UserId × UserId),
      (∀ q ∈ fs, (q.followerId, q.followeeId) ≠ k) →
      lookupK FollowsRel.key k
        ((fs.foldl (fun s f => syncFollow f s) s)).follows =
      lookupK FollowsRel.key k s.follows := by
  intro fs
  induction fs with
  | nil => intro s k h; rfl
  | cons f rest ih =>
      intro s k h
      rw [List.foldl_cons]
      rw [ih (syncFollow f s) k (fun q hq => h q (List.mem_cons_of_mem f hq))]
      exact syncFollow_follows_lookup_ne f s k
        (h f (List.mem_cons_self f rest)).symm

theorem foldWatch_establish :
    ∀ (ws : List RWatch) (s : GraphState),
      (ws.map (fun w => (w.userId, w.videoId))).Nodup →
      ∀ w ∈ ws, ∀ v, lookupK VideoNode.videoId w.videoId s.videos = some v →
        (∃ un, lookupK UserNode.userId w.userId s.users = some un) →
        lookupK WatchesRel.key (w.userId, w.videoId)
          ((ws.foldl (fun s w => syncWatch w s) s)).watches =
          some { user := w.userId, video := w.videoId,
                 watchTime := w.watchTime, timestamp := w.timestamp } ∧
        ∀ c ∈ v.categories.getD [],
          (∃ cn, lookupK CatNode.categoryId c s.cats = some cn) →
          (w.userId, c) ∈
            ((ws.foldl (fun s w => syncWatch w s) s)).interests.map
              InterestedInRel.key := by
  intro ws
  induction ws with
  | nil => intro s hnd w hw; exact absurd hw (List.not_mem_nil w)
  | cons w0 rest ih =>
      intro s hnd w hw v hv hu
      obtain ⟨hnotin, hndrest⟩ := List.nodup_cons.mp hnd
      rw [List.foldl_cons]
      rcases List.mem_cons.mp hw with rfl | hw'
      · obtain ⟨un, hun⟩ := hu
        have hstep := syncWatch_some w s un v hun hv
        have hni : (w.userId, w.videoId) ∉
            rest.map (fun w => (w.userId, w.videoId)) := hnotin
        constructor
        · have hne : ∀ q ∈ rest, (q.userId, q.videoId) ≠
              (w.userId, w.videoId) := fun q hq h => hni
            (h ▸ (List.mem_map.mpr ⟨q, hq, rfl⟩ :
              (q.userId, q.videoId) ∈
                rest.map (fun w => (w.userId, w.videoId))))
          rw [foldWatch_watches_lookup_ne rest (syncWatch w s)
            (w.userId, w.videoId) hne]
          rw [hstep]
          exact watchUpsert_lookup w s.watches
        · intro c hc hcn
          refine foldWatch_interests_mono rest (syncWatch w s)
            (w.userId, c) ?_
          rw [hstep]
          exact foldMergeL_establish s.cats w.userId w.watchTime
            (v.categories.getD []) s.interests c hc hcn
      · refine ih (syncWatch w0 s) hndrest w hw' v ?_ ?_ |>.imp id ?_
        · rw [syncWatch_videos]
          exact hv
        · obtain ⟨un, hun⟩ := hu
          refine ⟨un, ?_⟩
          rw [syncWatch_users]
          exact hun
        · intro hint c hc hcn
          refine hint c hc ?_
          obtain ⟨cn, hcn'⟩ := hcn
          refine ⟨cn, ?_⟩
          rw [syncWatch_cats]
          exact hcn'

theorem foldLike_establish :
    ∀ (ls : List RLike) (s : GraphState),
      (ls.map (fun l => (l.userId, l.videoId))).Nodup →
      ∀ l ∈ ls, ∀ v, lookupK VideoNode.videoId l.videoId s.videos = some v →
        (∃ un, lookupK UserNode.userId l.userId s.users = some un) →
        lookupK LikesRel.key (l.userId, l.videoId)
          ((ls.foldl (fun s l => syncLike l s) s)).likes =
          some { user := l.userId, video := l.videoId,
                 timestamp := l.timestamp } ∧
        ∀ c ∈ v.categories.getD [],
          (∃ cn, lookupK CatNode.categoryId c s.cats = some cn) →
          (l.userId, c) ∈
            ((ls.foldl (fun s l => syncLike l s) s)).interests.map
              InterestedInRel.key := by
  intro ls
  induction ls with
  | nil => intro s hnd l hl; exact absurd hl (List.not_mem_nil l)
  | cons l0 rest ih =>
      intro s hnd l hl v hv hu
      obtain ⟨hnotin, hndrest⟩ := List.nodup_cons.mp hnd
      rw [List.foldl_cons]
      rcases List.mem_cons.mp hl with rfl | hl'
      · obtain ⟨un, hun⟩ := hu
        have hstep := syncLike_some l s un v hun hv
        have hni : (l.userId, l.videoId) ∉
            rest.map (fun l => (l.userId, l.videoId)) := hnotin
        constructor
        · have hne : ∀ q ∈ rest, (q.userId, q.videoId) ≠
              (l.userId, l.videoId) := fun q hq h => hni
            (h ▸ (List.mem_map.mpr ⟨q, hq, rfl⟩ :
              (q.userId, q.videoId) ∈
                rest.map (fun l => (l.userId, l.videoId))))
          rw [foldLike_likes_lookup_ne rest (syncLike l s)
            (l.userId, l.videoId) hne]
          rw [hstep]
          exact likeUpsert_lookup l s.likes
        · intro c hc hcn
          refine foldLike_interests_mono rest (syncLike l s)
            (l.userId, c) ?_
          rw [hstep]
          exact foldMergeL_establish s.cats l.userId 2
            (v.categories.getD []) s.interests c hc hcn
      · refine ih (syncLike l0 s) hndrest l hl' v ?_ ?_ |>.imp id ?_
        · rw [syncLike_videos]
          exact hv
        · obtain ⟨un, hun⟩ := hu
          refine ⟨un, ?_⟩
          rw [syncLike_users]
          exact hun
        · intro hint c hc hcn
          refine hint c hc ?_
          obtain ⟨cn, hcn'⟩ := hcn
          refine ⟨cn, ?_⟩
          rw [syncLike_cats]
          exact hcn'

theorem foldFollow_establish :
    ∀ (fs : List RFollow) (s : GraphState),
      (fs.map (fun f => (f.followerId, f.followeeId))).Nodup →
      ∀ f ∈ fs,
        (∃ u1, lookupK UserNode.userId f.followerId s.users = some u1) →
        (∃ u2, lookupK UserNode.userId f.followeeId s.users = some u2) →
        lookupK FollowsRel.key (f.followerId, f.followeeId)
          ((fs.foldl (fun s f => syncFollow f s) s)).follows =
          some { follower := f.followerId, followee := f.followeeId,
                 timestamp := f.timestamp } := by
  intro fs
  induction fs with
  | nil => intro s hnd f hf; exact absurd hf (List.not_mem_nil f)
  | cons f0 rest ih =>
      intro s hnd f hf h1 h2
      obtain ⟨hnotin, hndrest⟩ := List.nodup_cons.mp hnd
      rw [List.foldl_cons]
      rcases List.mem_cons.mp hf with rfl | hf'
      · obtain ⟨u1, hu1⟩ := h1
        obtain ⟨u2, hu2⟩ := h2
        have hni : (f.followerId, f.followeeId) ∉
            rest.map (fun f => (f.followerId, f.followeeId)) := hnotin
        have hne : ∀ q ∈ rest, (q.followerId, q.followeeId) ≠
            (f.followerId, f.followeeId) := fun q hq h => hni
          (h ▸ (List.mem_map.mpr ⟨q, hq, rfl⟩ :
            (q.followerId, q.followeeId) ∈
              rest.map (fun f => (f.followerId, f.followeeId))))
        rw [foldFollow_follows_lookup_ne rest (syncFollow f s)
          (f.followerId, f.followeeId) hne]
        rw [syncFollow_some f s u1 u2 hu1 hu2]
        exact followUpsert_lookup f s.follows
      · refine ih (syncFollow f0 s) hndrest f hf' ?_ ?_
        · obtain ⟨u1, hu1⟩ := h1
          refine ⟨u1, ?_⟩
          rw [syncFollow_users]
          exact hu1
        · obtain ⟨u2, hu2⟩ := h2
          refine ⟨u2, ?_⟩
          rw [syncFollow_users]
          exact hu2

theorem syncVideo_pcats (now : Time) (v : RVideo) (s : GraphState) :
    (syncVideo now v s).pcats = s.pcats := by
  rw [syncVideo_char]

theorem syncVideo_watches (now : Time) (v : RVideo) (s : GraphState) :
    (syncVideo now v s).watches = s.watches := by
  rw [syncVideo_char]

theorem syncVideo_likes (now : Time) (v : RVideo) (s : GraphState) :
    (syncVideo now v s).likes = s.likes := by
  rw [syncVideo_char]

theorem syncVideo_follows (now : Time) (v : RVideo) (s : GraphState) :
    (syncVideo now v s).follows = s.follows := by
  rw [syncVideo_char]

theorem syncVideo_interests (now : Time) (v : RVideo) (s : GraphState) :
    (syncVideo now v s).interests = s.interests := by
  rw [syncVideo_char]

theorem syncVideo_parentOf (now : Time) (v : RVideo) (s : GraphState) :
    (syncVideo now v s).parentOf = s.parentOf := by
  rw [syncVideo_char]

theorem syncVideo_similar (now : Time) (v : RVideo) (s : GraphState) :
    (syncVideo now v s).similar = s.similar := by
  rw [syncVideo_char]

theorem simPhase_establish (now : Time) (s : GraphState)
    (hnd : (s.videos.map VideoNode.videoId).Nodup)
    (hempty : s.similar = []) :
    ∀ p ∈ videoPairs s.videos, ∀ c1 c2 : List CatId,
      p.1.categories = some c1 → p.2.categories = some c2 →
      (3 : ℚ)/10 ≤ catSim c1 c2 →
      ∃ e, lookupK SimilarToRel.skey (pairKey p)
          (computeVideoSimilarities now s).similar = some e ∧
        e.similarity = catSim c1 c2 := by
  intro p hp c1 c2 hc1 hc2 hge
  have hkeys : ∀ q ∈ videoPairs s.videos, pairKey q = pairKey p → q = p :=
    fun q hq h => videoPairs_key_inj s.videos hnd q hq p hp h
  have hpre : lookupK SimilarToRel.skey (pairKey p) s.similar = none ∨
      lookupK SimilarToRel.skey (pairKey p) s.similar = simRec now p :=
    Or.inl (by rw [hempty]; rfl)
  have hlook := foldSim_lookup now p (videoPairs s.videos) s.similar hkeys
    hpre (Or.inl hp)
  refine ⟨{ a := p.1.videoId, b := p.2.videoId, similarity := catSim c1 c2,
            updatedAt := some now }, ?_, rfl⟩
  rw [show (computeVideoSimilarities now s).similar =
    (videoPairs s.videos).foldl (simUpd now) s.similar from rfl]
  rw [hlook]
  unfold simRec
  rw [hc1, hc2]
  simp only
  rw [if_pos hge]

theorem nodupInv_empty : NodupInv GraphState.empty := by
  constructor <;> exact List.nodup_nil

theorem syncUser_nodup (now : Time) (u : RUser) (s : GraphState)
    (h : NodupInv s) : NodupInv (syncUser now u s) := by
  refine ⟨?_, h.videosN, h.catsN, h.pcatsN, h.watchesN, h.likesN,
    h.followsN, h.interestsN, h.createdByN, h.belongsToN, h.parentOfN,
    h.similarN⟩
  exact nodup_map_key_upsertK UserNode.userId u.id _ _ s.users rfl
    (fun x => rfl) h.usersN

theorem syncParentCategory_nodup (now : Time) (pc : RParentCategory)
    (s : GraphState) (h : NodupInv s) :
    NodupInv (syncParentCategory now pc s) := by
  refine ⟨h.usersN, h.videosN, h.catsN, ?_, h.watchesN, h.likesN,
    h.followsN, h.interestsN, h.createdByN, h.belongsToN, h.parentOfN,
    h.similarN⟩
  exact nodup_map_key_upsertK PCatNode.parentCategoryId pc.parentCategoryId
    _ _ s.pcats rfl (fun x => rfl) h.pcatsN

theorem syncCategory_nodup (now : Time) (c : RCategory) (s : GraphState)
    (h : NodupInv s) : NodupInv (syncCategory now c s) := by
  refine ⟨h.usersN, h.videosN, ?_, ?_, h.watchesN, h.likesN, h.followsN,
    h.interestsN, h.createdByN, h.belongsToN, ?_, h.similarN⟩
  · exact nodup_map_key_upsertK CatNode.categoryId c.categoryId _ _ s.cats
      rfl (fun x => rfl) h.catsN
  · exact nodup_map_key_upsertK PCatNode.parentCategoryId c.parentCategoryId
      _ _ s.pcats rfl (fun x => rfl) h.pcatsN
  · exact nodup_map_key_upsertK ParentOfRel.key
      (c.categoryId, c.parentCategoryId) _ _ s.parentOf rfl (fun x => rfl)
      h.parentOfN

theorem catsBelongsFold_nodup (vid : VideoId) :
    ∀ (cids : List CatId) (cl : List CatNode) (bl : List BelongsToRel),
      (cl.map CatNode.categoryId).Nodup → (bl.map BelongsToRel.key).Nodup →
      (((catsBelongsFold vid cids (cl, bl)).1).map CatNode.categoryId).Nodup ∧
      (((catsBelongsFold vid cids (cl, bl)).2).map BelongsToRel.key).Nodup := by
  intro cids
  induction cids with
  | nil => intro cl bl h1 h2; exact ⟨h1, h2⟩
  | cons cid rest ih =>
      intro cl bl h1 h2
      unfold catsBelongsFold
      rw [List.foldl_cons]
      refine ih _ _ ?_ ?_
      · exact nodup_map_key_upsertK CatNode.categoryId cid _ _ cl rfl
          (fun x => rfl) h1
      · exact nodup_map_key_upsertK BelongsToRel.key (vid, cid) _ _ bl rfl
          (fun x => rfl) h2

theorem syncVideo_nodup (now : Time) (v : RVideo) (s : GraphState)
    (h : NodupInv s) : NodupInv (syncVideo now v s) := by
  rw [syncVideo_char]
  refine ⟨?_, ?_, ?_, h.pcatsN, h.watchesN, h.likesN, h.followsN,
    h.interestsN, ?_, ?_, h.parentOfN, h.similarN⟩
  · exact nodup_map_key_upsertK UserNode.userId v.creatorId _ _ s.users rfl
      (fun x => rfl) h.usersN
  · exact nodup_map_key_upsertK VideoNode.videoId v.videoId _ _ s.videos rfl
      (fun x => rfl) h.videosN
  · exact (catsBelongsFold_nodup v.videoId v.categoryIds s.cats s.belongsTo
      h.catsN h.belongsToN).1
  · exact nodup_map_key_upsertK CreatedByRel.key (v.videoId, v.creatorId)
      _ _ s.createdBy rfl (fun x => rfl) h.createdByN
  · exact (catsBelongsFold_nodup v.videoId v.categoryIds s.cats s.belongsTo
      h.catsN h.belongsToN).2

theorem mergeInterestL_nodup (catsL : List CatNode) (uid : UserId)
    (cid : CatId) (d : ℚ) (il : List InterestedInRel)
    (h : (il.map InterestedInRel.key).Nodup) :
    ((mergeInterestL catsL uid cid d il).map InterestedInRel.key).Nodup := by
  unfold mergeInterestL
  cases lookupK CatNode.categoryId cid catsL with
  | none => exact h
  | some _ =>
      exact nodup_map_key_upsertK InterestedInRel.key (uid, cid) _ _ il rfl
        (fun x => rfl) h

theorem foldMergeL_nodup (catsL : List CatNode) (uid : UserId) (d : ℚ) :
    ∀ (cids : List CatId) (il : List InterestedInRel),
      (il.map InterestedInRel.key).Nodup →
      (((cids.foldl (fun il c => mergeInterestL catsL uid c d il) il)).map
        InterestedInRel.key).Nodup := by
  intro cids
  induction cids with
  | nil => intro il h; exact h
  | cons c rest ih =>
      intro il h
      rw [List.foldl_cons]
      exact ih _ (mergeInterestL_nodup catsL uid c d il h)

theorem syncWatch_nodup (w : RWatch) (s : GraphState) (h : NodupInv s) :
    NodupInv (syncWatch w s) := by
  cases hu : s.findUser w.userId with
  | none => rw [syncWatch_none w s (Or.inl hu)]; exact h
  | some un =>
      cases hv : s.findVideo w.videoId with
      | none => rw [syncWatch_none w s (Or.inr hv)]; exact h
      | some v =>
          rw [syncWatch_some w s un v hu hv]
          refine ⟨h.usersN, h.videosN, h.catsN, h.pcatsN, ?_, h.likesN,
            h.followsN, ?_, h.createdByN, h.belongsToN, h.parentOfN,
            h.similarN⟩
          · exact nodup_map_key_upsertK WatchesRel.key
              (w.userId, w.videoId) _ _ s.watches rfl (fun x => rfl)
              h.watchesN
          · exact foldMergeL_nodup s.cats w.userId w.watchTime
              (v.categories.getD []) s.interests h.interestsN

theorem syncLike_nodup (l : RLike) (s : GraphState) (h : NodupInv s) :
    NodupInv (syncLike l s) := by
  cases hu : s.findUser l.userId with
  | none => rw [syncLike_none l s (Or.inl hu)]; exact h
  | some un =>
      cases hv : s.findVideo l.videoId with
      | none => rw [syncLike_none l s (Or.inr hv)]; exact h
      | some v =>
          rw [syncLike_some l s un v hu hv]
          refine ⟨h.usersN, h.videosN, h.catsN, h.pcatsN, h.watchesN, ?_,
            h.followsN, ?_, h.createdByN, h.belongsToN, h.parentOfN,
            h.similarN⟩
          · exact nodup_map_key_upsertK LikesRel.key (l.userId, l.videoId)
              _ _ s.likes rfl (fun x => rfl) h.likesN
          · exact foldMergeL_nodup s.cats l.userId 2
              (v.categories.getD []) s.interests h.interestsN

theorem syncFollow_nodup (f : RFollow) (s : GraphState) (h : NodupInv s) :
    NodupInv (syncFollow f s) := by
  cases h1 : s.findUser f.followerId with
  | none => rw [syncFollow_none f s (Or.inl h1)]; exact h
  | some u1 =>
      cases h2 : s.findUser f.followeeId with
      | none => rw [syncFollow_none f s (Or.inr h2)]; exact h
      | some u2 =>
          rw [syncFollow_some f s u1 u2 h1 h2]
          refine ⟨h.usersN, h.videosN, h.catsN, h.pcatsN, h.watchesN,
            h.likesN, ?_, h.interestsN, h.createdByN, h.belongsToN,
            h.parentOfN, h.similarN⟩
          exact nodup_map_key_upsertK FollowsRel.key
            (f.followerId, f.followeeId) _ _ s.follows rfl (fun x => rfl)
            h.followsN

theorem simUpd_nodup (now : Time) (sl : List SimilarToRel)
    (p : VideoNode × VideoNode) (h : (sl.map SimilarToRel.skey).Nodup) :
    ((simUpd now sl p).map SimilarToRel.skey).Nodup := by
  unfold simUpd
  cases p.1.categories with
  | none => exact h
  | some c1 =>
      cases p.2.categories with
      | none => exact h
      | some c2 =>
          simp only
          by_cases hge : (3 : ℚ)/10 ≤ catSim c1 c2
          · rw [if_pos hge]
            exact nodup_map_key_upsertK SimilarToRel.skey
              (spair p.1.videoId p.2.videoId) _ _ sl rfl (fun x => rfl) h
          · rw [if_neg hge]
            exact h

theorem foldSim_nodup (now : Time) :
    ∀ (ps : List (VideoNode × VideoNode)) (sl : List SimilarToRel),
      (sl.map SimilarToRel.skey).Nodup →
      (((ps.foldl (simUpd now) sl)).map SimilarToRel.skey).Nodup := by
  intro ps
  induction ps with
  | nil => intro sl h; exact h
  | cons p rest ih =>
      intro sl h
      rw [List.foldl_cons]
      exact ih _ (simUpd_nodup now sl p h)

theorem computeVideoSimilarities_nodup (now : Time) (s : GraphState)
    (h : NodupInv s) : NodupInv (computeVideoSimilarities now s) :=
  ⟨h.usersN, h.videosN, h.catsN, h.pcatsN, h.watchesN, h.likesN, h.followsN,
   h.interestsN, h.createdByN, h.belongsToN, h.parentOfN,
   foldSim_nodup now (videoPairs s.videos) s.similar h.similarN⟩

theorem bulkSync_nodup (t : Time) (db : RelationalDB) (s : GraphState)
    (h : NodupInv s) : NodupInv (bulkSyncAllData t db s) := by
  simp only [bulkSyncAllData, syncCategoriesAll]
  refine computeVideoSimilarities_nodup t _ ?_
  refine foldl_pres (fun f s => syncFollow f s) NodupInv
    (fun f s => syncFollow_nodup f s) db.follows _ ?_
  refine foldl_pres (fun l s => syncLike l s) NodupInv
    (fun l s => syncLike_nodup l s) db.likes _ ?_
  refine foldl_pres (fun w s => syncWatch w s) NodupInv
    (fun w s => syncWatch_nodup w s) (db.watches.take 10000) _ ?_
  refine foldl_pres (fun v s => syncVideo t v s) NodupInv
    (fun v s => syncVideo_nodup t v s) db.videos _ ?_
  refine foldl_pres (fun u s => syncUser t u s) NodupInv
    (fun u s => syncUser_nodup t u s) db.users _ ?_
  refine foldl_pres (fun c s => syncCategory t c s) NodupInv
    (fun c s => syncCategory_nodup t c s) db.categories _ ?_
  refine foldl_pres (fun pc s => syncParentCategory t pc s) NodupInv
    (fun pc s => syncParentCategory_nodup t pc s) db.parentCategories _ ?_
  exact h

/-- One full bulk sync from an empty graph store establishes every fact the
second run needs: each relational row is represented in the scrubbed graph
with its synced payload. -/
theorem bulkSync_establish (t : Time) (db : RelationalDB) (hwf : DBWf db) :
    SyncFacts db (bulkSyncAllData t db GraphState.empty).scrub := by
  have hfinal : bulkSyncAllData t db GraphState.empty =
      computeVideoSimilarities t
        ((db.follows.foldl (fun s f => syncFollow f s)
          (db.likes.foldl (fun s l => syncLike l s)
            ((db.watches.take 10000).foldl (fun s w => syncWatch w s)
              (db.videos.foldl (fun s v => syncVideo t v s)
                (db.users.foldl (fun s u => syncUser t u s)
                  (db.categories.foldl (fun s c => syncCategory t c s)
                    (db.parentCategories.foldl
                      (fun s pc => syncParentCategory t pc s)
                      GraphState.empty)))))))) := by
    simp only [bulkSyncAllData, syncCategoriesAll]
  rw [hfinal]
  set s1 := db.parentCategories.foldl (fun s pc => syncParentCategory t pc s)
    GraphState.empty with hs1
  set s2 := db.categories.foldl (fun s c => syncCategory t c s) s1 with hs2
  set s3 := db.users.foldl (fun s u => syncUser t u s) s2 with hs3
  set s4 := db.videos.foldl (fun s v => syncVideo t v s) s3 with hs4
  set s5 := (db.watches.take 10000).foldl (fun s w => syncWatch w s) s4
    with hs5
  set s6 := db.likes.foldl (fun s l => syncLike l s) s5 with hs6
  set s7 := db.follows.foldl (fun s f => syncFollow f s) s6 with hs7
  set final := computeVideoSimilarities t s7 with hfin
  -- component frames
  have hWusers : s5.users = s4.users :=
    foldl_comp_frame (fun w s => syncWatch w s) GraphState.users
      (fun w s => syncWatch_users w s) (db.watches.take 10000) s4
  have hLusers : s6.users = s5.users :=
    foldl_comp_frame (fun l s => syncLike l s) GraphState.users
      (fun l s => syncLike_users l s) db.likes s5
  have hFusers : s7.users = s6.users :=
    foldl_comp_frame (fun f s => syncFollow f s) GraphState.users
      (fun f s => syncFollow_users f s) db.follows s6
  have husers : final.users = s4.users := by
    rw [show final.users = s7.users from rfl, hFusers, hLusers, hWusers]
  have hWvideos : s5.videos = s4.videos :=
    foldl_comp_frame (fun w s => syncWatch w s) GraphState.videos
      (fun w s => syncWatch_videos w s) (db.watches.take 10000) s4
  have hLvideos : s6.videos = s5.videos :=
    foldl_comp_frame (fun l s => syncLike l s) GraphState.videos
      (fun l s => syncLike_videos l s) db.likes s5
  have hFvideos : s7.videos = s6.videos :=
    foldl_comp_frame (fun f s => syncFollow f s) GraphState.videos
      (fun f s => by
        obtain ⟨fl, h⟩ := syncFollow_shape f s
        exact (congrArg GraphState.videos h).trans rfl)
      db.follows s6
  have hvideos : final.videos = s4.videos := by
    rw [show final.videos = s7.videos from rfl, hFvideos, hLvideos, hWvideos]
  have hWcats : s5.cats = s4.cats :=
    foldl_comp_frame (fun w s => syncWatch w s) GraphState.cats
      (fun w s => syncWatch_cats w s) (db.watches.take 10000) s4
  have hLcats : s6.cats = s5.cats :=
    foldl_comp_frame (fun l s => syncLike l s) GraphState.cats
      (fun l s => syncLike_cats l s) db.likes s5
  have hFcats : s7.cats = s6.cats :=
    foldl_comp_frame (fun f s => syncFollow f s) GraphState.cats
      (fun f s => by
        obtain ⟨fl, h⟩ := syncFollow_shape f s
        exact (congrArg GraphState.cats h).trans rfl)
      db.follows s6
  have hcats : final.cats = s4.cats := by
    rw [show final.cats = s7.cats from rfl, hFcats, hLcats, hWcats]
  have hUpcats : s3.pcats = s2.pcats :=
    foldl_comp_frame (fun u s => syncUser t u s) GraphState.pcats
      (fun u s => rfl) db.users s2
  have hVpcats : s4.pcats = s3.pcats :=
    foldl_comp_frame (fun v s => syncVideo t v s) GraphState.pcats
      (fun v s => syncVideo_pcats t v s) db.videos s3
  have hWpcats : s5.pcats = s4.pcats :=
    foldl_comp_frame (fun w s => syncWatch w s) GraphState.pcats
      (fun w s => by
        obtain ⟨wl, il, h⟩ := syncWatch_shape w s
        exact (congrArg GraphState.pcats h).trans rfl)
      (db.watches.take 10000) s4
  have hLpcats : s6.pcats = s5.pcats :=
    foldl_comp_frame (fun l s => syncLike l s) GraphState.pcats
      (fun l s => by
        obtain ⟨ll, il, h⟩ := syncLike_shape l s
        exact (congrArg GraphState.pcats h).trans rfl)
      db.likes s5
  have hFpcats : s7.pcats = s6.pcats :=
    foldl_comp_frame (fun f s => syncFollow f s) GraphState.pcats
      (fun f s => by
        obtain ⟨fl, h⟩ := syncFollow_shape f s
        exact (congrArg GraphState.pcats h).trans rfl)
      db.follows s6
  have hpcats : final.pcats = s2.pcats := by
    rw [show final.pcats = s7.pcats from rfl, hFpcats, hLpcats, hWpcats,
      hVpcats, hUpcats]
  have hUpo : s3.parentOf = s2.parentOf :=
    foldl_comp_frame (fun u s => syncUser t u s) GraphState.parentOf
      (fun u s => rfl) db.users s2
  have hVpo : s4.parentOf = s3.parentOf :=
    foldl_comp_frame (fun v s => syncVideo t v s) GraphState.parentOf
      (fun v s => syncVideo_parentOf t v s) db.videos s3
  have hWpo : s5.parentOf = s4.parentOf :=
    foldl_comp_frame (fun w s => syncWatch w s) GraphState.parentOf
      (fun w s => by
        obtain ⟨wl, il, h⟩ := syncWatch_shape w s
        exact (congrArg GraphState.parentOf h).trans rfl)
      (db.watches.take 10000) s4
  have hLpo : s6.parentOf = s5.parentOf :=
    foldl_comp_frame (fun l s => syncLike l s) GraphState.parentOf
      (fun l s => by
        obtain ⟨ll, il, h⟩ := syncLike_shape l s
        exact (congrArg GraphState.parentOf h).trans rfl)
      db.likes s5
  have hFpo : s7.parentOf = s6.parentOf :=
    foldl_comp_frame (fun f s => syncFollow f s) GraphState.parentOf
      (fun f s => by
        obtain ⟨fl, h⟩ := syncFollow_shape f s
        exact (congrArg GraphState.parentOf h).trans rfl)
      db.follows s6
  have hpo : final.parentOf = s2.parentOf := by
    rw [show final.parentOf = s7.parentOf from rfl, hFpo, hLpo, hWpo, hVpo,
      hUpo]
  have hWcb : s5.createdBy = s4.createdBy :=
    foldl_comp_frame (fun w s => syncWatch w s) GraphState.createdBy
      (fun w s => by
        obtain ⟨wl, il, h⟩ := syncWatch_shape w s
        exact (congrArg GraphState.createdBy h).trans rfl)
      (db.watches.take 10000) s4
  have hLcb : s6.createdBy = s5.createdBy :=
    foldl_comp_frame (fun l s => syncLike l s) GraphState.createdBy
      (fun l s => by
        obtain ⟨ll, il, h⟩ := syncLike_shape l s
        exact (congrArg GraphState.createdBy h).trans rfl)
      db.likes s5
  have hFcb : s7.createdBy = s6.createdBy :=
    foldl_comp_frame (fun f s => syncFollow f s) GraphState.createdBy
      (fun f s => by
        obtain ⟨fl, h⟩ := syncFollow_shape f s
        exact (congrArg GraphState.createdBy h).trans rfl)
      db.follows s6
  have hcb : final.createdBy = s4.createdBy := by
    rw [show final.createdBy = s7.createdBy from rfl, hFcb, hLcb, hWcb]
  have hWbt : s5.belongsTo = s4.belongsTo :=
    foldl_comp_frame (fun w s => syncWatch w s) GraphState.belongsTo
      (fun w s => by
        obtain ⟨wl, il, h⟩ := syncWatch_shape w s
        exact (congrArg GraphState.belongsTo h).trans rfl)
      (db.watches.take 10000) s4
  have hLbt : s6.belongsTo = s5.belongsTo :=
    foldl_comp_frame (fun l s => syncLike l s) GraphState.belongsTo
      (fun l s => by
        obtain ⟨ll, il, h⟩ := syncLike_shape l s
        exact (congrArg GraphState.belongsTo h).trans rfl)
      db.likes s5
  have hFbt : s7.belongsTo = s6.belongsTo :=
    foldl_comp_frame (fun f s => syncFollow f s) GraphState.belongsTo
      (fun f s => by
        obtain ⟨fl, h⟩ := syncFollow_shape f s
        exact (congrArg GraphState.belongsTo h).trans rfl)
      db.follows s6
  have hbt : final.belongsTo = s4.belongsTo := by
    rw [show final.belongsTo = s7.belongsTo from rfl, hFbt, hLbt, hWbt]
  have hLwatches : s6.watches = s5.watches :=
    foldl_comp_frame (fun l s => syncLike l s) GraphState.watches
      (fun l s => by
        obtain ⟨ll, il, h⟩ := syncLike_shape l s
        exact (congrArg GraphState.watches h).trans rfl)
      db.likes s5
  have hFwatches : s7.watches = s6.watches :=
    foldl_comp_frame (fun f s => syncFollow f s) GraphState.watches
      (fun f s => by
        obtain ⟨fl, h⟩ := syncFollow_shape f s
        exact (congrArg GraphState.watches h).trans rfl)
      db.follows s6
  have hwatches : final.watches = s5.watches := by
    rw [show final.watches = s7.watches from rfl, hFwatches, hLwatches]
  have hFlikes : s7.likes = s6.likes :=
    foldl_comp_frame (fun f s => syncFollow f s) GraphState.likes
      (fun f s => by
        obtain ⟨fl, h⟩ := syncFollow_shape f s
        exact (congrArg GraphState.likes h).trans rfl)
      db.follows s6
  have hlikes : final.likes = s6.likes := by
    rw [show final.likes = s7.likes from rfl, hFlikes]
  have hFints : s7.interests = s6.interests :=
    foldl_comp_frame (fun f s => syncFollow f s) GraphState.interests
      (fun f s => by
        obtain ⟨fl, h⟩ := syncFollow_shape f s
        exact (congrArg GraphState.interests h).trans rfl)
      db.follows s6
  have hints : final.interests = s6.interests := by
    rw [show final.interests = s7.interests from rfl, hFints]
  have hPsim : s1.similar = [] :=
    foldl_comp_frame (fun pc s => syncParentCategory t pc s)
      GraphState.similar (fun pc s => rfl) db.parentCategories
      GraphState.empty
  have hCsim : s2.similar = s1.similar :=
    foldl_comp_frame (fun c s => syncCategory t c s) GraphState.similar
      (fun c s => rfl) db.categories s1
  have hUsim : s3.similar = s2.similar :=
    foldl_comp_frame (fun u s => syncUser t u s) GraphState.similar
      (fun u s => rfl) db.users s2
  have hVsim : s4.similar = s3.similar :=
    foldl_comp_frame (fun v s => syncVideo t v s) GraphState.similar
      (fun v s => syncVideo_similar t v s) db.videos s3
  have hWsim : s5.similar = s4.similar :=
    foldl_comp_frame (fun w s => syncWatch w s) GraphState.similar
      (fun w s => by
        obtain ⟨wl, il, h⟩ := syncWatch_shape w s
        exact (congrArg GraphState.similar h).trans rfl)
      (db.watches.take 10000) s4
  have hLsim : s6.similar = s5.similar :=
    foldl_comp_frame (fun l s => syncLike l s) GraphState.similar
      (fun l s => by
        obtain ⟨ll, il, h⟩ := syncLike_shape l s
        exact (congrArg GraphState.similar h).trans rfl)
      db.likes s5
  have hFsim : s7.similar = s6.similar :=
    foldl_comp_frame (fun f s => syncFollow f s) GraphState.similar
      (fun f s => by
        obtain ⟨fl, h⟩ := syncFollow_shape f s
        exact (congrArg GraphState.similar h).trans rfl)
      db.follows s6
  have hsim7 : s7.similar = [] := by
    rw [hFsim, hLsim, hWsim, hVsim, hUsim, hCsim, hPsim]
  -- nodup invariant at the state entering the similarity phase
  have hnd4 : NodupInv s4 := by
    refine foldl_pres (fun v s => syncVideo t v s) NodupInv
      (fun v s => syncVideo_nodup t v s) db.videos _ ?_
    refine foldl_pres (fun u s => syncUser t u s) NodupInv
      (fun u s => syncUser_nodup t u s) db.users _ ?_
    refine foldl_pres (fun c s => syncCategory t c s) NodupInv
      (fun c s => syncCategory_nodup t c s) db.categories _ ?_
    refine foldl_pres (fun pc s => syncParentCategory t pc s) NodupInv
      (fun pc s => syncParentCategory_nodup t pc s) db.parentCategories _ ?_
    exact nodupInv_empty
  have hnd7 : (s7.videos.map VideoNode.videoId).Nodup := by
    rw [hFvideos, hLvideos, hWvideos]
    exact hnd4.videosN
  have htake : ((db.watches.take 10000).map
      (fun w => (w.userId, w.videoId))).Nodup :=
    List.Nodup.sublist
      (List.Sublist.map _ (List.take_sublist 10000 db.watches))
      hwf.watchKeysNodup
  refine ⟨?_, ?_, ?_, ?_, ?_, ?_, ?_, ?_, ?_, ?_, ?_, ?_, ?_, ?_⟩
  · -- userF
    intro u hu
    obtain ⟨n, hn, hname⟩ := foldUser_establish t db.users s2
      hwf.usersNodup u hu
    have hn4 : lookupK UserNode.userId u.id s4.users = some n :=
      foldVideo_users_lookup_pres t db.videos s3 u.id n hn
    refine ⟨scrubUser n, ?_, ?_⟩
    · rw [show final.scrub.users = final.users.map scrubUser from rfl,
        lookupK_map UserNode.userId UserNode.userId scrubUser scrubUser_key,
        husers, hn4]
      rfl
    · exact hname
  · -- pcatF
    intro pc hpc
    obtain ⟨n, hn, hname⟩ := foldPCat_establish t db.parentCategories
      GraphState.empty hwf.pcatsNodup pc hpc
    have hn2 : lookupK PCatNode.parentCategoryId pc.parentCategoryId
        s2.pcats = some n :=
      foldCat_pcats_lookup_pres t db.categories s1 pc.parentCategoryId n hn
    refine ⟨scrubPCat n, ?_, ?_⟩
    · rw [show final.scrub.pcats = final.pcats.map scrubPCat from rfl,
        lookupK_map PCatNode.parentCategoryId PCatNode.parentCategoryId
          scrubPCat scrubPCat_key, hpcats, hn2]
      rfl
    · exact hname
  · -- catF
    intro c hc
    obtain ⟨n, hn, hname, hpar⟩ := foldCat_establish_cat t db.categories s1
      hwf.catsNodup c hc
    have hn3 : lookupK CatNode.categoryId c.categoryId s3.cats = some n := by
      rw [show s3.cats = s2.cats from foldl_comp_frame
        (fun u s => syncUser t u s) GraphState.cats (fun u s => rfl)
        db.users s2]
      exact hn
    have hn4 : lookupK CatNode.categoryId c.categoryId s4.cats = some n :=
      foldVideo_cats_lookup_pres t db.videos s3 c.categoryId n hn3
    refine ⟨scrubCat n, ?_, ?_, ?_⟩
    · rw [show final.scrub.cats = final.cats.map scrubCat from rfl,
        lookupK_map CatNode.categoryId CatNode.categoryId scrubCat
          scrubCat_key, hcats, hn4]
      rfl
    · exact hname
    · exact hpar
  · -- catPcatF
    intro c hc
    rw [show final.scrub.pcats = final.pcats.map scrubPCat from rfl,
      map_key_map_scrub PCatNode.parentCategoryId scrubPCat scrubPCat_key,
      hpcats]
    exact foldCat_establish_pcmem t db.categories s1 c hc
  · -- parentOfF
    intro c hc
    rw [show final.scrub.parentOf = final.parentOf from rfl, hpo]
    exact foldCat_establish_pomem t db.categories s1 c hc
  · -- videoF
    intro v hv
    obtain ⟨n, hn, htitle, hcat, hpcat⟩ := foldVideo_establish_video t
      db.videos s3 hwf.videosNodup v hv
    refine ⟨scrubVideo n, ?_, ?_, ?_, ?_⟩
    · rw [show final.scrub.videos = final.videos.map scrubVideo from rfl,
        lookupK_map VideoNode.videoId VideoNode.videoId scrubVideo
          scrubVideo_key, hvideos, hn]
      rfl
    · exact htitle
    · exact hcat
    · exact hpcat
  · -- creatorF
    intro v hv
    rw [show final.scrub.users = final.users.map scrubUser from rfl,
      map_key_map_scrub UserNode.userId scrubUser scrubUser_key, husers]
    exact foldVideo_establish_creator t db.videos s3 v hv
  · -- createdByF
    intro v hv
    rw [show final.scrub.createdBy = final.createdBy from rfl, hcb]
    exact foldVideo_establish_createdBy t db.videos s3 v hv
  · -- vcatF
    intro v hv c hcmem
    rw [show final.scrub.cats = final.cats.map scrubCat from rfl,
      map_key_map_scrub CatNode.categoryId scrubCat scrubCat_key, hcats]
    exact foldVideo_establish_vcat t db.videos s3 v hv c hcmem
  · -- belongsF
    intro v hv c hcmem
    rw [show final.scrub.belongsTo = final.belongsTo from rfl, hbt]
    exact foldVideo_establish_belongs t db.videos s3 v hv c hcmem
  · -- watchF
    intro w hw mv hmv hum
    rw [show final.scrub.videos = final.videos.map scrubVideo from rfl,
      lookupK_map VideoNode.videoId VideoNode.videoId scrubVideo
        scrubVideo_key, hvideos] at hmv
    rw [show final.scrub.users = final.users.map scrubUser from rfl,
      map_key_map_scrub UserNode.userId scrubUser scrubUser_key, husers]
      at hum
    cases hv4 : lookupK VideoNode.videoId w.videoId s4.videos with
    | none => rw [hv4] at hmv; exact Option.noConfusion hmv
    | some v =>
        rw [hv4] at hmv
        have hveq : scrubVideo v = mv := Option.some.inj hmv
        obtain ⟨un, hun⟩ := lookupK_isSome_of_mem_map_key UserNode.userId
          w.userId s4.users hum
        obtain ⟨hwatch, hintf⟩ := foldWatch_establish
          (db.watches.take 10000) s4 htake w hw v hv4 ⟨un, hun⟩
        constructor
        · rw [show final.scrub.watches = final.watches from rfl, hwatches]
          exact hwatch
        · intro c hcmem hckey
          rw [← hveq] at hcmem
          rw [show final.scrub.cats = final.cats.map scrubCat from rfl,
            map_key_map_scrub CatNode.categoryId scrubCat scrubCat_key,
            hcats] at hckey
          obtain ⟨cn, hcn⟩ := lookupK_isSome_of_mem_map_key
            CatNode.categoryId c s4.cats hckey
          rw [show final.scrub.interestKeys =
            final.interests.map InterestedInRel.key from rfl, hints]
          refine foldLike_interests_mono db.likes s5 (w.userId, c) ?_
          exact hintf c hcmem ⟨cn, hcn⟩
  · -- likeF
    intro l hl mv hmv hum
    rw [show final.scrub.videos = final.videos.map scrubVideo from rfl,
      lookupK_map VideoNode.videoId VideoNode.videoId scrubVideo
        scrubVideo_key, hvideos] at hmv
    rw [show final.scrub.users = final.users.map scrubUser from rfl,
      map_key_map_scrub UserNode.userId scrubUser scrubUser_key, husers]
      at hum
    cases hv4 : lookupK VideoNode.videoId l.videoId s4.videos with
    | none => rw [hv4] at hmv; exact Option.noConfusion hmv
    | some v =>
        rw [hv4] at hmv
        have hveq : scrubVideo v = mv := Option.some.inj hmv
        obtain ⟨un, hun⟩ := lookupK_isSome_of_mem_map_key UserNode.userId
          l.userId s4.users hum
        have hv5 : lookupK VideoNode.videoId l.videoId s5.videos = some v :=
          by rw [hWvideos]; exact hv4
        have hun5 : lookupK UserNode.userId l.userId s5.users = some un :=
          by rw [hWusers]; exact hun
        obtain ⟨hlike, hintf⟩ := foldLike_establish db.likes s5
          hwf.likeKeysNodup l hl v hv5 ⟨un, hun5⟩
        constructor
        · rw [show final.scrub.likes = final.likes from rfl, hlikes]
          exact hlike
        · intro c hcmem hckey
          rw [← hveq] at hcmem
          rw [show final.scrub.cats = final.cats.map scrubCat from rfl,
            map_key_map_scrub CatNode.categoryId scrubCat scrubCat_key,
            hcats] at hckey
          obtain ⟨cn, hcn⟩ := lookupK_isSome_of_mem_map_key
            CatNode.categoryId c s4.cats hckey
          have hcn5 : lookupK CatNode.categoryId c s5.cats = some cn := by
            rw [hWcats]; exact hcn
          rw [show final.scrub.interestKeys =
            final.interests.map InterestedInRel.key from rfl, hints]
          exact hintf c hcmem ⟨cn, hcn5⟩
  · -- followF
    intro f hf h1 h2
    rw [show final.scrub.users = final.users.map scrubUser from rfl,
      map_key_map_scrub UserNode.userId scrubUser scrubUser_key, husers]
      at h1 h2
    obtain ⟨u1, hu1⟩ := lookupK_isSome_of_mem_map_key UserNode.userId
      f.followerId s4.users h1
    obtain ⟨u2, hu2⟩ := lookupK_isSome_of_mem_map_key UserNode.userId
      f.followeeId s4.users h2
    have hu16 : lookupK UserNode.userId f.followerId s6.users = some u1 := by
      rw [hLusers, hWusers]; exact hu1
    have hu26 : lookupK UserNode.userId f.followeeId s6.users = some u2 := by
      rw [hLusers, hWusers]; exact hu2
    rw [show final.scrub.follows = final.follows from rfl,
      show final.follows = s7.follows from rfl]
    exact foldFollow_establish db.follows s6 hwf.followKeysNodup f hf
      ⟨u1, hu16⟩ ⟨u2, hu26⟩
  · -- simF
    intro p hp c1 c2 hc1 hc2 hge
    rw [show final.scrub.videos = final.videos.map scrubVideo from rfl,
      show final.videos = s7.videos from rfl, mem_videoPairs] at hp
    obtain ⟨hp1, hp2, hplt⟩ := hp
    obtain ⟨a, ha, haeq⟩ := List.mem_map.mp hp1
    obtain ⟨b, hb, hbeq⟩ := List.mem_map.mp hp2
    have hq : (a, b) ∈ videoPairs s7.videos := by
      rw [mem_videoPairs]
      refine ⟨ha, hb, ?_⟩
      rw [show a.videoId = (scrubVideo a).videoId from rfl,
        show b.videoId = (scrubVideo b).videoId from rfl, haeq, hbeq]
      exact hplt
    have hac : a.categories = some c1 := by
      rw [show a.categories = (scrubVideo a).categories from rfl, haeq]
      exact hc1
    have hbc : b.categories = some c2 := by
      rw [show b.categories = (scrubVideo b).categories from rfl, hbeq]
      exact hc2
    obtain ⟨e, he, hesim⟩ := simPhase_establish t s7 hnd7 hsim7 (a, b)
      hq c1 c2 hac hbc hge
    refine ⟨scrubSimilar e, ?_, ?_⟩
    · have hpk : pairKey p = pairKey (a, b) := by
        rcases p with ⟨x, y⟩
        unfold pairKey
        rw [show (x, y).1 = x from rfl, show (x, y).2 = y from rfl]
        rw [show x.videoId = (scrubVideo a).videoId from congrArg
          VideoNode.videoId haeq.symm]
        rw [show y.videoId = (scrubVideo b).videoId from congrArg
          VideoNode.videoId hbeq.symm]
        rfl
      rw [hpk]
      rw [show final.scrub.similar = final.similar.map scrubSimilar from rfl,
        lookupK_map SimilarToRel.skey SimilarToRel.skey scrubSimilar
          scrubSimilar_key, he]
      rfl
    · rw [show (scrubSimilar e).similarity = e.similarity from rfl]
      exact hesim

/-- C5 (amended): running `bulk_sync_all_data_to_neo4j` a second time against
unchanged relational data creates no duplicate nodes or relationships (every
merge key stays duplicate-free after both runs), and changes nothing in the
graph except `updated_at`-style write timestamps **and the `INTERESTED_IN`
score/count payloads** (which the re-fired `ON MATCH SET` clauses of
`sync_watch_to_neo4j` / `sync_like_to_neo4j` increment again): the two
states agree after erasing timestamps and the interest payloads.  Hypothesis:
the relational rows respect the Django schema (primary keys and
`unique_together` pairs are duplicate-free). -/
theorem claimC5_bulk_sync_idempotent_up_to_timestamps (t1 t2 : Time)
    (db : RelationalDB) (hwf : DBWf db) :
    (bulkSyncAllData t2 db (bulkSyncAllData t1 db GraphState.empty)).scrub =
      (bulkSyncAllData t1 db GraphState.empty).scrub ∧
    NodupInv (bulkSyncAllData t1 db GraphState.empty) ∧
    NodupInv (bulkSyncAllData t2 db
      (bulkSyncAllData t1 db GraphState.empty)) := by
  have hnd1 : NodupInv (bulkSyncAllData t1 db GraphState.empty) :=
    bulkSync_nodup t1 db GraphState.empty nodupInv_empty
  have hf : SyncFacts db (bulkSyncAllData t1 db GraphState.empty).scrub :=
    bulkSync_establish t1 db hwf
  exact ⟨bulkSync_scrub t2 db _ hnd1.videosN hf, hnd1,
    bulkSync_nodup t2 db _ hnd1⟩

/-- Witness for C5 at the concrete fixture `c5db` with sync times 100
and 200. -/
theorem claimC5_bulk_sync_idempotent_up_to_timestamps_witness :
    DBWf c5db ∧
    ((bulkSyncAllData 200 c5db
        (bulkSyncAllData 100 c5db GraphState.empty)).scrub =
      (bulkSyncAllData 100 c5db GraphState.empty).scrub ∧
    NodupInv (bulkSyncAllData 100 c5db GraphState.empty) ∧
    NodupInv (bulkSyncAllData 200 c5db
      (bulkSyncAllData 100 c5db GraphState.empty))) :=
  ⟨⟨by decide, by decide, by decide, by decide, by decide, by decide,
    by decide⟩,
   claimC5_bulk_sync_idempotent_up_to_timestamps 100 200 c5db
     ⟨by decide, by decide, by decide, by decide, by decide, by decide,
      by decide⟩⟩

/-- Counterexample to C5 as stated: the second bulk sync over unchanged
relational data does change a relationship property's value — the
`INTERESTED_IN` edge for user 1 / category 7 goes from count 2, score 7/2
(one watch of weight 3/2 plus one like of weight 2) to count 4, score 7,
because the `ON MATCH SET i.score = i.score + ..., i.count = i.count + 1`
clauses fire again for every re-synced watch and like. -/
theorem claimC5_resync_changes_interest_payload :
    interestCountOf (bulkSyncAllData 100 c5db GraphState.empty) 1 7 = 2 ∧
    interestCountOf (bulkSyncAllData 200 c5db
      (bulkSyncAllData 100 c5db GraphState.empty)) 1 7 = 4 ∧
    interestScoreOf (bulkSyncAllData 100 c5db GraphState.empty) 1 7 = 7/2 ∧
    interestScoreOf (bulkSyncAllData 200 c5db
      (bulkSyncAllData 100 c5db GraphState.empty)) 1 7 = 7 :=
  ⟨by with_unfolding_all rfl, by with_unfolding_all rfl,
   by with_unfolding_all rfl, by with_unfolding_all rfl⟩

end RecSys
